import Mathlib

/-!
# medInria database importer (`src/src/medSql/medDatabaseImporter.cpp`)

A shallow embedding of `medDatabaseImporter`: the metadata normalizer, the
volume key, the catalog lookups and get-or-create writers, the reader/writer
resolution and the two-pass `run` loop, followed by the properties proved
about them.

Conventions of the embedding.
* `QString` is `String`; the Qt string functions used by the importer
  (`simplified`, `replace`, `split`, `contains`, `toDouble`, `number`) are
  written out as structural recursions on the character list. Strings are
  ordered as Qt orders them, by their UTF-16 code units.
* A `double` is kept as the exact decimal value of a binary64 number:
  `toDouble` rounds what it reads to the nearest binary64 number, and
  `number(x, 'g', 5)` rounds that value to five significant digits.
* `metaDataValues(key)[0]` on an empty list is outside the contract of
  `QList`; the embedding gives the empty string there. The records of the
  final loop carry `FilePaths` and `FileName` (`addAdditionalMetaData`); the
  statements about a call of `isPartialImportAttempt` or of
  `createMissingImages` on a record of any origin assume that the list read
  in this way is not empty.
* `dtkAbstractData` is the record `DtkData`; its metadata bag
  (`QHash<QString, QStringList>`) is an association list.
* The SQL catalog is four lists of rows; a `SELECT ... WHERE` followed by
  `query.first()` is the first row, in table order, that satisfies the
  `WHERE` clause; an `INSERT` appends a row whose id is one more than the
  largest id of the table.
* Readers, writers, the file system and the storage area are fields of an
  environment `Env`.
-/

namespace MedInria

/-! ## Qt string functions -/

/-- `QChar::isSpace`: the ASCII white space characters `\t \n \v \f \r` and
the blank, NEL, the no-break space and the Unicode separators. -/
def isSpace (c : Char) : Bool :=
  let n := c.toNat
  (9 ≤ n && n ≤ 13) || n == 32 || n == 0x85 || n == 0xA0 || n == 0x1680 ||
  (0x2000 ≤ n && n ≤ 0x200A) || n == 0x2028 || n == 0x2029 || n == 0x202F ||
  n == 0x205F || n == 0x3000

/-- Drops the leading white space of a character list. -/
def dropSpaces : List Char → List Char
  | [] => []
  | c :: cs => if isSpace c then dropSpaces cs else c :: cs

/-- The body of `QString::simplified` once the leading white space is gone:
`pending` records that a run of white space has been crossed since the last
character that was kept; the run becomes one blank when another character
follows and disappears at the end of the string. -/
def simplifiedGo : Bool → List Char → List Char
  | _, [] => []
  | pending, c :: cs =>
    if isSpace c then simplifiedGo true cs
    else if pending then ' ' :: c :: simplifiedGo false cs
    else c :: simplifiedGo false cs

/-- `QString::simplified()`: white space removed from both ends, every inner
run of white space replaced by one blank. -/
def simplified (s : String) : String :=
  ⟨simplifiedGo false (dropSpaces s.data)⟩

/-- `QString::replace(QChar before, QChar after)`. -/
def replaceChar (before after : Char) (s : String) : String :=
  ⟨s.data.map fun c => if c = before then after else c⟩

/-- Splits a character list at every occurrence of `sep`, keeping empty
parts (the default `QString::KeepEmptyParts`). -/
def splitChars (sep : Char) : List Char → List (List Char)
  | [] => [[]]
  | c :: cs =>
    if c = sep then [] :: splitChars sep cs
    else
      match splitChars sep cs with
      | [] => [[c]]
      | w :: ws => (c :: w) :: ws

/-- `QString::split(" ")`: the separator is the single blank. -/
def splitOnBlank (s : String) : List String :=
  (splitChars ' ' s.data).map String.mk

/-- Substring test on character lists. -/
def containsChars : List Char → List Char → Bool
  | [], sub => sub.isEmpty
  | c :: cs, sub => sub.isPrefixOf (c :: cs) || containsChars cs sub

/-- `QString::contains(const QString &)`, case sensitive. -/
def qContains (s sub : String) : Bool := containsChars s.data sub.data

/-- The UTF-16 code units of a character, as a `QString` stores it: the
code of a character of the basic plane, a surrogate pair for the others. -/
def utf16Units (c : Char) : List Nat :=
  if c.toNat < 0x10000 then [c.toNat]
  else [0xD800 + (c.toNat - 0x10000) / 0x400, 0xDC00 + (c.toNat - 0x10000) % 0x400]

/-- The UTF-16 code units of a text. -/
def utf16 : List Char → List Nat
  | [] => []
  | c :: cs => utf16Units c ++ utf16 cs

/-- Lexicographic order on code units; a proper prefix comes first. -/
def ltUnits : List Nat → List Nat → Bool
  | _, [] => false
  | [], _ :: _ => true
  | a :: as, b :: bs =>
    if a < b then true
    else if b < a then false
    else ltUnits as bs

/-- `QString::operator<` on character lists: lexicographic on the UTF-16
code units (`ucstrcmp`), not on the code points. -/
def qLtChars (a b : List Char) : Bool := ltUnits (utf16 a) (utf16 b)

/-- `QString::operator<`. -/
def qLt (a b : String) : Bool := qLtChars a.data b.data

/-- `QString::setNum(int)` / `QString::number(int)` for a number that is not
negative. -/
def setNum (n : Nat) : String := Nat.repr n

/-! ## QFileInfo -/

/-- The characters after the last `/` (all of them when there is none). -/
def afterLastSlash : List Char → List Char
  | [] => []
  | c :: cs =>
    if cs.contains '/' then afterLastSlash cs
    else if c = '/' then cs else c :: cs

/-- The characters before the last `/`; `none` when there is no `/`. -/
def beforeLastSlash : List Char → Option (List Char)
  | [] => none
  | c :: cs =>
    match beforeLastSlash cs with
    | some d => some (c :: d)
    | none => if c = '/' then some [] else none

/-- The characters before the first `.`. -/
def beforeFirstDot : List Char → List Char
  | [] => []
  | c :: cs => if c = '.' then [] else c :: beforeFirstDot cs

/-- The characters before the last `.` (all of them when there is none). -/
def beforeLastDot : List Char → List Char
  | [] => []
  | c :: cs =>
    if cs.contains '.' then c :: beforeLastDot cs
    else if c = '.' then [] else c :: cs

/-- `QFileInfo::filePath()`: the path the object was built from. -/
def filePath (p : String) : String := p

/-- `QFileInfo::fileName()`: the name of the file, without the path. -/
def fileName (p : String) : String := ⟨afterLastSlash p.data⟩

/-- `QFileInfo::baseName()`: the file name up to the first `.`. -/
def baseName (p : String) : String := ⟨beforeFirstDot (afterLastSlash p.data)⟩

/-- `QFileInfo::completeBaseName()`: the file name up to the last `.`. -/
def completeBaseName (p : String) : String := ⟨beforeLastDot (afterLastSlash p.data)⟩

/-- `QFileInfo::dir().path()`: what precedes the last `/`; `"."` for a bare
file name and `"/"` for a file of the root directory. -/
def dirPath (p : String) : String :=
  match beforeLastSlash p.data with
  | none => "."
  | some [] => "/"
  | some d => ⟨d⟩

/-! ## Numbers in strings -/

/-- Value of a decimal digit. -/
def digitVal (c : Char) : Option Nat :=
  if 48 ≤ c.toNat ∧ c.toNat ≤ 57 then some (c.toNat - 48) else none

/-- Reads a run of decimal digits from the front: the accumulated value, the
number of digits read, and the rest. -/
def readDigits : List Char → Nat → Nat → Nat × Nat × List Char
  | [], acc, cnt => (acc, cnt, [])
  | c :: cs, acc, cnt =>
    match digitVal c with
    | some d => readDigits cs (acc * 10 + d) (cnt + 1)
    | none => (acc, cnt, c :: cs)

/-- Removes trailing white space. -/
def dropTrailingSpaces (cs : List Char) : List Char :=
  (dropSpaces cs.reverse).reverse

/-- Reads an optional sign: `true` for `-`. -/
def readSign : List Char → Bool × List Char
  | '-' :: cs => (true, cs)
  | '+' :: cs => (false, cs)
  | cs => (false, cs)

/-- A `double`: a finite number written as the exact decimal
`± mant * 10 ^ exp` (every binary64 number is such a decimal), an infinity,
or not-a-number. -/
inductive QDouble where
  | fin (neg : Bool) (mant : Nat) (exp : Int)
  | inf (neg : Bool)
  | nan
deriving DecidableEq, Repr

/-- Number of binary digits of `n`, counted by at most `fuel` halvings. -/
def bitLengthFuel : Nat → Nat → Nat
  | 0, _ => 0
  | fuel + 1, n => if n = 0 then 0 else bitLengthFuel fuel (n / 2) + 1

/-- Number of binary digits of `n` (0 for 0): `2 ^ (bitLength n - 1) ≤ n <
2 ^ bitLength n` for a positive `n`. -/
def bitLength (n : Nat) : Nat := bitLengthFuel n n

/-- The decimal `mant * 10 ^ exp` as a fraction of natural numbers. -/
def decimalFraction (mant : Nat) (exp : Int) : Nat × Nat :=
  if 0 ≤ exp then (mant * 10 ^ exp.toNat, 1) else (mant, 10 ^ (-exp).toNat)

/-- The integer `e` with `2 ^ e ≤ num / den < 2 ^ (e + 1)`, for positive
`num` and `den`. -/
def binaryExponent (num den : Nat) : Int :=
  let e0 : Int := (bitLength num : Int) - (bitLength den : Int)
  let reaches : Bool :=
    if 0 ≤ e0 then decide (den * 2 ^ e0.toNat ≤ num) else decide (den ≤ num * 2 ^ (-e0).toNat)
  if reaches then e0 else e0 - 1

/-- The binary64 number nearest to the positive decimal `mant * 10 ^ exp`,
ties to the even significand: the significand `m` and the exponent `q` of
the result `m * 2 ^ q`, with `q ≥ -1074` (the subnormal numbers share the
exponent `-1074`) and `m ≤ 2 ^ 53`. A decimal below half the smallest
subnormal number gives `m = 0`. -/
def nearestBinary64 (mant : Nat) (exp : Int) : Nat × Int :=
  let (num, den) := decimalFraction mant exp
  let q : Int := max (binaryExponent num den - 52) (-1074)
  let (n, d) := if 0 ≤ q then (num, den * 2 ^ q.toNat) else (num * 2 ^ (-q).toNat, den)
  let m0 := n / d
  let r := n % d
  let m := if 2 * r > d ∨ (2 * r = d ∧ m0 % 2 = 1) then m0 + 1 else m0
  (m, q)

/-- What `QString::toDouble` returns for the decimal `± mant * 10 ^ exp` it
has read: the nearest binary64 number, written as the exact decimal it is
(`m * 2 ^ q` is `m * 5 ^ (-q) * 10 ^ q` for a negative `q`). A decimal whose
nearest binary64 number would be `2 ^ 1024` or more is out of range:
`qstrtod` reports that through its `ok` flag, and Qt 4 returns `0.0` for
every conversion `qstrtod` reports as failed. A decimal that rounds to zero
gives zero. -/
def roundBinary64 (neg : Bool) (mant : Nat) (exp : Int) : QDouble :=
  if mant = 0 then .fin neg 0 0
  else
    let (m, q) := nearestBinary64 mant exp
    if 0 ≤ q then
      if 2 ^ 1024 ≤ m * 2 ^ q.toNat then .fin false 0 0 else .fin neg (m * 2 ^ q.toNat) 0
    else if m = 0 then .fin false 0 0
    else .fin neg (m * 5 ^ (-q).toNat) q

/-- `QString::toDouble()` in the C locale: surrounding white space is
ignored, then `[sign] digits [. digits] [(e|E) [sign] digits]` with at
least one digit in the mantissa, or `nan`, `inf`, `+inf`, `-inf`; anything
else is a failed conversion, for which Qt returns `0.0`.

The decimal that was written is rounded to the nearest binary64 number
(`roundBinary64`); the value kept is that binary64 number, as an exact
decimal, so that `numberG` formats the number the code formats. -/
def toDouble (s : String) : QDouble :=
  let body := dropTrailingSpaces (dropSpaces s.data)
  if body = "nan".data then .nan
  else if body = "inf".data ∨ body = "+inf".data then .inf false
  else if body = "-inf".data then .inf true
  else
    let (neg, r0) := readSign body
    let (ip, ni, r1) := readDigits r0 0 0
    let (m, nf, r2) :=
      match r1 with
      | '.' :: r =>
        let (fp, nf, r') := readDigits r ip 0
        (fp, nf, r')
      | _ => (ip, 0, r1)
    if ni + nf = 0 then .fin false 0 0
    else
      match r2 with
      | [] => roundBinary64 neg m (-(nf : Int))
      | e :: r3 =>
        if e = 'e' ∨ e = 'E' then
          let (eneg, r4) := readSign r3
          let (ev, ne, r5) := readDigits r4 0 0
          if ne = 0 ∨ r5 ≠ [] then .fin false 0 0
          else roundBinary64 neg m ((if eneg then -(ev : Int) else (ev : Int)) - (nf : Int))
        else .fin false 0 0

/-- Decimal digits of `n` pushed in front of `acc`, most significant first;
the first argument bounds the number of digits produced. -/
def digitsFuel : Nat → Nat → List Nat → List Nat
  | 0, _, acc => acc
  | fuel + 1, n, acc =>
    if n < 10 then n :: acc else digitsFuel fuel (n / 10) (n % 10 :: acc)

/-- The decimal digits of a number, most significant first (`[]` for 0). -/
def digitsOf (n : Nat) : List Nat := if n = 0 then [] else digitsFuel n n []

/-- Rounds a positive mantissa to `p` significant digits, ties to even:
returns the `p`-digit mantissa and the number of digits that were dropped
(negative when the mantissa was padded, one more than expected when the
rounding carried into a new digit). -/
def roundSig (p : Nat) (m : Nat) : Nat × Int :=
  let n := (digitsOf m).length
  if n ≤ p then (m * 10 ^ (p - n), (n : Int) - (p : Int))
  else
    let k := n - p
    let q := m / 10 ^ k
    let r := m % 10 ^ k
    let q' := if 2 * r > 10 ^ k ∨ (2 * r = 10 ^ k ∧ q % 2 = 1) then q + 1 else q
    if q' = 10 ^ p then (10 ^ (p - 1), (k : Int) + 1) else (q', (k : Int))

/-- Removes the trailing zeros of a digit list. -/
def stripZeros (ds : List Nat) : List Nat :=
  (ds.reverse.dropWhile (· == 0)).reverse

/-- Text of a digit list. -/
def digitsText (ds : List Nat) : String :=
  ⟨ds.map Nat.digitChar⟩

/-- `QString::number(double, 'g', 5)` and its siblings: the `%g` conversion
with precision `p` in the C locale. The value is rounded to `p` significant
digits; with `x` the decimal exponent of the rounded value, the fixed
notation is used when `-4 ≤ x < p` and the exponent notation (exponent of at
least two digits) otherwise; trailing zeros of the fraction, and a decimal
point left bare, are removed. -/
def numberG (p : Nat) : QDouble → String
  | .nan => "nan"
  | .inf neg => if neg then "-inf" else "inf"
  | .fin neg m e =>
    if m = 0 then "0"
    else
      let (q, k) := roundSig p m
      let x : Int := e + k + (p : Int) - 1
      let ds := stripZeros (digitsOf q)
      let sign := if neg then "-" else ""
      if x < -4 ∨ x ≥ (p : Int) then
        let frac := ds.drop 1
        let expText := (if x < 0 then "-" else "+") ++
          (if x.natAbs < 10 then "0" else "") ++ setNum x.natAbs
        sign ++ digitsText (ds.take 1) ++
          (if frac = [] then "" else "." ++ digitsText frac) ++ "e" ++ expText
      else if x < 0 then
        sign ++ "0." ++ digitsText (List.replicate (x.natAbs - 1) 0) ++ digitsText ds
      else
        let ni := x.toNat + 1
        let ip := ds.take ni ++ List.replicate (ni - ds.length) 0
        let frac := ds.drop ni
        sign ++ digitsText ip ++ (if frac = [] then "" else "." ++ digitsText frac)

/-- `QString::toInt()`: an optional sign and decimal digits, surrounding
white space ignored, within the range of a 32-bit `int`; `0` when the
conversion fails. -/
def toInt (s : String) : Int :=
  let body := dropTrailingSpaces (dropSpaces s.data)
  let (neg, r0) := readSign body
  let (v, n, r1) := readDigits r0 0 0
  if n = 0 ∨ r1 ≠ [] then 0
  else
    let i : Int := if neg then -(v : Int) else (v : Int)
    if -2147483648 ≤ i ∧ i ≤ 2147483647 then i else 0

/-! ## Decoded records (`dtkAbstractData`) -/

/-- The metadata keys the importer reads and writes: the
`medMetaDataHelper::KEY_...()` constants and the literal keys `"Size"`,
`"FilePaths"` and `"FileName"` of `addAdditionalMetaData`.
`medMetaDataHelper` is not part of the sources at hand; its keys are taken
as pairwise distinct, `KEY_Size()` as the key `"Size"` and `KEY_FilePaths()`
as the key `"FilePaths"`. -/
inductive MetaKey where
  | PatientName | StudyDescription | SeriesDescription | StudyID | SeriesID
  | Orientation | SeriesNumber | SequenceName | SliceThickness | Rows | Columns
  | Age | BirthDate | Gender | Description | Modality | Protocol | Comments
  | Status | AcquisitionDate | ImportationDate | Referee | Performer
  | Institution | Report | ThumbnailPath | FilePaths | Size | FileName
deriving DecidableEq, Repr

/-- The metadata bag of a `dtkAbstractObject`. -/
abbrev MetaData := List (MetaKey × List String)

/-- Values stored under a key, if the key is present. -/
def lookupMeta (k : MetaKey) : MetaData → Option (List String)
  | [] => none
  | (k', vs) :: rest => if k' = k then some vs else lookupMeta k rest

/-- Stores `vs` under `k`, replacing what was there. -/
def storeMeta (k : MetaKey) (vs : List String) : MetaData → MetaData
  | [] => [(k, vs)]
  | (k', vs') :: rest =>
    if k' = k then (k, vs) :: rest else (k', vs') :: storeMeta k vs rest

/-- A decoded data object: `description()` is the logical type of the data,
`thumbnails` the number of per-slice preview images the object carries
(`thumbnails().count()`), and `zDimension` is present exactly when the
object is a `medAbstractDataImage`. -/
structure DtkData where
  description : String
  metaData : MetaData
  thumbnails : Nat
  zDimension : Option Int
deriving DecidableEq, Repr

namespace DtkData

/-- `dtkAbstractObject::hasMetaData`. -/
def hasMetaData (d : DtkData) (k : MetaKey) : Bool :=
  (lookupMeta k d.metaData).isSome

/-- `dtkAbstractObject::metaDataValues`: the empty list for a key that is
not there. -/
def metaDataValues (d : DtkData) (k : MetaKey) : List String :=
  (lookupMeta k d.metaData).getD []

/-- `dtkAbstractObject::addMetaData`: the values are appended to those the
key already has. -/
def addMetaData (d : DtkData) (k : MetaKey) (vs : List String) : DtkData :=
  { d with metaData := storeMeta k (d.metaDataValues k ++ vs) d.metaData }

/-- `dtkAbstractObject::setMetaData`: the values replace those of the key. -/
def setMetaData (d : DtkData) (k : MetaKey) (vs : List String) : DtkData :=
  { d with metaData := storeMeta k vs d.metaData }

/-- The expression `metaDataValues(key)[0]` of the importer. Indexing an
empty `QStringList` is outside the contract of `QList`; the embedding gives
the empty string there. -/
def first (d : DtkData) (k : MetaKey) : String :=
  (d.metaDataValues k).headD ""

end DtkData

/-! ## MetadataNormalizer -/

/-- One `if (!hasMetaData(key)) addMetaData(key, QStringList() << v)`. -/
def addIfMissing (d : DtkData) (k : MetaKey) (v : String) : DtkData :=
  if d.hasMetaData k then d else d.addMetaData k [v]

/-- The keys `populateMissingMetadata` defaults to the empty string, in the
order of the source. -/
def emptyDefaultKeys : List MetaKey :=
  [.StudyID, .SeriesID, .Orientation, .SeriesNumber, .SequenceName,
   .SliceThickness, .Rows, .Columns, .Age, .BirthDate, .Gender, .Description,
   .Modality, .Protocol, .Comments, .Status, .AcquisitionDate,
   .ImportationDate, .Referee, .Performer, .Institution, .Report]

/-- `medDatabaseImporter::populateMissingMetadata` on a valid data object. -/
def populateMissingMetadata (d : DtkData) (seriesDescription : String) : DtkData :=
  let d := addIfMissing d .PatientName "John Doe"
  let d := addIfMissing d .StudyDescription "EmptyStudy"
  let d := addIfMissing d .SeriesDescription seriesDescription
  emptyDefaultKeys.foldl (fun d k => addIfMissing d k "") d

/-! ## VolumeIdentity and output names -/

/-- The loop of `generateUniqueVolumeId` over the orientation components:
each is parsed as a double and printed with `QString::number(x, 'g', 5)`,
and the texts are concatenated. -/
def quantizeOrientation (orientation : String) : String :=
  (splitOnBlank orientation).foldl
    (fun acc orient => acc ++ numberG 5 (toDouble orient)) ""

/-- `medDatabaseImporter::generateUniqueVolumeId` on a valid data object. -/
def generateUniqueVolumeId (d : DtkData) : String :=
  let patientName := d.first .PatientName
  let studyId := d.first .StudyID
  let seriesId := d.first .SeriesID
  let orientation := d.first .Orientation
  let seriesNumber := d.first .SeriesNumber
  let sequenceName := d.first .SequenceName
  let sliceThickness := d.first .SliceThickness
  let rows := d.first .Rows
  let columns := d.first .Columns
  let orientation := quantizeOrientation orientation
  patientName ++ studyId ++ seriesId ++ orientation ++ seriesNumber ++
    sequenceName ++ sliceThickness ++ rows ++ columns

/-- The clean-up `determineFutureImageFileName` applies to a name:
`simplified()`, then `ê` becomes `e` and `ä` becomes `a`. -/
def cleanName (s : String) : String :=
  replaceChar (Char.ofNat 0x00E4) 'a' (replaceChar (Char.ofNat 0x00EA) 'e' (simplified s))

/-- `medDatabaseImporter::determineFutureImageFileName`. -/
def determineFutureImageFileName (d : DtkData) (volumeNumber : Nat) : String :=
  let s_volumeNumber := setNum volumeNumber
  let s_patientName := cleanName (d.first .PatientName)
  let s_studyName := cleanName (d.first .StudyDescription)
  let s_seriesName := cleanName (d.first .SeriesDescription)
  "/" ++ s_patientName ++ "/" ++ s_studyName ++ "/" ++ s_seriesName ++ s_volumeNumber

/-- `medDatabaseImporter::determineFutureImageExtensionByDataType`. -/
def determineFutureImageExtensionByDataType (d : DtkData) : String :=
  let description := d.description
  if description = "vtkDataMesh" then ".vtk"
  else if description = "vtkDataMesh4D" then ".v4d"
  else if description = "v3dDataFibers" then ".xml"
  else if qContains description "vistal" then ".dim"
  else if qContains description "Image" then ".mha"
  else ""

/-- `medDatabaseImporter::addAdditionalMetaData`. -/
def addAdditionalMetaData (d : DtkData) (aggregatedFileName : String)
    (aggregatedFilesPaths : List String) : DtkData :=
  let size : List String :=
    match d.zDimension with
    | some z => [toString z]
    | none => [""]
  let d := d.setMetaData .Size size
  let d := if d.hasMetaData .FilePaths then d else d.addMetaData .FilePaths aggregatedFilesPaths
  d.addMetaData .FileName [aggregatedFileName]

/-! ## The catalog -/

/-- Row of table `patient`. -/
structure PatientRow where
  id : Nat
  name : String
  thumbnail : String
  birthdate : String
  gender : String
deriving DecidableEq, Repr

/-- Row of table `study`. -/
structure StudyRow where
  id : Nat
  patient : Nat
  name : String
  uid : String
  thumbnail : String
deriving DecidableEq, Repr

/-- Row of table `series`. -/
structure SeriesRow where
  id : Nat
  study : Nat
  size : Int
  name : String
  path : String
  uid : String
  orientation : String
  seriesNumber : String
  sequenceName : String
  sliceThickness : String
  rows : String
  columns : String
  thumbnail : String
  age : String
  description : String
  modality : String
  protocol : String
  comments : String
  status : String
  acquisitiondate : String
  importationdate : String
  referee : String
  performer : String
  institution : String
  report : String
deriving DecidableEq, Repr

/-- Row of table `image`. -/
structure ImageRow where
  id : Nat
  series : Nat
  name : String
  path : String
  instance_path : String
  thumbnail : String
  isIndexed : Bool
deriving DecidableEq, Repr

/-- The database behind `medDatabaseController::instance()->database()`:
the four tables, each in row order. -/
structure Catalog where
  patient : List PatientRow
  study : List StudyRow
  series : List SeriesRow
  image : List ImageRow
deriving DecidableEq, Repr

/-- What `query.lastInsertId()` returns after an `INSERT` into a table whose
rows have the given ids: one more than the largest of them. -/
def nextId (ids : List Nat) : Nat := ids.foldl max 0 + 1

/-- `SELECT id FROM patient WHERE name = :name`, then `query.first()`. -/
def selectPatient (c : Catalog) (name : String) : Option PatientRow :=
  c.patient.find? fun r => decide (r.name = name)

/-- `SELECT id FROM study WHERE patient = :patientId AND name = :studyName
AND uid = :studyUid`, then `query.first()`. -/
def selectStudy (c : Catalog) (patientId : Nat) (studyName studyUid : String) :
    Option StudyRow :=
  c.study.find? fun r =>
    decide (r.patient = patientId ∧ r.name = studyName ∧ r.uid = studyUid)

/-- The `WHERE` clause of the series queries: `study = :studyId AND name =
:seriesName AND uid = :seriesUid AND orientation = :orientation AND
seriesNumber = :seriesNumber AND sequenceName = :sequenceName AND
sliceThickness = :sliceThickness AND rows = :rows AND columns = :columns`. -/
def seriesMatches (studyId : Nat) (seriesName seriesUid orientation seriesNumber
    sequenceName sliceThickness rows columns : String) (r : SeriesRow) : Bool :=
  decide (r.study = studyId ∧ r.name = seriesName ∧ r.uid = seriesUid ∧
    r.orientation = orientation ∧ r.seriesNumber = seriesNumber ∧
    r.sequenceName = sequenceName ∧ r.sliceThickness = sliceThickness ∧
    r.rows = rows ∧ r.columns = columns)

/-- `SELECT ... FROM series WHERE ...`, then `query.first()`. -/
def selectSeries (c : Catalog) (studyId : Nat) (seriesName seriesUid orientation
    seriesNumber sequenceName sliceThickness rows columns : String) : Option SeriesRow :=
  c.series.find? (seriesMatches studyId seriesName seriesUid orientation seriesNumber
    sequenceName sliceThickness rows columns)

/-- The series query of `isPartialImportAttempt` and `getOrCreateSeries`
for a data object: the name is `simplified()`, the other eight values are
taken as they stand. -/
def selectSeriesOf (c : Catalog) (d : DtkData) (studyId : Nat) : Option SeriesRow :=
  selectSeries c studyId (simplified (d.first .SeriesDescription)) (d.first .SeriesID)
    (d.first .Orientation) (d.first .SeriesNumber) (d.first .SequenceName)
    (d.first .SliceThickness) (d.first .Rows) (d.first .Columns)

/-- `SELECT id FROM image WHERE series = :seriesId AND name = :name`, then
`query.first()`. -/
def selectImage (c : Catalog) (seriesId : Nat) (name : String) : Option ImageRow :=
  c.image.find? fun r => decide (r.series = seriesId ∧ r.name = name)

/-! ## ConflictDetector -/

/-- `medDatabaseImporter::isPartialImportAttempt`: the result, and the list
`d->partialAttemptsInfo` after the call. When the chain matches, the source
appends `filePaths[0]` to the entry before it returns true: for a record
without file paths that expression is outside the contract of `QList` and
the call does not return true; the entry then has the empty string here, and
what is stated of a call on a matching record of any origin assumes that
`FilePaths` is not empty (as it is for the records of the final loop,
through `addAdditionalMetaData`). -/
def isPartialImportAttempt (c : Catalog) (partialAttemptsInfo : List (List String))
    (d : DtkData) : Bool × List (List String) :=
  let patientName := simplified (d.first .PatientName)
  match selectPatient c patientName with
  | none => (false, partialAttemptsInfo)
  | some p =>
    let patientId := p.id
    let studyName := simplified (d.first .StudyDescription)
    let studyUid := d.first .StudyID
    match selectStudy c patientId studyName studyUid with
    | none => (false, partialAttemptsInfo)
    | some st =>
      let studyId := st.id
      let seriesName := simplified (d.first .SeriesDescription)
      match selectSeriesOf c d studyId with
      | none => (false, partialAttemptsInfo)
      | some _ =>
        let filePaths := d.metaDataValues .FilePaths
        (true, partialAttemptsInfo ++
          [[patientName, studyName, seriesName, filePaths.headD ""]])

/-- `medDatabaseImporter::checkIfExists`. The names are compared as they
stand in the record (no `simplified()`), and the chain goes on to the image
table. The study query is written with the placeholder `:studyID` while the
value is bound under `:studyUid`; the value bound third takes the third
placeholder, so the query compares `uid` with the study id of the record. -/
def checkIfExists (c : Catalog) (d : DtkData) (imageName : String) : Bool :=
  let patientName := d.first .PatientName
  match selectPatient c patientName with
  | none => false
  | some p =>
    let studyName := d.first .StudyDescription
    let studyUid := d.first .StudyID
    match selectStudy c p.id studyName studyUid with
    | none => false
    | some st =>
      let seriesName := d.first .SeriesDescription
      match selectSeries c st.id seriesName (d.first .SeriesID) (d.first .Orientation)
          (d.first .SeriesNumber) (d.first .SequenceName) (d.first .SliceThickness)
          (d.first .Rows) (d.first .Columns) with
      | none => false
      | some se =>
        match selectImage c se.id imageName with
        | none => false
        | some _ => true

/-! ## CatalogWriter -/

/-- The row `getOrCreatePatient` inserts: `INSERT INTO patient (name,
thumbnail, birthdate, gender)`, the id being `lastInsertId()`. -/
def newPatientRow (c : Catalog) (d : DtkData) : PatientRow :=
  { id := nextId (c.patient.map (·.id)),
    name := simplified (d.first .PatientName),
    thumbnail := d.first .ThumbnailPath,
    birthdate := d.first .BirthDate,
    gender := d.first .Gender }

/-- `medDatabaseImporter::getOrCreatePatient`: the patient id and the
catalog after the call. -/
def getOrCreatePatient (c : Catalog) (d : DtkData) : Nat × Catalog :=
  let patientName := simplified (d.first .PatientName)
  match selectPatient c patientName with
  | some p => (p.id, c)
  | none => ((newPatientRow c d).id, { c with patient := c.patient ++ [newPatientRow c d] })

/-- The row `getOrCreateStudy` inserts: `INSERT INTO study (patient, name,
uid, thumbnail)`. -/
def newStudyRow (c : Catalog) (d : DtkData) (patientId : Nat) : StudyRow :=
  { id := nextId (c.study.map (·.id)),
    patient := patientId,
    name := simplified (d.first .StudyDescription),
    uid := d.first .StudyID,
    thumbnail := d.first .ThumbnailPath }

/-- `medDatabaseImporter::getOrCreateStudy`. -/
def getOrCreateStudy (c : Catalog) (d : DtkData) (patientId : Nat) : Nat × Catalog :=
  let studyName := simplified (d.first .StudyDescription)
  let studyUid := d.first .StudyID
  match selectStudy c patientId studyName studyUid with
  | some st => (st.id, c)
  | none =>
    ((newStudyRow c d patientId).id, { c with study := c.study ++ [newStudyRow c d patientId] })

/-- The row `getOrCreateSeries` inserts. The `INSERT` is written with the
placeholder `:refThumbPath` while the value is bound under `:thumbnail`;
that value is the twelfth bound and takes the twelfth placeholder, the
column `thumbnail`. When indexing, the column `path` is left empty. -/
def newSeriesRow (indexWithoutImporting : Bool) (c : Catalog) (d : DtkData)
    (studyId : Nat) : SeriesRow :=
  { id := nextId (c.series.map (·.id)),
    study := studyId,
    size := toInt (d.first .Size),
    name := simplified (d.first .SeriesDescription),
    path := if !indexWithoutImporting then d.first .FileName else "",
    uid := d.first .SeriesID,
    orientation := d.first .Orientation,
    seriesNumber := d.first .SeriesNumber,
    sequenceName := d.first .SequenceName,
    sliceThickness := d.first .SliceThickness,
    rows := d.first .Rows,
    columns := d.first .Columns,
    thumbnail := d.first .ThumbnailPath,
    age := d.first .Age,
    description := d.first .Description,
    modality := d.first .Modality,
    protocol := d.first .Protocol,
    comments := d.first .Comments,
    status := d.first .Status,
    acquisitiondate := d.first .AcquisitionDate,
    importationdate := d.first .ImportationDate,
    referee := d.first .Referee,
    performer := d.first .Performer,
    institution := d.first .Institution,
    report := d.first .Report }

/-- `medDatabaseImporter::getOrCreateSeries`. -/
def getOrCreateSeries (indexWithoutImporting : Bool) (c : Catalog) (d : DtkData)
    (studyId : Nat) : Nat × Catalog :=
  match selectSeriesOf c d studyId with
  | some se => (se.id, c)
  | none =>
    ((newSeriesRow indexWithoutImporting c d studyId).id,
     { c with series := c.series ++ [newSeriesRow indexWithoutImporting c d studyId] })

/-- One turn of the loops of `createMissingImages`: the image row is
inserted unless a row of that series and name is there. The source reads
`metaDataValues("FileName")[0]` before it runs the insertion: for a record
without `FileName` no row is inserted by the code, and what is stated of the
rows inserted assumes `FileName` is not empty (as it is for the records of
the final loop, through `addAdditionalMetaData`). -/
def insertImageIfMissing (indexWithoutImporting : Bool) (d : DtkData) (seriesId : Nat)
    (name path thumbnail : String) (c : Catalog) : Catalog :=
  match selectImage c seriesId name with
  | some _ => c
  | none =>
    let relativeFilePath := d.first .FileName
    { c with image := c.image ++
      [{ id := nextId (c.image.map (·.id)), series := seriesId, name := name,
         path := path, instance_path := if indexWithoutImporting then "" else relativeFilePath,
         thumbnail := thumbnail, isIndexed := indexWithoutImporting }] }

/-- The first loop of `createMissingImages` (one file, several
thumbnails), from index `i` on: `thumbs` are `thumbPaths[i..]`. -/
def createImagesPerThumbnail (indexWithoutImporting : Bool) (d : DtkData) (seriesId : Nat)
    (file : String) : Nat → List String → Catalog → Catalog
  | _, [], c => c
  | i, t :: thumbs, c =>
    createImagesPerThumbnail indexWithoutImporting d seriesId file (i + 1) thumbs
      (insertImageIfMissing indexWithoutImporting d seriesId
        (fileName file ++ setNum i) (filePath file) t c)

/-- The second loop of `createMissingImages`, from index `i` on: `files`
are `filePaths[i..]`. -/
def createImagesPerFile (indexWithoutImporting : Bool) (d : DtkData) (seriesId : Nat)
    (thumbPaths : List String) : Nat → List String → Catalog → Catalog
  | _, [], c => c
  | i, f :: files, c =>
    createImagesPerFile indexWithoutImporting d seriesId thumbPaths (i + 1) files
      (insertImageIfMissing indexWithoutImporting d seriesId
        (fileName f) (filePath f) (if i < thumbPaths.length then thumbPaths.getD i "" else "") c)

/-- `medDatabaseImporter::createMissingImages`. -/
def createMissingImages (indexWithoutImporting : Bool) (c : Catalog) (d : DtkData)
    (seriesId : Nat) (thumbPaths : List String) : Catalog :=
  let filePaths := d.metaDataValues .FilePaths
  if filePaths.length = 1 ∧ thumbPaths.length > 1 then
    createImagesPerThumbnail indexWithoutImporting d seriesId (filePaths.headD "") 0 thumbPaths c
  else
    createImagesPerFile indexWithoutImporting d seriesId thumbPaths 0 filePaths c

/-! ## FormatResolver -/

/-- A registered `dtkAbstractDataReader`. `readInformation` and `read` give
the object `data()` holds after the call (`none` for a null pointer). -/
structure Reader where
  description : String
  canRead : List String → Bool
  readInformation : List String → Option DtkData
  read : List String → Option DtkData

/-- An operation on the storage area (`medStorage`, image files), with its
outcome where it has one. -/
inductive StorageOp where
  | mkpath (path : String) (ok : Bool)
  | write (path : String) (writer : String) (ok : Bool)
  | saveImage (path : String)
deriving DecidableEq, Repr

/-- A registered `dtkAbstractDataWriter`. The outcome of `write` may depend
on what has been done to the storage area so far. -/
structure Writer where
  description : String
  handled : List String
  canWrite : String → Bool
  write : List StorageOp → String → DtkData → Bool

/-- The fields of `medDatabaseImporterPrivate` that `run` changes. -/
structure ImporterState where
  lastSuccessfulReaderDescription : String
  lastSuccessfulWriterDescription : String
  partialAttemptsInfo : List (List String)
deriving DecidableEq, Repr

/-- The state the constructor of `medDatabaseImporter` sets up. -/
def ImporterState.initial : ImporterState :=
  { lastSuccessfulReaderDescription := "", lastSuccessfulWriterDescription := "",
    partialAttemptsInfo := [] }

/-- `medDatabaseImporter::getSuitableReader`: the reader found, if any, and
the state after the call. -/
def getSuitableReader (readers : List Reader) (st : ImporterState) (filename : List String) :
    Option Reader × ImporterState :=
  match readers.find? fun r =>
      decide (st.lastSuccessfulReaderDescription = r.description) && r.canRead filename with
  | some r => (some r, st)
  | none =>
    match readers.find? fun r => r.canRead filename with
    | some r => (some r, { st with lastSuccessfulReaderDescription := r.description })
    | none => (none, st)

/-- `medDatabaseImporter::getSuitableWriter` for a data object that is not
null. The first loop compares the description of each writer with
`lastSuccessfulReaderDescription`, as the source does. -/
def getSuitableWriter (writers : List Writer) (st : ImporterState) (filename : String)
    (d : DtkData) : Option Writer × ImporterState :=
  match writers.find? fun w =>
      decide (st.lastSuccessfulReaderDescription = w.description) &&
        (w.handled.contains d.description && w.canWrite filename) with
  | some w => (some w, { st with lastSuccessfulWriterDescription := w.description })
  | none =>
    match writers.find? fun w => w.handled.contains d.description && w.canWrite filename with
    | some w => (some w, { st with lastSuccessfulWriterDescription := w.description })
    | none => (none, st)

/-- `medDatabaseImporter::tryReadImages`. -/
def tryReadImages (readers : List Reader) (st : ImporterState) (filesPaths : List String)
    (readOnlyImageInformation : Bool) : Option DtkData × ImporterState :=
  match getSuitableReader readers st filesPaths with
  | (some dataReader, st) =>
    (if readOnlyImageInformation then dataReader.readInformation filesPaths
     else dataReader.read filesPaths, st)
  | (none, st) => (none, st)

/-- `medDatabaseImporter::tryWriteImage`: success, the state and the storage
log after the call. -/
def tryWriteImage (writers : List Writer) (st : ImporterState) (storage : List StorageOp)
    (filePath : String) (imData : DtkData) : Bool × ImporterState × List StorageOp :=
  match getSuitableWriter writers st filePath imData with
  | (some dataWriter, st) =>
    let ok := dataWriter.write storage filePath imData
    (ok, st, storage ++ [.write filePath dataWriter.description ok])
  | (none, st) => (false, st, storage)

/-! ## The environment of a run -/

/-- What a run of the importer finds around it.
* `file`, `indexWithoutImporting`: the arguments of the constructor.
* `cancelAt`: when `onCancel` sets `d->isCancelled`, counted in files of
  Pass 1 and then groups of Pass 2 already started: with `some k` the flag
  is set once `k` of them have been started, with `none` it is never set.
* `isDir`, `filesUnder`: the file system seen by `QDir::exists` and by the
  recursive `QDirIterator`.
* `readers`, `writers`: the registry of `dtkAbstractDataFactory`.
* `dataLocation`, `dirExists`, `mkpath`: `medStorage::dataLocation()`,
  `QDir::exists` and `medStorage::mkpath` on the storage area, which may
  depend on what has been done to it so far. -/
structure Env where
  file : String
  indexWithoutImporting : Bool
  cancelAt : Option Nat
  isDir : String → Bool
  filesUnder : String → List String
  readers : List Reader
  writers : List Writer
  dataLocation : String
  dirExists : List StorageOp → String → Bool
  mkpath : List StorageOp → String → Bool

/-- The value of `d->isCancelled` read after `t` files or groups have been
started. -/
def Env.isCancelled (env : Env) (t : Nat) : Bool :=
  match env.cancelAt with
  | some k => decide (k ≤ t)
  | none => false

/-- `QStringList::sort()`: ascending for `QString::operator<`. -/
def sortPaths (l : List String) : List String :=
  l.insertionSort fun a b => qLt b a = false

/-- `medDatabaseImporter::getAllFilesToBeProcessed`. -/
def getAllFilesToBeProcessed (env : Env) (fileOrDirectory : String) : List String :=
  let fileList := if env.isDir fileOrDirectory then env.filesUnder fileOrDirectory
    else [fileOrDirectory]
  sortPaths fileList

/-! ## `QMap<QString, T>` -/

/-- A `QMap` with `QString` keys: the entries in ascending key order. -/
abbrev QMap (β : Type) := List (String × β)

/-- `QMap::contains`. -/
def QMap.contains {β : Type} (m : QMap β) (k : String) : Bool :=
  m.any fun e => decide (e.1 = k)

/-- `QMap::value(key, defaultValue)`. -/
def QMap.value {β : Type} (m : QMap β) (k : String) (dflt : β) : β :=
  match m.find? fun e => decide (e.1 = k) with
  | some e => e.2
  | none => dflt

/-- `QMap::insert`: the entry goes to its place in key order, or replaces the
entry of an equal key. -/
def QMap.insert {β : Type} (k : String) (v : β) : QMap β → QMap β
  | [] => [(k, v)]
  | (k', v') :: rest =>
    if qLt k k' then (k, v) :: (k', v') :: rest
    else if qLt k' k then (k', v') :: QMap.insert k v rest
    else (k, v) :: rest

/-! ## Signals -/

/-- The signals `run` emits. The progress value is the exact quotient (the
source computes it in `qreal`). -/
inductive Signal where
  | progressed (value : ℚ)
  | showError (message : String)
  | cancelled
  | failure
  | success
  | partialImportAttempted (message : String)
  | addedIndex
deriving DecidableEq, Repr

/-! ## Pass 1: select the files to import -/

/-- How the first loop of `run` left a file. -/
inductive FileVerdict where
  | unreadable
  | unhandledType
  | alreadyInDatabase
  | grouped
deriving DecidableEq, Repr

/-- Record of one turn of the first loop, kept for the statements below:
the file, the header after `populateMissingMetadata` (when it was read),
the volume id and the volume number handed to
`determineFutureImageFileName`, the key under which the file is grouped
(name and extension), and the verdict. -/
structure Pass1Entry where
  file : String
  data : Option DtkData
  volumeId : String
  volumeNumber : Nat
  imageFileName : String
  verdict : FileVerdict
deriving DecidableEq, Repr

/-- The local variables of `run` during the first loop, the part of the
private data it changes, the signals emitted so far, and the record of the
turns taken. -/
structure Pass1State where
  priv : ImporterState
  currentFileNumber : Nat
  imagesGroupedByVolume : QMap (List String)
  volumeUniqueIdToVolumeNumber : QMap Nat
  volumeNumber : Nat
  signals : List Signal
  trace : List Pass1Entry

/-- The state before the first loop. -/
def Pass1State.initial : Pass1State :=
  { priv := ImporterState.initial, currentFileNumber := 0, imagesGroupedByVolume := [],
    volumeUniqueIdToVolumeNumber := [], volumeNumber := 1, signals := [], trace := [] }

/-- The test `if (!volumeUniqueIdToVolumeNumber.contains(volumeId))` of the
first loop and its body: a volume id met for the first time takes the
current volume number, and the counter moves on. -/
def assignVolumeNumber (s : Pass1State) (volumeId : String) : Pass1State :=
  if !s.volumeUniqueIdToVolumeNumber.contains volumeId then
    { s with
      volumeUniqueIdToVolumeNumber :=
        QMap.insert volumeId s.volumeNumber s.volumeUniqueIdToVolumeNumber,
      volumeNumber := s.volumeNumber + 1 }
  else s

/-- The record of a turn of the first loop for a file that was read. -/
def readEntry (file : String) (dtkData : DtkData) (number : Nat) (imageFileName : String)
    (verdict : FileVerdict) : Pass1Entry :=
  { file := file, data := some dtkData, volumeId := generateUniqueVolumeId dtkData,
    volumeNumber := number, imageFileName := imageFileName, verdict := verdict }

/-- The record of a turn of the first loop for a file that could not be
read. -/
def unreadableEntry (file : String) : Pass1Entry :=
  { file := file, data := none, volumeId := "", volumeNumber := 0, imageFileName := "",
    verdict := .unreadable }

/-- The body of the first loop of `run` for one file, after the
cancellation test; `count` is `fileList.count()`. -/
def pass1Step (env : Env) (c : Catalog) (count : Nat) (file : String) (s : Pass1State) :
    Pass1State :=
  let s : Pass1State := { s with
    signals := s.signals ++
      [.progressed ((s.currentFileNumber : ℚ) / (count : ℚ) * 50)],
    currentFileNumber := s.currentFileNumber + 1 }
  match tryReadImages env.readers s.priv [filePath file] true with
  | (none, priv) =>
    { s with priv := priv, trace := s.trace ++
        [unreadableEntry file] }
  | (some dtkData, priv) =>
    let s : Pass1State := { s with priv := priv }
    let dtkData := populateMissingMetadata dtkData (baseName file)
    let volumeId := generateUniqueVolumeId dtkData
    let s := assignVolumeNumber s volumeId
    let number := s.volumeUniqueIdToVolumeNumber.value volumeId 0
    let imageFileName := determineFutureImageFileName dtkData number
    let futureExtension := determineFutureImageExtensionByDataType dtkData
    if !env.indexWithoutImporting && futureExtension.isEmpty then
      { s with
        signals := s.signals ++
          [.showError ("Could not save file due to unhandled data type: " ++
            dtkData.description)],
        trace := s.trace ++
          [readEntry file dtkData number imageFileName .unhandledType] }
    else
      let imageFileName := imageFileName ++ futureExtension
      if !checkIfExists c dtkData (fileName file) then
        { s with
          imagesGroupedByVolume :=
            QMap.insert imageFileName
              (s.imagesGroupedByVolume.value imageFileName [] ++ [filePath file])
              s.imagesGroupedByVolume,
          trace := s.trace ++
            [readEntry file dtkData number imageFileName .grouped] }
      else
        { s with trace := s.trace ++
            [readEntry file dtkData number imageFileName .alreadyInDatabase] }

/-- The first loop of `run`: `foreach (QString file, fileList)` with the
cancellation test that breaks out of it. -/
def pass1 (env : Env) (c : Catalog) (count : Nat) : List String → Pass1State → Pass1State
  | [], s => s
  | file :: rest, s =>
    if env.isCancelled s.currentFileNumber then s
    else pass1 env c count rest (pass1Step env c count file s)

/-! ## Pass 2: read, write and catalog the groups -/

/-- `medDatabaseImporter::generateThumbnails`: the thumbnail paths, the data
object with the path of the reference thumbnail added, and the storage log
after the call. -/
def generateThumbnails (env : Env) (storage : List StorageOp) (d : DtkData)
    (pathToStoreThumbnails : String) : List String × DtkData × List StorageOp :=
  let dir := env.dataLocation ++ pathToStoreThumbnails
  let storage := storage ++ [.mkpath dir (env.mkpath storage dir)]
  let thumbPaths := (List.range d.thumbnails).map fun i =>
    pathToStoreThumbnails ++ setNum i ++ ".png"
  let storage := storage ++ thumbPaths.map fun t => .saveImage (env.dataLocation ++ t)
  let refThumbPath := pathToStoreThumbnails ++ "ref.png"
  let storage := storage ++ [.saveImage (env.dataLocation ++ refThumbPath)]
  (thumbPaths, d.addMetaData .ThumbnailPath [refThumbPath], storage)

/-- The three get-or-create calls of `populateDatabaseAndGenerateThumbnails`,
in their order: the series id and the catalog after them. -/
def getOrCreateChain (indexWithoutImporting : Bool) (c : Catalog) (d : DtkData) :
    Nat × Catalog :=
  let (patientId, c) := getOrCreatePatient c d
  let (studyId, c) := getOrCreateStudy c d patientId
  getOrCreateSeries indexWithoutImporting c d studyId

/-- The database part of `populateDatabaseAndGenerateThumbnails`: the three
get-or-create calls and `createMissingImages`. -/
def populateDatabase (indexWithoutImporting : Bool) (c : Catalog) (d : DtkData)
    (thumbPaths : List String) : Catalog :=
  let (seriesId, c) := getOrCreateChain indexWithoutImporting c d
  createMissingImages indexWithoutImporting c d seriesId thumbPaths

/-- `medDatabaseImporter::populateDatabaseAndGenerateThumbnails`: the
catalog and the storage log after the call. -/
def populateDatabaseAndGenerateThumbnails (env : Env) (c : Catalog)
    (storage : List StorageOp) (d : DtkData) (pathToStoreThumbnails : String) :
    Catalog × List StorageOp :=
  let (thumbPaths, d, storage) := generateThumbnails env storage d pathToStoreThumbnails
  (populateDatabase env.indexWithoutImporting c d thumbPaths, storage)

/-- How the final loop of `run` left a group. -/
inductive GroupVerdict where
  | unreadable
  | duplicate
  | noDirectory
  | writeFailed
  | committed
deriving DecidableEq, Repr

/-- Record of one turn of the final loop: the key and files of the group,
the data object handed to `isPartialImportAttempt` (when the files were
read), and the verdict. -/
structure Pass2Entry where
  aggregatedFileName : String
  filesPaths : List String
  data : Option DtkData
  verdict : GroupVerdict
deriving DecidableEq, Repr

/-- The state of the final loop: private data, catalog, storage log, the
progress counter, the signals emitted and the record of the turns. -/
structure Pass2State where
  priv : ImporterState
  catalog : Catalog
  storage : List StorageOp
  currentImageIndex : Nat
  signals : List Signal
  trace : List Pass2Entry

/-- The end of a turn of the final loop, `populateDatabaseAndGenerateThumbnails`
under the directory named after the aggregated file: the state after a
group has been committed. -/
def pass2Commit (env : Env) (s : Pass2State) (priv : ImporterState)
    (storage : List StorageOp) (aggregatedFileName : String) (filesPaths : List String)
    (imageDtkData : DtkData) : Pass2State :=
  let pathToStoreThumbnails := dirPath aggregatedFileName ++ "/" ++
    completeBaseName aggregatedFileName ++ "/"
  let (c, storage) := populateDatabaseAndGenerateThumbnails env s.catalog storage
    imageDtkData pathToStoreThumbnails
  { s with
    priv := priv, catalog := c, storage := storage,
    trace := s.trace ++ [⟨aggregatedFileName, filesPaths, some imageDtkData, .committed⟩] }

/-- The state after `tryWriteImage` on `target`: the group is committed when
the file was written and skipped with an error message otherwise. -/
def pass2Write (env : Env) (s : Pass2State) (priv : ImporterState)
    (storage : List StorageOp) (target : String) (aggregatedFileName : String)
    (filesPaths : List String) (imageDtkData : DtkData) : Pass2State :=
  match tryWriteImage env.writers priv storage (filePath target) imageDtkData with
  | (true, priv, storage) =>
    pass2Commit env s priv storage aggregatedFileName filesPaths imageDtkData
  | (false, priv, storage) =>
    { s with
      priv := priv, storage := storage,
      signals := s.signals ++
        [.showError ("Could not save data file: " ++ filesPaths.headD "")],
      trace := s.trace ++
        [⟨aggregatedFileName, filesPaths, some imageDtkData, .writeFailed⟩] }

/-- The part of a turn of the final loop that follows the conflict check:
unless indexing, the directory of the aggregated file is created if it is
not there (the group is skipped when that fails) and the file is written;
then the group is committed. -/
def pass2Store (env : Env) (s : Pass2State) (priv : ImporterState)
    (aggregatedFileName : String) (filesPaths : List String) (imageDtkData : DtkData) :
    Pass2State :=
  if !env.indexWithoutImporting then
    let target := env.dataLocation ++ aggregatedFileName
    let dir := dirPath target
    if env.dirExists s.storage dir then
      pass2Write env s priv s.storage target aggregatedFileName filesPaths imageDtkData
    else if env.mkpath s.storage dir then
      pass2Write env s priv (s.storage ++ [.mkpath dir true]) target aggregatedFileName
        filesPaths imageDtkData
    else
      { s with
        priv := priv, storage := s.storage ++ [.mkpath dir false],
        trace := s.trace ++
          [⟨aggregatedFileName, filesPaths, some imageDtkData, .noDirectory⟩] }
  else pass2Commit env s priv s.storage aggregatedFileName filesPaths imageDtkData

/-- The data object the final loop builds from what was read for a group:
`populateMissingMetadata` with the base name of the first file, then
`addAdditionalMetaData`. -/
def aggregatedData (imageDtkData : DtkData) (aggregatedFileName : String)
    (filesPaths : List String) : DtkData :=
  addAdditionalMetaData
    (populateMissingMetadata imageDtkData (baseName (filesPaths.headD "")))
    aggregatedFileName filesPaths

/-- The body of the final loop of `run` for one entry of
`imagesGroupedByVolume`; `imagesCount` is the number of entries. -/
def pass2Step (env : Env) (imagesCount : Nat) (entry : String × List String)
    (s : Pass2State) : Pass2State :=
  let s : Pass2State := { s with
    signals := s.signals ++
      [.progressed ((s.currentImageIndex : ℚ) / (imagesCount : ℚ) * 50 + 50)],
    currentImageIndex := s.currentImageIndex + 1 }
  let aggregatedFileName := entry.1
  let filesPaths := entry.2
  match tryReadImages env.readers s.priv filesPaths false with
  | (none, priv) =>
    { s with
      priv := priv,
      signals := s.signals ++
        [.showError ("Could not read data: " ++ filesPaths.headD "")],
      trace := s.trace ++ [⟨aggregatedFileName, filesPaths, none, .unreadable⟩] }
  | (some imageDtkData, priv) =>
    let imageDtkData := aggregatedData imageDtkData aggregatedFileName filesPaths
    match isPartialImportAttempt s.catalog priv.partialAttemptsInfo imageDtkData with
    | (true, info) =>
      { s with
        priv := { priv with partialAttemptsInfo := info },
        trace := s.trace ++ [⟨aggregatedFileName, filesPaths, some imageDtkData, .duplicate⟩] }
    | (false, info) =>
      pass2Store env s { priv with partialAttemptsInfo := info } aggregatedFileName
        filesPaths imageDtkData

/-- The final loop of `run`, over the entries of `imagesGroupedByVolume` in
the order of the map. -/
def pass2 (env : Env) (imagesCount : Nat) : List (String × List String) → Pass2State → Pass2State
  | [], s => s
  | entry :: rest, s => pass2 env imagesCount rest (pass2Step env imagesCount entry s)

/-! ## `medDatabaseImporter::run` -/

/-- The text sent with `partialImportAttempted`. -/
def partialImportMessage (indexWithoutImporting : Bool) (info : List (List String)) : String :=
  let process := if indexWithoutImporting then "index" else "import"
  let msg := "It seems you are trying to " ++ process ++
    " some images that belong to a volume which is already in the database." ++ "\n"
  let msg := msg ++ "For a more accurate " ++ process ++
    " please first delete the following series: " ++ "\n" ++ "\n"
  info.foldl (fun msg info =>
    msg ++ "Series: " ++ info.getD 2 "" ++ " (from patient: " ++ info.getD 0 "" ++
      " and study: " ++ info.getD 1 "" ++ "\n") msg

/-- What a run leaves behind. -/
structure RunResult where
  catalog : Catalog
  storage : List StorageOp
  priv : ImporterState
  signals : List Signal
  pass1 : List Pass1Entry
  groups : QMap (List String)
  pass2 : List Pass2Entry

/-- `medDatabaseImporter::run` on the catalog `c`, for an importer fresh
from its constructor. -/
def run (env : Env) (c : Catalog) : RunResult :=
  let fileList := getAllFilesToBeProcessed env env.file
  let s1 := pass1 env c fileList.length fileList Pass1State.initial
  if env.isCancelled s1.currentFileNumber then
    { catalog := c, storage := [], priv := s1.priv,
      signals := s1.signals ++ [.showError "User cancelled import process", .cancelled],
      pass1 := s1.trace, groups := s1.imagesGroupedByVolume, pass2 := [] }
  else if s1.imagesGroupedByVolume.isEmpty then
    { catalog := c, storage := [], priv := s1.priv,
      signals := s1.signals ++
        [.showError "No compatible image found or all of them had been already imported.",
         .failure],
      pass1 := s1.trace, groups := s1.imagesGroupedByVolume, pass2 := [] }
  else
    let imagesCount := s1.imagesGroupedByVolume.length
    let s2 := pass2 env imagesCount s1.imagesGroupedByVolume
      { priv := s1.priv, catalog := c, storage := [], currentImageIndex := 0,
        signals := s1.signals, trace := [] }
    let signals :=
      if s2.priv.partialAttemptsInfo.length > 0 then
        s2.signals ++ [.partialImportAttempted
          (partialImportMessage env.indexWithoutImporting s2.priv.partialAttemptsInfo)]
      else s2.signals
    { catalog := s2.catalog, storage := s2.storage, priv := s2.priv,
      signals := signals ++ [.progressed 100, .success, .addedIndex],
      pass1 := s1.trace, groups := s1.imagesGroupedByVolume, pass2 := s2.trace }

/-! ## Notions used in the statements -/

/-- The catalog `c'` holds the rows of `c`, in the same order, followed by
further rows: the only change the importer makes to a catalog. -/
def Catalog.Extends (c c' : Catalog) : Prop :=
  c.patient <+: c'.patient ∧ c.study <+: c'.study ∧ c.series <+: c'.series ∧
    c.image <+: c'.image

/-- The answer of the ConflictDetector alone. -/
def detects (c : Catalog) (d : DtkData) : Bool :=
  (isPartialImportAttempt c [] d).1

/-- The entry `isPartialImportAttempt` appends to `partialAttemptsInfo`
for a data object. -/
def conflictRecord (d : DtkData) : List String :=
  [simplified (d.first .PatientName), simplified (d.first .StudyDescription),
   simplified (d.first .SeriesDescription), (d.metaDataValues .FilePaths).headD ""]

/-- The catalog holds a patient with the whitespace-normalized patient name
of the record, a study of that patient with the given name and the study id
of the record, and a series of that study with the given name that agrees
with the record on uid, orientation, series number, sequence name, slice
thickness, rows and columns. -/
def chainHolds (c : Catalog) (d : DtkData) (studyName seriesName : String) : Prop :=
  ∃ p ∈ c.patient, p.name = simplified (d.first .PatientName) ∧
    ∃ st ∈ c.study, (st.patient = p.id ∧ st.name = studyName ∧ st.uid = d.first .StudyID) ∧
      ∃ se ∈ c.series, seriesMatches st.id seriesName (d.first .SeriesID)
        (d.first .Orientation) (d.first .SeriesNumber) (d.first .SequenceName)
        (d.first .SliceThickness) (d.first .Rows) (d.first .Columns) se = true

instance (c : Catalog) (d : DtkData) (a b : String) : Decidable (chainHolds c d a b) := by
  unfold chainHolds; infer_instance

/-- Patient names are pairwise distinct. -/
def Catalog.PatientsDistinct (c : Catalog) : Prop :=
  c.patient.Pairwise fun a b => a.name ≠ b.name

/-- Studies are pairwise distinct on (patient, name, uid). -/
def Catalog.StudiesDistinct (c : Catalog) : Prop :=
  c.study.Pairwise fun a b => ¬ (a.patient = b.patient ∧ a.name = b.name ∧ a.uid = b.uid)

/-- A catalog with patient `P`, its study `a b` and a series `T` of it. -/
def catalogOneSeries : Catalog :=
  { patient := [{ id := 1, name := "P", thumbnail := "", birthdate := "", gender := "" }],
    study := [{ id := 1, patient := 1, name := "a b", uid := "", thumbnail := "" }],
    series := [{ id := 1, study := 1, size := 1, name := "T", path := "", uid := "",
                 orientation := "", seriesNumber := "", sequenceName := "",
                 sliceThickness := "", rows := "", columns := "", thumbnail := "",
                 age := "", description := "", modality := "", protocol := "",
                 comments := "", status := "", acquisitiondate := "",
                 importationdate := "", referee := "", performer := "",
                 institution := "", report := "" }],
    image := [] }

/-- A normalized record of patient `P`, read from the file `/d/f`, whose
study description is written with two blanks, `a  b`. -/
def recordTwoBlanks : DtkData :=
  populateMissingMetadata
    { description := "itkDataImageShort3",
      metaData := [(.PatientName, ["P"]), (.StudyDescription, ["a  b"]),
                   (.SeriesDescription, ["T"]), (.FilePaths, ["/d/f"])],
      thumbnails := 0, zDimension := some 1 } "f"


/-- The distinct elements of a list in the order of their first
occurrence. -/
def firstSeen (ks : List String) : List String :=
  ks.foldl (fun acc k => if k ∈ acc then acc else acc ++ [k]) []

/-- The volume ids of the files the first loop could read, in the order of
the loop. -/
def readKeys (t : List Pass1Entry) : List String :=
  (t.filter fun e => decide (e.verdict ≠ .unreadable)).map (·.volumeId)


/-- The state of the first loop once a file has been read as `d`: the
progress signal is out, the reader cache is updated and the volume id of
`d` has its number. -/
def pass1Read (n : Nat) (s : Pass1State) (priv : ImporterState) (d : DtkData) : Pass1State :=
  assignVolumeNumber
    { s with
      priv := priv
      signals := s.signals ++ [.progressed ((s.currentFileNumber : ℚ) / (n : ℚ) * 50)]
      currentFileNumber := s.currentFileNumber + 1 }
    (generateUniqueVolumeId d)

/-- The volume number the first loop uses for a file read as `d`. -/
def pass1Number (n : Nat) (s : Pass1State) (priv : ImporterState) (d : DtkData) : Nat :=
  (pass1Read n s priv d).volumeUniqueIdToVolumeNumber.value (generateUniqueVolumeId d) 0

/-- The key of `imagesGroupedByVolume` the first loop computes for a file
read as `d`: future file name and extension. -/
def pass1Name (n : Nat) (s : Pass1State) (priv : ImporterState) (d : DtkData) : String :=
  determineFutureImageFileName d (pass1Number n s priv d) ++
    determineFutureImageExtensionByDataType d


/-- What holds of the state of the first loop after every turn. -/
structure Pass1Inv (c : Catalog) (s : Pass1State) : Prop where
  contains_iff : ∀ key, s.volumeUniqueIdToVolumeNumber.contains key = true ↔
    key ∈ readKeys s.trace
  value_eq : ∀ k key, (firstSeen (readKeys s.trace))[k]? = some key →
    s.volumeUniqueIdToVolumeNumber.value key 0 = k + 1
  next : s.volumeNumber = (firstSeen (readKeys s.trace)).length + 1
  numbered : ∀ e ∈ s.trace, e.verdict ≠ .unreadable →
    ∀ k, (firstSeen (readKeys s.trace))[k]? = some e.volumeId → e.volumeNumber = k + 1
  grouped_mem : ∀ e ∈ s.trace, e.verdict = .grouped →
    e.file ∈ s.imagesGroupedByVolume.value e.imageFileName []
  named : ∀ e ∈ s.trace, e.verdict ≠ .unreadable →
    ∃ d, e.data = some d ∧ e.volumeId = generateUniqueVolumeId d ∧
      (e.verdict ≠ .unhandledType →
        e.imageFileName = determineFutureImageFileName d e.volumeNumber ++
          determineFutureImageExtensionByDataType d)
  checked : ∀ e ∈ s.trace, ∀ d, e.data = some d →
    (e.verdict = .alreadyInDatabase → checkIfExists c d (fileName e.file) = true) ∧
    (e.verdict = .grouped → checkIfExists c d (fileName e.file) = false)
  groups_nil : (∀ e ∈ s.trace, e.verdict ≠ .grouped) → s.imagesGroupedByVolume = []
  signals_ok : ∀ sg ∈ s.signals, (∃ v, sg = Signal.progressed v) ∨ (∃ m, sg = Signal.showError m)
  count : s.trace.length = s.currentFileNumber


/-- An empty catalog. -/
def emptyCatalog : Catalog := { patient := [], study := [], series := [], image := [] }

/-- A header as a reader hands it over: an image with the given patient
name, series description, series id and orientation, and nothing else. -/
def sampleHeader (patient series seriesId orientation : String) : DtkData :=
  { description := "itkDataImageShort3",
    metaData := [(.PatientName, [patient]), (.SeriesDescription, [series]),
                 (.SeriesID, [seriesId]), (.Orientation, [orientation])],
    thumbnails := 0, zDimension := some 1 }

/-- A reader that reads every file and takes the metadata of the first path
it is given from `header`, for the header alone and for the full data. -/
def sampleReader (header : String → DtkData) : Reader where
  description := "sampleReader"
  canRead := fun _ => true
  readInformation := fun paths => some (header (paths.headD ""))
  read := fun paths => some (header (paths.headD ""))

/-- An indexing run over the directory `/d` holding `files`, never
cancelled unless `cancelAt` says so, with the reader `sampleReader header`. -/
def sampleEnv (files : List String) (header : String → DtkData) (cancelAt : Option Nat) :
    Env where
  file := "/d"
  indexWithoutImporting := true
  cancelAt := cancelAt
  isDir := fun p => p = "/d"
  filesUnder := fun _ => files
  readers := [sampleReader header]
  writers := []
  dataLocation := "/data"
  dirExists := fun _ _ => true
  mkpath := fun _ _ => true

/-- Three files whose volume ids come in the order A, B, A. -/
def envABA : Env :=
  sampleEnv ["/d/1", "/d/2", "/d/3"]
    (fun p => sampleHeader (if p = "/d/2" then "B" else "A") "T" "" "") none


/-- The first loop could not read the file of the record `e`, or it read
it and `checkIfExists` finds its normalized header and file name in the
catalog `c`. -/
def unreadableOrCataloged (c : Catalog) (e : Pass1Entry) : Bool :=
  match e.data with
  | none => true
  | some d => checkIfExists c d (fileName e.file)

/-- Ten files of one series; the user cancels once three of them have been
started. -/
def envCancel3of10 : Env :=
  sampleEnv ["/d/0", "/d/1", "/d/2", "/d/3", "/d/4", "/d/5", "/d/6", "/d/7", "/d/8", "/d/9"]
    (fun _ => sampleHeader "A" "T" "" "") (some 3)

/-- A directory with one readable file and one file no reader accepts. -/
def envOneFile : Env :=
  { sampleEnv ["/d/1", "/d/2"] (fun _ => sampleHeader "A" "T" "" "") none with
    readers :=
      [{ sampleReader (fun _ => sampleHeader "A" "T" "" "") with
         canRead := fun paths => decide (paths = ["/d/1"]) }] }


/-- Two image files without any metadata, as a reader of plain image files
returns them. -/
def envTwoBare : Env :=
  sampleEnv ["/d/a.mha", "/d/b.mha"]
    (fun _ => { description := "itkDataImageShort3", metaData := [], thumbnails := 0,
                zDimension := some 1 }) none

/-- Eleven files of patient `P`, each a volume of its own (the series id is
the path of the file): the series description is `s1` for the first file,
`s` for the eleventh and `t` for the others. -/
def envEleven : Env :=
  sampleEnv ["/d/01", "/d/02", "/d/03", "/d/04", "/d/05", "/d/06", "/d/07", "/d/08",
      "/d/09", "/d/10", "/d/11"]
    (fun p => sampleHeader "P"
      (if p = "/d/01" then "s1" else if p = "/d/11" then "s" else "t") p "") none


/-- The number is finite (neither an infinity nor not-a-number). -/
def QDouble.isFinite : QDouble → Bool
  | .fin _ _ _ => true
  | _ => false

/-- The number is negative (and not zero). -/
def QDouble.isNegative : QDouble → Bool
  | .fin neg m _ => neg && decide (m ≠ 0)
  | .inf neg => neg
  | .nan => false

/-- The first `p` significant digits of a finite number, without rounding
(short mantissas are padded with zeros; zero has no digits). -/
def QDouble.firstDigits (p : Nat) : QDouble → List Nat
  | .fin _ m _ =>
    if m = 0 then []
    else (digitsOf m ++ List.replicate (p - (digitsOf m).length) 0).take p
  | _ => []

/-- The decimal exponent of the leading significant digit of a finite
number (0 for zero). -/
def QDouble.decimalExponent : QDouble → Int
  | .fin _ m e => if m = 0 then 0 else e + (digitsOf m).length - 1
  | _ => 0

/-- Two orientation components are numbers that differ only past the 5th
significant digit: both are finite and have the same sign, the same first
five significant digits and the same decimal exponent. -/
def sameToFiveDigits (a b : String) : Prop :=
  (toDouble a).isFinite = true ∧ (toDouble b).isFinite = true ∧
  (toDouble a).isNegative = (toDouble b).isNegative ∧
  (toDouble a).firstDigits 5 = (toDouble b).firstDigits 5 ∧
  (toDouble a).decimalExponent = (toDouble b).decimalExponent

instance (a b : String) : Decidable (sameToFiveDigits a b) := by
  unfold sameToFiveDigits; infer_instance

/-- Two records agree on the eight attributes of the volume id other than
the orientation. -/
def sameIdentityFields (d₁ d₂ : DtkData) : Prop :=
  d₁.first .PatientName = d₂.first .PatientName ∧ d₁.first .StudyID = d₂.first .StudyID ∧
  d₁.first .SeriesID = d₂.first .SeriesID ∧ d₁.first .SeriesNumber = d₂.first .SeriesNumber ∧
  d₁.first .SequenceName = d₂.first .SequenceName ∧
  d₁.first .SliceThickness = d₂.first .SliceThickness ∧
  d₁.first .Rows = d₂.first .Rows ∧ d₁.first .Columns = d₂.first .Columns

instance (d₁ d₂ : DtkData) : Decidable (sameIdentityFields d₁ d₂) := by
  unfold sameIdentityFields; infer_instance

/-- A normalized record of patient `A`, series `T`, with the given
orientation. -/
def recordWithOrientation (orientation : String) : DtkData :=
  populateMissingMetadata (sampleHeader "A" "T" "" orientation) "f"


/-- What one turn of the final loop, from the state `s` to the state `s'`
with the record `e`, does to the catalog and to the list of conflicts. -/
structure Pass2Turn (s s' : Pass2State) (e : Pass2Entry) : Prop where
  trace_eq : s'.trace = s.trace ++ [e]
  grows : s.catalog.Extends s'.catalog
  info_grows : ∀ x ∈ s.priv.partialAttemptsInfo, x ∈ s'.priv.partialAttemptsInfo
  unread : e.data = none → e.verdict = .unreadable
  settled : ∀ d, e.data = some d → e.verdict = .committed ∨ e.verdict = .duplicate →
    detects s'.catalog d = true
  known : ∀ d, e.data = some d → detects s.catalog d = true →
    e.verdict = .duplicate ∧ conflictRecord d ∈ s'.priv.partialAttemptsInfo
  kept : e.verdict ≠ .committed → s'.catalog = s.catalog

/-- What holds of the state of the final loop after every turn, `c₀` being
the catalog the loop started from. -/
structure Pass2Inv (c₀ : Catalog) (s : Pass2State) : Prop where
  grows : c₀.Extends s.catalog
  unread : ∀ e ∈ s.trace, e.data = none → e.verdict = .unreadable
  settled : ∀ e ∈ s.trace, ∀ d, e.data = some d →
    e.verdict = .committed ∨ e.verdict = .duplicate → detects s.catalog d = true
  known : ∀ e ∈ s.trace, ∀ d, e.data = some d → detects c₀ d = true →
    e.verdict = .duplicate ∧ conflictRecord d ∈ s.priv.partialAttemptsInfo
  kept : (∀ e ∈ s.trace, e.verdict ≠ .committed) → s.catalog = c₀


/-- The data object of the group `e` is one that a turn recorded in `t`
committed or skipped as a duplicate. -/
def knownFrom (t : List Pass2Entry) (e : Pass2Entry) : Prop :=
  ∃ e₁ ∈ t, e₁.data = e.data ∧ (e₁.verdict = .committed ∨ e₁.verdict = .duplicate)

instance (t : List Pass2Entry) (e : Pass2Entry) : Decidable (knownFrom t e) := by
  unfold knownFrom; infer_instance

/-- Two slices of one series of patient `P`; the orientation of the second
slice differs from that of the first past the fifth significant digit. -/
def envNoise : Env :=
  sampleEnv ["/d/a.dcm", "/d/b.dcm"]
    (fun p => sampleHeader "P" "T" ""
      (if p = "/d/a.dcm" then "1.00000 0 0 0 1.00000 0" else "1.00002 0 0 0 1.00001 0"))
    none

/-- One file whose patient name is written with two blanks, `A  B`. -/
def envBlanks : Env :=
  sampleEnv ["/d/1"] (fun _ => sampleHeader "A  B" "T" "" "") none


/-- The value `populateMissingMetadata` stores under a key that is not
there, for the keys it looks at; `label` is its second argument. The four
keys it does not look at are those `addAdditionalMetaData` and
`generateThumbnails` write. -/
def defaultValue (label : String) : MetaKey → Option String
  | .PatientName => some "John Doe"
  | .StudyDescription => some "EmptyStudy"
  | .SeriesDescription => some label
  | .ThumbnailPath => none
  | .FilePaths => none
  | .Size => none
  | .FileName => none
  | _ => some ""

/-- A data object that carries no metadata at all. -/
def recordNoMetadata : DtkData :=
  { description := "itkDataImageShort3", metaData := [], thumbnails := 0, zDimension := some 1 }

/-- A reader with the given description that reports every file as
readable and reads nothing. -/
def namedReader (description : String) : Reader where
  description := description
  canRead := fun _ => true
  readInformation := fun _ => none
  read := fun _ => none

/-- Decimal value of a list of digit characters. -/
def digitsValue (cs : List Char) : Nat :=
  cs.foldl (fun a c => 10 * a + (c.toNat - 48)) 0

/-- The loops of `createMissingImages` seen as one: for each request (name,
path, thumbnail), in order, `insertImageIfMissing`. -/
def insertImages (indexWithoutImporting : Bool) (d : DtkData) (seriesId : Nat) :
    List (String × String × String) → Catalog → Catalog
  | [], c => c
  | q :: qs, c =>
    insertImages indexWithoutImporting d seriesId qs
      (insertImageIfMissing indexWithoutImporting d seriesId q.1 q.2.1 q.2.2 c)

/-- The requests of the first loop of `createMissingImages`, from index `i`
on. -/
def perThumbnailRequests (file : String) : Nat → List String → List (String × String × String)
  | _, [] => []
  | i, t :: thumbs =>
    (fileName file ++ setNum i, filePath file, t) :: perThumbnailRequests file (i + 1) thumbs

/-- The requests of the second loop of `createMissingImages`, from index `i`
on. -/
def perFileRequests (thumbPaths : List String) :
    Nat → List String → List (String × String × String)
  | _, [] => []
  | i, f :: files =>
    (fileName f, filePath f, if i < thumbPaths.length then thumbPaths.getD i "" else "") ::
      perFileRequests thumbPaths (i + 1) files

/-- The image rows of `c'` that come after those of `c`. -/
def insertedImages (c c' : Catalog) : List ImageRow :=
  c'.image.drop c.image.length

/-- Series, name, path and thumbnail of an image row. -/
def ImageRow.shown (r : ImageRow) : Nat × String × String × String :=
  (r.series, r.name, r.path, r.thumbnail)

/-- The catalog `c'` is `c` with series rows and image rows added, the
added series rows with an empty `path`, the added image rows with an empty
`instance_path` and `isIndexed` set. -/
def Catalog.IndexOnlyGrowth (c c' : Catalog) : Prop :=
  ∃ (ss : List SeriesRow) (is : List ImageRow),
    c'.series = c.series ++ ss ∧ c'.image = c.image ++ is ∧
    (∀ r ∈ ss, r.path = "") ∧ (∀ r ∈ is, r.instance_path = "" ∧ r.isIndexed = true)

/-- A data object whose metadata are the list of its files and the name
`/A/EmptyStudy/T1.mha` of the aggregated file. -/
def recordOfFiles (files : List String) : DtkData :=
  { description := "itkDataImageShort3",
    metaData := [(.FilePaths, files), (.FileName, ["/A/EmptyStudy/T1.mha"])],
    thumbnails := 0, zDimension := some 1 }

/-- The signal is one of the three that end a run. -/
def Signal.isTerminal : Signal → Bool
  | .cancelled => true
  | .failure => true
  | .success => true
  | _ => false

/-- The conflict records of the turns recorded in `t`: one for each group
skipped as a duplicate, in the order of the turns. -/
def conflictsOf (t : List Pass2Entry) : List (List String) :=
  t.filterMap fun e => if e.verdict = .duplicate then e.data.map conflictRecord else none

/-- What the part of a turn of the final loop that follows the conflict
check does, from the state `s` to the state `s'`, to the record of the
turns, the progress counter, the signals and the list of conflicts (`priv`
is the private data the part starts from). -/
structure Pass2Stored (s s' : Pass2State) (priv : ImporterState) (name : String)
    (files : List String) : Prop where
  entry : ∃ e : Pass2Entry, s'.trace = s.trace ++ [e] ∧ e.aggregatedFileName = name ∧
    e.filesPaths = files ∧ e.verdict ≠ .duplicate
  index_eq : s'.currentImageIndex = s.currentImageIndex
  signals_eq : ∃ extra, s'.signals = s.signals ++ extra ∧
    ∀ sg ∈ extra, ∃ m, sg = Signal.showError m
  info_eq : s'.priv.partialAttemptsInfo = priv.partialAttemptsInfo

/-- What one turn of the final loop over `n` groups, for the group `entry`,
from the state `s` to the state `s'` with the record `e`, does to the
record of the turns, the progress counter, the signals and the list of
conflicts. -/
structure Pass2Emits (n : Nat) (entry : String × List String) (s s' : Pass2State)
    (e : Pass2Entry) : Prop where
  trace_eq : s'.trace = s.trace ++ [e]
  name_eq : e.aggregatedFileName = entry.1
  files_eq : e.filesPaths = entry.2
  index_eq : s'.currentImageIndex = s.currentImageIndex + 1
  signals_eq : ∃ extra, s'.signals = s.signals ++
      Signal.progressed ((s.currentImageIndex : ℚ) / (n : ℚ) * 50 + 50) :: extra ∧
    ∀ sg ∈ extra, ∃ m, sg = Signal.showError m
  info_eq : s'.priv.partialAttemptsInfo = s.priv.partialAttemptsInfo ++ conflictsOf [e]
  skipped : e.verdict = .duplicate →
    e.data.isSome = true ∧ s'.catalog = s.catalog ∧ s'.storage = s.storage

/-- The three files of `envABA`, which make two groups; the user cancels
once the three files and the first of the two groups have been started,
that is while the final loop is at group 1 of 2. -/
def envCancelInPass2 : Env :=
  sampleEnv ["/d/1", "/d/2", "/d/3"]
    (fun p => sampleHeader (if p = "/d/2" then "B" else "A") "T" "" "") (some 4)

/-- One more file, `/d/9`, of the series of patient `A` that `envOneFile`
indexes. -/
def envNextSlice : Env :=
  sampleEnv ["/d/9"] (fun _ => sampleHeader "A" "T" "" "") none

/-- A reader with the given description that reports as readable the path
list `accepted` and no other, and reads nothing. -/
def pickyReader (description : String) (accepted : List String) : Reader where
  description := description
  canRead := fun paths => decide (paths = accepted)
  readInformation := fun _ => none
  read := fun _ => none

/-- A writer with the given description for the given logical types; it
accepts every path and writes with success. -/
def namedWriter (description : String) (handled : List String) : Writer where
  description := description
  handled := handled
  canWrite := fun _ => true
  write := fun _ _ _ => true

/-- A mesh without metadata. -/
def recordMesh : DtkData :=
  { description := "vtkDataMesh", metaData := [], thumbnails := 0, zDimension := none }

/-- The keys whose first values `generateUniqueVolumeId` reads. -/
def volumeKeyFields : List MetaKey :=
  [.PatientName, .StudyID, .SeriesID, .Orientation, .SeriesNumber, .SequenceName,
   .SliceThickness, .Rows, .Columns]

/-- A normalized record with the given patient name, study id and
orientation. -/
def recordOfKey (patient studyId orientation : String) : DtkData :=
  populateMissingMetadata
    { description := "itkDataImageShort3",
      metaData := [(.PatientName, [patient]), (.StudyID, [studyId]),
                   (.Orientation, [orientation])],
      thumbnails := 0, zDimension := some 1 } "f"

/-- The quantized orientation: the components of the orientation between
blanks, each parsed as a number and printed with five significant digits,
joined without separator. -/
def orientationToFiveDigits (orientation : String) : String :=
  String.join ((splitOnBlank orientation).map fun component => numberG 5 (toDouble component))

/-- A normalized record of patient `A` with the given orientation, study
description and list of files. -/
def recordOfOrientation (orientation studyDescription : String) (files : List String) :
    DtkData :=
  populateMissingMetadata
    { description := "itkDataImageShort3",
      metaData := [(.PatientName, ["A"]), (.Orientation, [orientation]),
                   (.StudyDescription, [studyDescription]), (.FilePaths, files)],
      thumbnails := 0, zDimension := some 1 } "f"

/-- The header of the file `path` of patient `A`, series `T`, from a reader
that reports the path of the file in the header, normalized with the series
label `label`. -/
def headerWithPath (path label : String) : DtkData :=
  populateMissingMetadata
    { description := "itkDataImageShort3",
      metaData := [(.PatientName, ["A"]), (.SeriesDescription, ["T"]), (.SeriesID, [""]),
                   (.Orientation, [""]), (.FilePaths, [path])],
      thumbnails := 0, zDimension := some 1 } label

/-- An importing run over one file whose logical type, `someOtherType`, has
no extension. -/
def envImportUnknown : Env :=
  { sampleEnv ["/d/1"]
      (fun _ => { description := "someOtherType", metaData := [], thumbnails := 0,
                  zDimension := none }) none with
    indexWithoutImporting := false }

/-- Two files of two patients: the first in the order of the files is of
patient `B`, the second of patient `A`. -/
def envBA : Env :=
  sampleEnv ["/d/1", "/d/2"]
    (fun p => sampleHeader (if p = "/d/1" then "B" else "A") "T" "" "") none

/-- The keys of a `QMap` come in strictly ascending order of
`QString::operator<`. -/
def QMap.Ascending {β : Type} (m : QMap β) : Prop :=
  (m.map (·.1)).Pairwise fun a b => qLt a b = true

/-- The progress values among the signals, in the order of emission. -/
def progressValues (signals : List Signal) : List ℚ :=
  signals.filterMap fun sg =>
    match sg with
    | .progressed v => some v
    | _ => none

/-- The values `i / n * 50` for `i` from 0 up to `k - 1`: what the first
loop over `n` files emits when it takes `k` of them. -/
def pass1Progress (n k : Nat) : List ℚ :=
  (List.range k).map fun i : Nat => (i : ℚ) / (n : ℚ) * 50

/-- The values `j / m * 50 + 50` for `j` from 0 up to `m - 1`: what the
final loop over `m` groups emits. -/
def pass2Progress (m : Nat) : List ℚ :=
  (List.range m).map fun j : Nat => (j : ℚ) / (m : ℚ) * 50 + 50

/-! ## Properties -/

set_option maxRecDepth 100000

/-! ### Lists and queries -/

theorem find?_append_new {α : Type} (p : α → Bool) (l : List α) (x : α)
    (h : l.find? p = none) (hx : p x = true) : (l ++ [x]).find? p = some x := by
  simp [List.find?_append, h, hx]

theorem find?_append_old {α : Type} (p : α → Bool) (l l' : List α) (y : α)
    (h : l.find? p = some y) : (l ++ l').find? p = some y := by
  simp [List.find?_append, h]

theorem find?_of_prefix {α : Type} (p : α → Bool) (l l' : List α) (y : α)
    (hl : l <+: l') (h : l.find? p = some y) : l'.find? p = some y := by
  obtain ⟨t, rfl⟩ := hl
  exact find?_append_old p l t y h

theorem find?_unique {α : Type} (p : α → Bool) (l : List α) (x : α) (hx : x ∈ l)
    (hp : p x = true) (huniq : ∀ y ∈ l, p y = true → y = x) : l.find? p = some x := by
  cases h : l.find? p with
  | none =>
    have := List.find?_eq_none.mp h x hx
    simp [hp] at this
  | some y =>
    have hy := huniq y (List.mem_of_find?_eq_some h) (List.find?_some h)
    rw [hy]

/-! ### CatalogWriter -/

theorem getOrCreatePatient_found (c : Catalog) (d : DtkData) (p : PatientRow)
    (h : selectPatient c (simplified (d.first .PatientName)) = some p) :
    getOrCreatePatient c d = (p.id, c) := by
  simp [getOrCreatePatient, h]

theorem getOrCreatePatient_new (c : Catalog) (d : DtkData)
    (h : selectPatient c (simplified (d.first .PatientName)) = none) :
    getOrCreatePatient c d =
      ((newPatientRow c d).id, { c with patient := c.patient ++ [newPatientRow c d] }) := by
  simp [getOrCreatePatient, h]

theorem getOrCreateStudy_found (c : Catalog) (d : DtkData) (patientId : Nat) (st : StudyRow)
    (h : selectStudy c patientId (simplified (d.first .StudyDescription)) (d.first .StudyID)
      = some st) :
    getOrCreateStudy c d patientId = (st.id, c) := by
  simp [getOrCreateStudy, h]

theorem getOrCreateStudy_new (c : Catalog) (d : DtkData) (patientId : Nat)
    (h : selectStudy c patientId (simplified (d.first .StudyDescription)) (d.first .StudyID)
      = none) :
    getOrCreateStudy c d patientId =
      ((newStudyRow c d patientId).id,
       { c with study := c.study ++ [newStudyRow c d patientId] }) := by
  simp [getOrCreateStudy, h]

theorem getOrCreateSeries_found (ix : Bool) (c : Catalog) (d : DtkData) (studyId : Nat)
    (se : SeriesRow) (h : selectSeriesOf c d studyId = some se) :
    getOrCreateSeries ix c d studyId = (se.id, c) := by
  simp [getOrCreateSeries, h]

theorem getOrCreateSeries_new (ix : Bool) (c : Catalog) (d : DtkData) (studyId : Nat)
    (h : selectSeriesOf c d studyId = none) :
    getOrCreateSeries ix c d studyId =
      ((newSeriesRow ix c d studyId).id,
       { c with series := c.series ++ [newSeriesRow ix c d studyId] }) := by
  simp [getOrCreateSeries, h]

/-- After `getOrCreatePatient` the patient query finds a row whose id is
the id returned. -/
theorem selectPatient_after (c : Catalog) (d : DtkData) :
    ∃ p, selectPatient (getOrCreatePatient c d).2 (simplified (d.first .PatientName)) = some p ∧
      p.id = (getOrCreatePatient c d).1 := by
  cases h : selectPatient c (simplified (d.first .PatientName)) with
  | some p => exact ⟨p, by rw [getOrCreatePatient_found c d p h]; exact h, by
      rw [getOrCreatePatient_found c d p h]⟩
  | none =>
    refine ⟨newPatientRow c d, ?_, by rw [getOrCreatePatient_new c d h]⟩
    rw [getOrCreatePatient_new c d h]
    simp only [selectPatient] at h ⊢
    exact find?_append_new _ _ _ h (by simp [newPatientRow])

theorem selectStudy_after (c : Catalog) (d : DtkData) (patientId : Nat) :
    ∃ st, selectStudy (getOrCreateStudy c d patientId).2 patientId
        (simplified (d.first .StudyDescription)) (d.first .StudyID) = some st ∧
      st.id = (getOrCreateStudy c d patientId).1 := by
  cases h : selectStudy c patientId (simplified (d.first .StudyDescription))
      (d.first .StudyID) with
  | some st => exact ⟨st, by rw [getOrCreateStudy_found c d patientId st h]; exact h, by
      rw [getOrCreateStudy_found c d patientId st h]⟩
  | none =>
    refine ⟨newStudyRow c d patientId, ?_, by rw [getOrCreateStudy_new c d patientId h]⟩
    rw [getOrCreateStudy_new c d patientId h]
    simp only [selectStudy] at h ⊢
    exact find?_append_new _ _ _ h (by simp [newStudyRow])

theorem selectSeries_after (ix : Bool) (c : Catalog) (d : DtkData) (studyId : Nat) :
    ∃ se, selectSeriesOf (getOrCreateSeries ix c d studyId).2 d studyId = some se ∧
      se.id = (getOrCreateSeries ix c d studyId).1 := by
  cases h : selectSeriesOf c d studyId with
  | some se => exact ⟨se, by rw [getOrCreateSeries_found ix c d studyId se h]; exact h, by
      rw [getOrCreateSeries_found ix c d studyId se h]⟩
  | none =>
    refine ⟨newSeriesRow ix c d studyId, ?_, by rw [getOrCreateSeries_new ix c d studyId h]⟩
    rw [getOrCreateSeries_new ix c d studyId h]
    simp only [selectSeriesOf, selectSeries] at h ⊢
    exact find?_append_new _ _ _ h (by simp [newSeriesRow, seriesMatches])

/-- C7. Get-or-create is idempotent: for each of `getOrCreatePatient`,
`getOrCreateStudy` and `getOrCreateSeries`, a second call with the same
record (and the same parent id) on the catalog the first call left returns
the same identifier and leaves that catalog as it is. -/
theorem getOrCreate_idempotent (ix : Bool) (c : Catalog) (d : DtkData) (patientId studyId : Nat) :
    getOrCreatePatient (getOrCreatePatient c d).2 d =
        ((getOrCreatePatient c d).1, (getOrCreatePatient c d).2) ∧
    getOrCreateStudy (getOrCreateStudy c d patientId).2 d patientId =
        ((getOrCreateStudy c d patientId).1, (getOrCreateStudy c d patientId).2) ∧
    getOrCreateSeries ix (getOrCreateSeries ix c d studyId).2 d studyId =
        ((getOrCreateSeries ix c d studyId).1, (getOrCreateSeries ix c d studyId).2) := by
  refine ⟨?_, ?_, ?_⟩
  · obtain ⟨p, hp, hid⟩ := selectPatient_after c d
    rw [getOrCreatePatient_found _ d p hp, hid]
  · obtain ⟨st, hst, hid⟩ := selectStudy_after c d patientId
    rw [getOrCreateStudy_found _ d patientId st hst, hid]
  · obtain ⟨se, hse, hid⟩ := selectSeries_after ix c d studyId
    rw [getOrCreateSeries_found ix _ d studyId se hse, hid]


/-! ### Growth of the catalog -/

theorem Catalog.Extends.refl (c : Catalog) : c.Extends c :=
  ⟨List.prefix_refl _, List.prefix_refl _, List.prefix_refl _, List.prefix_refl _⟩

theorem Catalog.Extends.trans {a b c : Catalog} (h₁ : a.Extends b) (h₂ : b.Extends c) :
    a.Extends c :=
  ⟨h₁.1.trans h₂.1, h₁.2.1.trans h₂.2.1, h₁.2.2.1.trans h₂.2.2.1, h₁.2.2.2.trans h₂.2.2.2⟩

theorem getOrCreatePatient_extends (c : Catalog) (d : DtkData) :
    c.Extends (getOrCreatePatient c d).2 := by
  cases h : selectPatient c (simplified (d.first .PatientName)) with
  | some p => rw [getOrCreatePatient_found c d p h]; exact Catalog.Extends.refl c
  | none =>
    rw [getOrCreatePatient_new c d h]
    exact ⟨List.prefix_append _ _, List.prefix_refl _, List.prefix_refl _, List.prefix_refl _⟩

theorem getOrCreateStudy_extends (c : Catalog) (d : DtkData) (patientId : Nat) :
    c.Extends (getOrCreateStudy c d patientId).2 := by
  cases h : selectStudy c patientId (simplified (d.first .StudyDescription))
      (d.first .StudyID) with
  | some st => rw [getOrCreateStudy_found c d patientId st h]; exact Catalog.Extends.refl c
  | none =>
    rw [getOrCreateStudy_new c d patientId h]
    exact ⟨List.prefix_refl _, List.prefix_append _ _, List.prefix_refl _, List.prefix_refl _⟩

theorem getOrCreateSeries_extends (ix : Bool) (c : Catalog) (d : DtkData) (studyId : Nat) :
    c.Extends (getOrCreateSeries ix c d studyId).2 := by
  cases h : selectSeriesOf c d studyId with
  | some se => rw [getOrCreateSeries_found ix c d studyId se h]; exact Catalog.Extends.refl c
  | none =>
    rw [getOrCreateSeries_new ix c d studyId h]
    exact ⟨List.prefix_refl _, List.prefix_refl _, List.prefix_append _ _, List.prefix_refl _⟩

theorem insertImageIfMissing_extends (ix : Bool) (d : DtkData) (seriesId : Nat)
    (name path thumbnail : String) (c : Catalog) :
    c.Extends (insertImageIfMissing ix d seriesId name path thumbnail c) := by
  unfold insertImageIfMissing
  cases selectImage c seriesId name with
  | some _ => exact Catalog.Extends.refl c
  | none =>
    exact ⟨List.prefix_refl _, List.prefix_refl _, List.prefix_refl _, List.prefix_append _ _⟩

theorem createImagesPerThumbnail_extends (ix : Bool) (d : DtkData) (seriesId : Nat)
    (file : String) (thumbs : List String) :
    ∀ (i : Nat) (c : Catalog),
      c.Extends (createImagesPerThumbnail ix d seriesId file i thumbs c) := by
  induction thumbs with
  | nil => intro i c; exact Catalog.Extends.refl c
  | cons t ts ih =>
    intro i c
    simp only [createImagesPerThumbnail]
    exact (insertImageIfMissing_extends ix d seriesId _ _ t c).trans (ih (i + 1) _)

theorem createImagesPerFile_extends (ix : Bool) (d : DtkData) (seriesId : Nat)
    (thumbPaths : List String) (files : List String) :
    ∀ (i : Nat) (c : Catalog),
      c.Extends (createImagesPerFile ix d seriesId thumbPaths i files c) := by
  induction files with
  | nil => intro i c; exact Catalog.Extends.refl c
  | cons f fs ih =>
    intro i c
    simp only [createImagesPerFile]
    exact (insertImageIfMissing_extends ix d seriesId _ _ _ c).trans (ih (i + 1) _)

theorem createMissingImages_extends (ix : Bool) (c : Catalog) (d : DtkData) (seriesId : Nat)
    (thumbPaths : List String) :
    c.Extends (createMissingImages ix c d seriesId thumbPaths) := by
  unfold createMissingImages
  simp only
  split
  · exact createImagesPerThumbnail_extends ix d seriesId _ thumbPaths 0 c
  · exact createImagesPerFile_extends ix d seriesId thumbPaths _ 0 c

theorem getOrCreateChain_extends (ix : Bool) (c : Catalog) (d : DtkData) :
    c.Extends (getOrCreateChain ix c d).2 := by
  unfold getOrCreateChain
  exact ((getOrCreatePatient_extends c d).trans (getOrCreateStudy_extends _ d _)).trans
    (getOrCreateSeries_extends ix _ d _)

theorem populateDatabase_extends (ix : Bool) (c : Catalog) (d : DtkData)
    (thumbPaths : List String) : c.Extends (populateDatabase ix c d thumbPaths) := by
  unfold populateDatabase
  exact (getOrCreateChain_extends ix c d).trans (createMissingImages_extends ix _ d _ thumbPaths)

/-! ### ConflictDetector -/

theorem isPartialImportAttempt_eq (c : Catalog) (info : List (List String)) (d : DtkData) :
    isPartialImportAttempt c info d =
      if detects c d then (true, info ++ [conflictRecord d]) else (false, info) := by
  unfold detects isPartialImportAttempt conflictRecord
  cases hp : selectPatient c (simplified (d.first .PatientName)) with
  | none => simp [hp]
  | some p =>
    cases hst : selectStudy c p.id (simplified (d.first .StudyDescription))
        (d.first .StudyID) with
    | none => simp [hp, hst]
    | some st =>
      cases hse : selectSeriesOf c d st.id with
      | none => simp [hp, hst, hse]
      | some se => simp [hp, hst, hse]

theorem detects_iff (c : Catalog) (d : DtkData) :
    detects c d = true ↔
      ∃ p st se, selectPatient c (simplified (d.first .PatientName)) = some p ∧
        selectStudy c p.id (simplified (d.first .StudyDescription)) (d.first .StudyID)
          = some st ∧
        selectSeriesOf c d st.id = some se := by
  unfold detects isPartialImportAttempt
  cases hp : selectPatient c (simplified (d.first .PatientName)) with
  | none => simp [hp]
  | some p =>
    cases hst : selectStudy c p.id (simplified (d.first .StudyDescription))
        (d.first .StudyID) with
    | none => simp [hp, hst]
    | some st =>
      cases hse : selectSeriesOf c d st.id with
      | none => simp [hp, hst, hse]
      | some se => simp [hp, hst, hse]

/-- The detector keeps saying yes when rows are added to the catalog. -/
theorem detects_mono {c c' : Catalog} (h : c.Extends c') (d : DtkData)
    (hd : detects c d = true) : detects c' d = true := by
  rw [detects_iff] at hd ⊢
  obtain ⟨p, st, se, hp, hst, hse⟩ := hd
  exact ⟨p, st, se, find?_of_prefix _ _ _ _ h.1 hp, find?_of_prefix _ _ _ _ h.2.1 hst,
    find?_of_prefix _ _ _ _ h.2.2.1 hse⟩

theorem detects_after_chain (ix : Bool) (c : Catalog) (d : DtkData) :
    detects (getOrCreateChain ix c d).2 d = true := by
  rw [detects_iff]
  unfold getOrCreateChain
  obtain ⟨p, hp, hpid⟩ := selectPatient_after c d
  obtain ⟨st, hst, hsid⟩ := selectStudy_after (getOrCreatePatient c d).2 d
    (getOrCreatePatient c d).1
  obtain ⟨se, hse, -⟩ := selectSeries_after ix
    (getOrCreateStudy (getOrCreatePatient c d).2 d (getOrCreatePatient c d).1).2 d
    (getOrCreateStudy (getOrCreatePatient c d).2 d (getOrCreatePatient c d).1).1
  refine ⟨p, st, se, ?_, ?_, ?_⟩
  · exact find?_of_prefix _ _ _ _
      ((getOrCreateStudy_extends _ d _).trans (getOrCreateSeries_extends ix _ d _)).1 hp
  · rw [hpid]
    exact find?_of_prefix _ _ _ _ (getOrCreateSeries_extends ix _ d _).2.1 hst
  · rw [hsid]; exact hse

/-- C8. Writer and detector agree: after `getOrCreatePatient`, then
`getOrCreateStudy`, then `getOrCreateSeries` have committed a record,
`isPartialImportAttempt` applied to the same record on the resulting
catalog returns true, whatever the catalog was before and whatever
conflicts were recorded so far. -/
theorem writer_then_detector (ix : Bool) (c : Catalog) (info : List (List String))
    (d : DtkData) :
    (isPartialImportAttempt (getOrCreateChain ix c d).2 info d).1 = true := by
  rw [isPartialImportAttempt_eq, detects_after_chain]
  rfl


theorem isPartialImportAttempt_fst (c : Catalog) (info : List (List String)) (d : DtkData) :
    (isPartialImportAttempt c info d).1 = detects c d := by
  rw [isPartialImportAttempt_eq]
  cases detects c d <;> rfl

theorem find?_isSome_of_mem {α : Type} (p : α → Bool) (l : List α) (x : α) (hx : x ∈ l)
    (hp : p x = true) : ∃ y, l.find? p = some y := by
  cases h : l.find? p with
  | none =>
    have := List.find?_eq_none.mp h x hx
    simp [hp] at this
  | some y => exact ⟨y, rfl⟩

/-- C6 (amended). ConflictDetector result: on a catalog whose patient
names are pairwise distinct and whose studies are pairwise distinct on
(patient, name, uid), and for a record that has at least one file path (the
source reads `filePaths[0]` when the chain matches),
`isPartialImportAttempt` returns true if and only if the catalog holds a
patient with the whitespace-normalized patient name of the record, a study
of that patient with the whitespace-normalized study description and the
study id of the record, and a series of that study equal to the record on
(whitespace-normalized series description, uid, orientation, seriesNumber,
sequenceName, sliceThickness, rows, columns). -/
theorem conflictDetector_iff_chain (c : Catalog) (info : List (List String)) (d : DtkData)
    (hpat : c.PatientsDistinct) (hstu : c.StudiesDistinct)
    (_ : d.metaDataValues .FilePaths ≠ []) :
    (isPartialImportAttempt c info d).1 = true ↔
      chainHolds c d (simplified (d.first .StudyDescription))
        (simplified (d.first .SeriesDescription)) := by
  rw [isPartialImportAttempt_fst, detects_iff]
  constructor
  · rintro ⟨p, st, se, hp, hst, hse⟩
    refine ⟨p, List.mem_of_find?_eq_some hp, ?_, st, List.mem_of_find?_eq_some hst, ?_,
      se, List.mem_of_find?_eq_some hse, ?_⟩
    · simpa using List.find?_some hp
    · simpa using List.find?_some hst
    · exact List.find?_some hse
  · rintro ⟨p, hpm, hpn, st, hstm, hstp, se, hsem, hsep⟩
    have hp : selectPatient c (simplified (d.first .PatientName)) = some p := by
      apply find?_unique _ _ p hpm (by simpa using hpn)
      intro y hy hyn
      by_contra hne
      have hsym : Symmetric fun a b : PatientRow => a.name ≠ b.name :=
        fun a b h => Ne.symm h
      have := hpat.forall hsym hy hpm hne
      simp at hyn
      exact this (hyn.trans hpn.symm)
    have hst : selectStudy c p.id (simplified (d.first .StudyDescription))
        (d.first .StudyID) = some st := by
      apply find?_unique _ _ st hstm (by simpa using hstp)
      intro y hy hyn
      by_contra hne
      have hsym : Symmetric fun a b : StudyRow =>
          ¬ (a.patient = b.patient ∧ a.name = b.name ∧ a.uid = b.uid) :=
        fun a b h hab => h ⟨hab.1.symm, hab.2.1.symm, hab.2.2.symm⟩
      have := hstu.forall hsym hy hstm hne
      simp at hyn
      exact this ⟨hyn.1.trans hstp.1.symm, hyn.2.1.trans hstp.2.1.symm,
        hyn.2.2.trans hstp.2.2.symm⟩
    obtain ⟨se', hse'⟩ := find?_isSome_of_mem _ _ se hsem hsep
    exact ⟨p, st, se', hp, hst, hse'⟩

/-- C6 witness: the amended statement at the catalog `catalogOneSeries` and
the record `recordTwoBlanks`, which has the file path `/d/f`: the chain
holds with the names `a b` and `T`, and `isPartialImportAttempt` returns
true. -/
theorem conflictDetector_iff_chain_witness :
    catalogOneSeries.PatientsDistinct ∧ catalogOneSeries.StudiesDistinct ∧
      recordTwoBlanks.metaDataValues .FilePaths = ["/d/f"] ∧
      chainHolds catalogOneSeries recordTwoBlanks
        (simplified (recordTwoBlanks.first .StudyDescription))
        (simplified (recordTwoBlanks.first .SeriesDescription)) ∧
      (isPartialImportAttempt catalogOneSeries [] recordTwoBlanks).1 = true :=
  ⟨by simp [Catalog.PatientsDistinct, catalogOneSeries],
    by simp [Catalog.StudiesDistinct, catalogOneSeries], by decide, by decide,
    (conflictDetector_iff_chain catalogOneSeries [] recordTwoBlanks
      (by simp [Catalog.PatientsDistinct, catalogOneSeries])
      (by simp [Catalog.StudiesDistinct, catalogOneSeries]) (by decide)).mpr (by decide)⟩

/-- C6 counterexample: with the study and series names taken as they stand
in the record, the equivalence fails. The catalog `catalogOneSeries`
satisfies both distinctness conditions and holds patient `P`, study `a b`,
series `T`; for the record `recordTwoBlanks`, read from the file `/d/f`,
whose study description is `a  b` with two blanks, `isPartialImportAttempt`
returns true, and records the conflict, although no study is named
`a  b`. -/
theorem conflictDetector_raw_names_counterexample :
    catalogOneSeries.PatientsDistinct ∧ catalogOneSeries.StudiesDistinct ∧
      recordTwoBlanks.first .StudyDescription = "a  b" ∧
      catalogOneSeries.study.map (·.name) = ["a b"] ∧
      isPartialImportAttempt catalogOneSeries [] recordTwoBlanks =
        (true, [["P", "a b", "T", "/d/f"]]) ∧
      ¬ chainHolds catalogOneSeries recordTwoBlanks
          (recordTwoBlanks.first .StudyDescription)
          (recordTwoBlanks.first .SeriesDescription) := by
  refine ⟨by simp [Catalog.PatientsDistinct, catalogOneSeries],
    by simp [Catalog.StudiesDistinct, catalogOneSeries], ?_⟩
  decide


/-! ### `QString` order and `QMap` -/

theorem ltUnits_irrefl (a : List Nat) : ltUnits a a = false := by
  induction a with
  | nil => rfl
  | cons x xs ih => simp [ltUnits, ih]

theorem ltUnits_trichotomy (a b : List Nat) (h₁ : ltUnits a b = false)
    (h₂ : ltUnits b a = false) : a = b := by
  induction a generalizing b with
  | nil =>
    cases b with
    | nil => rfl
    | cons y ys => simp [ltUnits] at h₁
  | cons x xs ih =>
    cases b with
    | nil => simp [ltUnits] at h₂
    | cons y ys =>
      simp only [ltUnits] at h₁ h₂
      by_cases hxy : x < y
      · simp [hxy] at h₁
      · by_cases hyx : y < x
        · simp [hyx] at h₂
        · simp only [hxy, hyx, if_false] at h₁ h₂
          have hn : x = y := by omega
          rw [hn, ih ys h₁ h₂]

theorem ltUnits_trans (a : List Nat) :
    ∀ b c : List Nat, ltUnits a b = true → ltUnits b c = true → ltUnits a c = true := by
  induction a with
  | nil =>
    intro b c hab hbc
    cases c with
    | nil => cases b <;> simp [ltUnits] at hbc
    | cons z zs => simp [ltUnits]
  | cons x xs ih =>
    intro b c hab hbc
    cases b with
    | nil => simp [ltUnits] at hab
    | cons y ys =>
      cases c with
      | nil => simp [ltUnits] at hbc
      | cons z zs =>
        simp only [ltUnits] at hab hbc ⊢
        by_cases hxy : x < y
        · by_cases hyz : y < z
          · have : x < z := by omega
            simp [this]
          · by_cases hzy : z < y
            · simp [hyz, hzy] at hbc
            · have : x < z := by omega
              simp [this]
        · by_cases hyx : y < x
          · simp [hxy, hyx] at hab
          · simp only [hxy, hyx, if_false] at hab
            by_cases hyz : y < z
            · have : x < z := by omega
              simp [this]
            · by_cases hzy : z < y
              · simp [hyz, hzy] at hbc
              · simp only [hyz, hzy, if_false] at hbc
                have h1 : ¬ x < z := by omega
                have h2 : ¬ z < x := by omega
                simp only [h1, h2, if_false]
                exact ih ys zs hab hbc

theorem char_scalar (c : Char) :
    c.toNat < 0xD800 ∨ (0xDFFF < c.toNat ∧ c.toNat < 0x110000) := c.valid

theorem char_eq_of_toNat {x y : Char} (h : x.toNat = y.toNat) : x = y := by
  rw [← Char.ofNat_toNat x, ← Char.ofNat_toNat y, h]

theorem utf16_injective (a : List Char) : ∀ b : List Char, utf16 a = utf16 b → a = b := by
  induction a with
  | nil =>
    intro b h
    cases b with
    | nil => rfl
    | cons y ys =>
      simp only [utf16, utf16Units] at h
      split at h <;> simp at h
  | cons x xs ih =>
    intro b h
    cases b with
    | nil =>
      simp only [utf16, utf16Units] at h
      split at h <;> simp at h
    | cons y ys =>
      have hx := char_scalar x
      have hy := char_scalar y
      simp only [utf16, utf16Units] at h
      by_cases h1 : x.toNat < 0x10000 <;> by_cases h2 : y.toNat < 0x10000
      · simp only [h1, h2, if_true, List.singleton_append, List.cons.injEq] at h
        rw [char_eq_of_toNat h.1, ih ys h.2]
      · simp only [h1, h2, if_true, if_false, List.singleton_append, List.cons_append,
          List.cons.injEq] at h
        omega
      · simp only [h1, h2, if_true, if_false, List.singleton_append, List.cons_append,
          List.cons.injEq] at h
        omega
      · simp only [h1, h2, if_false, List.cons_append, List.nil_append, List.cons.injEq] at h
        have hn : x.toNat = y.toNat := by omega
        rw [char_eq_of_toNat hn, ih ys h.2.2]

theorem qLtChars_irrefl (a : List Char) : qLtChars a a = false := ltUnits_irrefl _

theorem qLtChars_trichotomy (a b : List Char) (h₁ : qLtChars a b = false)
    (h₂ : qLtChars b a = false) : a = b :=
  utf16_injective a b (ltUnits_trichotomy _ _ h₁ h₂)

/-- The order is that of the UTF-16 code units, not that of the code points:
the character U+20BB7, stored as the units `0xD842 0xDFB7`, comes before the
character U+FF21, stored as the unit `0xFF21`. -/
theorem qLt_surrogates_first :
    utf16 [Char.ofNat 0x20BB7] = [0xD842, 0xDFB7] ∧ utf16 [Char.ofNat 0xFF21] = [0xFF21] ∧
    qLt (String.mk [Char.ofNat 0x20BB7]) (String.mk [Char.ofNat 0xFF21]) = true ∧
    qLt (String.mk [Char.ofNat 0xFF21]) (String.mk [Char.ofNat 0x20BB7]) = false := by
  decide

theorem qLt_irrefl (a : String) : qLt a a = false := qLtChars_irrefl a.data

theorem qLt_trichotomy (a b : String) (h₁ : qLt a b = false) (h₂ : qLt b a = false) :
    a = b := by
  have := qLtChars_trichotomy a.data b.data h₁ h₂
  cases a; cases b; simp_all

theorem qLt_ne {a b : String} (h : qLt a b = true) : a ≠ b := by
  rintro rfl
  rw [qLt_irrefl] at h
  exact Bool.noConfusion h

theorem QMap.find?_insert {β : Type} (k : String) (v : β) (m : QMap β) (k' : String) :
    (QMap.insert k v m).find? (fun e => decide (e.1 = k')) =
      if k = k' then some (k, v) else m.find? (fun e => decide (e.1 = k')) := by
  induction m with
  | nil =>
    by_cases h : k = k' <;> simp [QMap.insert, h]
  | cons e rest ih =>
    obtain ⟨ke, ve⟩ := e
    simp only [QMap.insert]
    by_cases h1 : qLt k ke = true
    · by_cases h : k = k'
      · subst h; simp [h1]
      · simp [h1, h, List.find?_cons]
    · by_cases h2 : qLt ke k = true
      · have hne : ke ≠ k := qLt_ne h2
        simp only [h1, h2, if_true, if_false, Bool.false_eq_true]
        by_cases h : k = k'
        · subst h
          simp [List.find?_cons, hne, ih]
        · by_cases hke : ke = k'
          · simp [List.find?_cons, hke, h]
          · simp [List.find?_cons, hke, h, ih]
      · have heq : k = ke :=
          qLt_trichotomy k ke (by simpa using h1) (by simpa using h2)
        subst heq
        simp only [h1, if_false, Bool.false_eq_true]
        by_cases h : k = k' <;> simp [List.find?_cons, h]

theorem QMap.value_insert {β : Type} (k : String) (v : β) (m : QMap β) (k' : String)
    (dflt : β) :
    QMap.value (QMap.insert k v m) k' dflt = if k = k' then v else QMap.value m k' dflt := by
  unfold QMap.value
  rw [QMap.find?_insert]
  by_cases h : k = k' <;> simp [h]

theorem QMap.contains_eq {β : Type} (m : QMap β) (k : String) :
    QMap.contains m k = (m.find? (fun e => decide (e.1 = k))).isSome := by
  unfold QMap.contains
  induction m with
  | nil => rfl
  | cons e rest ih =>
    by_cases h : e.1 = k <;> simp [List.find?_cons, h, ih]

theorem QMap.contains_insert {β : Type} (k : String) (v : β) (m : QMap β) (k' : String) :
    QMap.contains (QMap.insert k v m) k' = (decide (k = k') || QMap.contains m k') := by
  rw [QMap.contains_eq, QMap.contains_eq, QMap.find?_insert]
  by_cases h : k = k' <;> simp [h]

theorem QMap.insert_ne_nil {β : Type} (k : String) (v : β) (m : QMap β) :
    QMap.insert k v m ≠ [] := by
  cases m with
  | nil => simp [QMap.insert]
  | cons e rest =>
    obtain ⟨ke, ve⟩ := e
    simp only [QMap.insert]
    split
    · simp
    · split <;> simp

/-! ### First-seen order -/

theorem firstSeen_append_one (ks : List String) (k : String) :
    firstSeen (ks ++ [k]) = if k ∈ firstSeen ks then firstSeen ks else firstSeen ks ++ [k] := by
  simp [firstSeen, List.foldl_append]

theorem mem_firstSeen (ks : List String) (k : String) : k ∈ firstSeen ks ↔ k ∈ ks := by
  induction ks using List.reverseRecOn with
  | nil => simp [firstSeen]
  | append_singleton l a ih =>
    rw [firstSeen_append_one]
    by_cases h : a ∈ firstSeen l
    · simp only [h, if_true, List.mem_append, List.mem_singleton]
      constructor
      · intro hk; exact Or.inl (ih.mp hk)
      · rintro (hk | rfl)
        · exact ih.mpr hk
        · exact h
    · simp only [h, if_false, List.mem_append, List.mem_singleton, ih]

theorem readKeys_append (t : List Pass1Entry) (e : Pass1Entry) :
    readKeys (t ++ [e]) =
      if e.verdict = .unreadable then readKeys t else readKeys t ++ [e.volumeId] := by
  unfold readKeys
  by_cases h : e.verdict = .unreadable <;> simp [List.filter_append, h]


/-! ### The first loop -/

theorem assignVolumeNumber_map (s : Pass1State) (volumeId : String) :
    ((assignVolumeNumber s volumeId).volumeUniqueIdToVolumeNumber,
      (assignVolumeNumber s volumeId).volumeNumber) =
      if s.volumeUniqueIdToVolumeNumber.contains volumeId then
        (s.volumeUniqueIdToVolumeNumber, s.volumeNumber)
      else (QMap.insert volumeId s.volumeNumber s.volumeUniqueIdToVolumeNumber,
        s.volumeNumber + 1) := by
  unfold assignVolumeNumber
  cases s.volumeUniqueIdToVolumeNumber.contains volumeId <;> simp

theorem assignVolumeNumber_rest (s : Pass1State) (volumeId : String) :
    (assignVolumeNumber s volumeId).trace = s.trace ∧
    (assignVolumeNumber s volumeId).signals = s.signals ∧
    (assignVolumeNumber s volumeId).imagesGroupedByVolume = s.imagesGroupedByVolume ∧
    (assignVolumeNumber s volumeId).currentFileNumber = s.currentFileNumber ∧
    (assignVolumeNumber s volumeId).priv = s.priv := by
  unfold assignVolumeNumber
  cases s.volumeUniqueIdToVolumeNumber.contains volumeId <;> simp

/-- The state of the first loop once a file has been read and its volume
number assigned. -/
theorem pass1Step_unreadable (env : Env) (c : Catalog) (n : Nat) (file : String)
    (s : Pass1State) (priv : ImporterState)
    (h : tryReadImages env.readers s.priv [filePath file] true = (none, priv)) :
    pass1Step env c n file s =
      { s with
        priv := priv
        signals := s.signals ++ [.progressed ((s.currentFileNumber : ℚ) / (n : ℚ) * 50)]
        currentFileNumber := s.currentFileNumber + 1
        trace := s.trace ++ [unreadableEntry file] } := by
  simp [pass1Step, h]


theorem pass1Step_unhandled (env : Env) (c : Catalog) (n : Nat) (file : String)
    (s : Pass1State) (priv : ImporterState) (d0 : DtkData)
    (h : tryReadImages env.readers s.priv [filePath file] true = (some d0, priv))
    (hx : (!env.indexWithoutImporting &&
      (determineFutureImageExtensionByDataType
        (populateMissingMetadata d0 (baseName file))).isEmpty) = true) :
    pass1Step env c n file s =
      { pass1Read n s priv (populateMissingMetadata d0 (baseName file)) with
        signals := (pass1Read n s priv (populateMissingMetadata d0 (baseName file))).signals ++
          [.showError ("Could not save file due to unhandled data type: " ++
            (populateMissingMetadata d0 (baseName file)).description)]
        trace := (pass1Read n s priv (populateMissingMetadata d0 (baseName file))).trace ++
          [readEntry file (populateMissingMetadata d0 (baseName file))
            (pass1Number n s priv (populateMissingMetadata d0 (baseName file)))
            (determineFutureImageFileName (populateMissingMetadata d0 (baseName file))
              (pass1Number n s priv (populateMissingMetadata d0 (baseName file))))
            .unhandledType] } := by
  simp only [pass1Step, h, hx, if_true, pass1Read, pass1Number]

theorem pass1Step_grouped (env : Env) (c : Catalog) (n : Nat) (file : String)
    (s : Pass1State) (priv : ImporterState) (d0 : DtkData)
    (h : tryReadImages env.readers s.priv [filePath file] true = (some d0, priv))
    (hx : (!env.indexWithoutImporting &&
      (determineFutureImageExtensionByDataType
        (populateMissingMetadata d0 (baseName file))).isEmpty) = false)
    (he : checkIfExists c (populateMissingMetadata d0 (baseName file)) (fileName file)
      = false) :
    pass1Step env c n file s =
      { pass1Read n s priv (populateMissingMetadata d0 (baseName file)) with
        imagesGroupedByVolume :=
          QMap.insert (pass1Name n s priv (populateMissingMetadata d0 (baseName file)))
            ((pass1Read n s priv
                (populateMissingMetadata d0 (baseName file))).imagesGroupedByVolume.value
              (pass1Name n s priv (populateMissingMetadata d0 (baseName file))) [] ++ [file])
            (pass1Read n s priv
              (populateMissingMetadata d0 (baseName file))).imagesGroupedByVolume
        trace := (pass1Read n s priv (populateMissingMetadata d0 (baseName file))).trace ++
          [readEntry file (populateMissingMetadata d0 (baseName file))
            (pass1Number n s priv (populateMissingMetadata d0 (baseName file)))
            (pass1Name n s priv (populateMissingMetadata d0 (baseName file)))
            .grouped] } := by
  simp only [filePath] at h
  simp [pass1Step, filePath, h, hx, he, pass1Read, pass1Number, pass1Name]

theorem pass1Step_existing (env : Env) (c : Catalog) (n : Nat) (file : String)
    (s : Pass1State) (priv : ImporterState) (d0 : DtkData)
    (h : tryReadImages env.readers s.priv [filePath file] true = (some d0, priv))
    (hx : (!env.indexWithoutImporting &&
      (determineFutureImageExtensionByDataType
        (populateMissingMetadata d0 (baseName file))).isEmpty) = false)
    (he : checkIfExists c (populateMissingMetadata d0 (baseName file)) (fileName file)
      = true) :
    pass1Step env c n file s =
      { pass1Read n s priv (populateMissingMetadata d0 (baseName file)) with
        trace := (pass1Read n s priv (populateMissingMetadata d0 (baseName file))).trace ++
          [readEntry file (populateMissingMetadata d0 (baseName file))
            (pass1Number n s priv (populateMissingMetadata d0 (baseName file)))
            (pass1Name n s priv (populateMissingMetadata d0 (baseName file)))
            .alreadyInDatabase] } := by
  simp only [filePath] at h
  simp [pass1Step, filePath, h, hx, he, pass1Read, pass1Number, pass1Name]


theorem getElem?_append_one {α : Type} (l : List α) (a x : α) (k : Nat)
    (h : (l ++ [a])[k]? = some x) : l[k]? = some x ∨ (k = l.length ∧ x = a) := by
  by_cases hk : k < l.length
  · left
    rwa [List.getElem?_append_left hk] at h
  · right
    have hk' : l.length ≤ k := Nat.le_of_not_lt hk
    rw [List.getElem?_append_right hk'] at h
    by_cases h0 : k - l.length = 0
    · rw [h0] at h
      simp at h
      exact ⟨by omega, h.symm⟩
    · obtain ⟨j, hj⟩ := Nat.exists_eq_succ_of_ne_zero h0
      rw [hj] at h
      simp at h

theorem mem_readKeys_of_mem (t : List Pass1Entry) (e : Pass1Entry) (he : e ∈ t)
    (hr : e.verdict ≠ .unreadable) : e.volumeId ∈ readKeys t := by
  unfold readKeys
  exact List.mem_map.mpr ⟨e, List.mem_filter.mpr ⟨he, by simpa using hr⟩, rfl⟩

/-- The bookkeeping of volume numbers after a file has been read. -/
theorem pass1Read_numbers (n : Nat) (s : Pass1State) (priv : ImporterState) (d : DtkData)
    (c : Catalog) (inv : Pass1Inv c s) :
    (∀ key, (pass1Read n s priv d).volumeUniqueIdToVolumeNumber.contains key = true ↔
      key ∈ readKeys s.trace ++ [generateUniqueVolumeId d]) ∧
    (∀ k key, (firstSeen (readKeys s.trace ++ [generateUniqueVolumeId d]))[k]? = some key →
      (pass1Read n s priv d).volumeUniqueIdToVolumeNumber.value key 0 = k + 1) ∧
    (pass1Read n s priv d).volumeNumber =
      (firstSeen (readKeys s.trace ++ [generateUniqueVolumeId d])).length + 1 ∧
    (∀ e ∈ s.trace, e.verdict ≠ .unreadable →
      ∀ k, (firstSeen (readKeys s.trace ++ [generateUniqueVolumeId d]))[k]? = some e.volumeId →
        e.volumeNumber = k + 1) := by
  have hmap := assignVolumeNumber_map
    { s with
      priv := priv
      signals := s.signals ++ [.progressed ((s.currentFileNumber : ℚ) / (n : ℚ) * 50)]
      currentFileNumber := s.currentFileNumber + 1 } (generateUniqueVolumeId d)
  simp only at hmap
  by_cases hc : s.volumeUniqueIdToVolumeNumber.contains (generateUniqueVolumeId d) = true
  · rw [if_pos hc] at hmap
    have hm : (pass1Read n s priv d).volumeUniqueIdToVolumeNumber =
        s.volumeUniqueIdToVolumeNumber := congrArg Prod.fst hmap
    have hv : (pass1Read n s priv d).volumeNumber = s.volumeNumber := congrArg Prod.snd hmap
    have hin : generateUniqueVolumeId d ∈ readKeys s.trace := (inv.contains_iff _).mp hc
    have hfs : firstSeen (readKeys s.trace ++ [generateUniqueVolumeId d]) =
        firstSeen (readKeys s.trace) := by
      rw [firstSeen_append_one, if_pos ((mem_firstSeen _ _).mpr hin)]
    rw [hm, hv, hfs]
    refine ⟨?_, inv.value_eq, inv.next, inv.numbered⟩
    intro key
    rw [inv.contains_iff, List.mem_append, List.mem_singleton]
    constructor
    · exact Or.inl
    · rintro (h | rfl)
      · exact h
      · exact hin
  · rw [if_neg hc] at hmap
    have hm : (pass1Read n s priv d).volumeUniqueIdToVolumeNumber =
        QMap.insert (generateUniqueVolumeId d) s.volumeNumber s.volumeUniqueIdToVolumeNumber :=
      congrArg Prod.fst hmap
    have hv : (pass1Read n s priv d).volumeNumber = s.volumeNumber + 1 :=
      congrArg Prod.snd hmap
    have hnin : generateUniqueVolumeId d ∉ readKeys s.trace :=
      fun h => hc ((inv.contains_iff _).mpr h)
    have hnfs : generateUniqueVolumeId d ∉ firstSeen (readKeys s.trace) :=
      fun h => hnin ((mem_firstSeen _ _).mp h)
    have hfs : firstSeen (readKeys s.trace ++ [generateUniqueVolumeId d]) =
        firstSeen (readKeys s.trace) ++ [generateUniqueVolumeId d] := by
      rw [firstSeen_append_one, if_neg hnfs]
    rw [hm, hv, hfs]
    refine ⟨?_, ?_, ?_, ?_⟩
    · intro key
      rw [QMap.contains_insert, Bool.or_eq_true, inv.contains_iff, List.mem_append,
        List.mem_singleton, decide_eq_true_eq]
      constructor
      · rintro (h | h)
        · exact Or.inr h.symm
        · exact Or.inl h
      · rintro (h | h)
        · exact Or.inr h
        · exact Or.inl h.symm
    · intro k key hk
      rw [QMap.value_insert]
      rcases getElem?_append_one _ _ _ _ hk with h | ⟨hlen, hkey⟩
      · have hne : generateUniqueVolumeId d ≠ key := by
          rintro rfl
          exact hnfs (List.getElem?_mem h)
        rw [if_neg hne]
        exact inv.value_eq k key h
      · rw [if_pos hkey.symm, inv.next, hlen]
    · simp [inv.next]
    · intro e he hr k hk
      rcases getElem?_append_one _ _ _ _ hk with h | ⟨_, hkey⟩
      · exact inv.numbered e he hr k h
      · exact absurd (hkey ▸ mem_readKeys_of_mem _ e he hr) hnin


theorem pass1Read_rest (n : Nat) (s : Pass1State) (priv : ImporterState) (d : DtkData) :
    (pass1Read n s priv d).trace = s.trace ∧
    (pass1Read n s priv d).signals =
      s.signals ++ [.progressed ((s.currentFileNumber : ℚ) / (n : ℚ) * 50)] ∧
    (pass1Read n s priv d).imagesGroupedByVolume = s.imagesGroupedByVolume ∧
    (pass1Read n s priv d).currentFileNumber = s.currentFileNumber + 1 ∧
    (pass1Read n s priv d).priv = priv := by
  unfold pass1Read
  exact assignVolumeNumber_rest _ _

theorem mem_signals_step {l : List Signal} {a sg : Signal} (h : sg ∈ l ++ [a])
    (ha : (∃ v, a = Signal.progressed v) ∨ (∃ m, a = Signal.showError m)) :
    sg ∈ l ∨ (∃ v, sg = Signal.progressed v) ∨ (∃ m, sg = Signal.showError m) := by
  rcases List.mem_append.mp h with h | h
  · exact Or.inl h
  · rw [List.mem_singleton] at h
    rw [h]
    exact Or.inr ha

/-- What one turn of the first loop does to the state. -/
theorem pass1Step_spec (env : Env) (c : Catalog) (n : Nat) (file : String) (s : Pass1State) :
    ∃ e, (pass1Step env c n file s).trace = s.trace ++ [e] ∧ e.file = file ∧
      (pass1Step env c n file s).currentFileNumber = s.currentFileNumber + 1 ∧
      (∀ sg ∈ (pass1Step env c n file s).signals,
        sg ∈ s.signals ∨ (∃ v, sg = Signal.progressed v) ∨ (∃ m, sg = Signal.showError m)) ∧
      ((e.verdict = .unreadable ∧
          (pass1Step env c n file s).volumeUniqueIdToVolumeNumber =
            s.volumeUniqueIdToVolumeNumber ∧
          (pass1Step env c n file s).volumeNumber = s.volumeNumber ∧
          (pass1Step env c n file s).imagesGroupedByVolume = s.imagesGroupedByVolume) ∨
       (∃ d priv, e.verdict ≠ .unreadable ∧ e.data = some d ∧
          e.volumeId = generateUniqueVolumeId d ∧
          (pass1Step env c n file s).volumeUniqueIdToVolumeNumber =
            (pass1Read n s priv d).volumeUniqueIdToVolumeNumber ∧
          (pass1Step env c n file s).volumeNumber = (pass1Read n s priv d).volumeNumber ∧
          e.volumeNumber =
            (pass1Read n s priv d).volumeUniqueIdToVolumeNumber.value
              (generateUniqueVolumeId d) 0 ∧
          ((e.verdict = .unhandledType ∧
              (pass1Step env c n file s).imagesGroupedByVolume = s.imagesGroupedByVolume) ∨
           (e.verdict = .grouped ∧
              e.imageFileName = determineFutureImageFileName d e.volumeNumber ++
                determineFutureImageExtensionByDataType d ∧
              (pass1Step env c n file s).imagesGroupedByVolume =
                QMap.insert e.imageFileName
                  (s.imagesGroupedByVolume.value e.imageFileName [] ++ [file])
                  s.imagesGroupedByVolume ∧
              checkIfExists c d (fileName file) = false) ∨
           (e.verdict = .alreadyInDatabase ∧
              e.imageFileName = determineFutureImageFileName d e.volumeNumber ++
                determineFutureImageExtensionByDataType d ∧
              (pass1Step env c n file s).imagesGroupedByVolume = s.imagesGroupedByVolume ∧
              checkIfExists c d (fileName file) = true)))) := by
  rcases hread : tryReadImages env.readers s.priv [filePath file] true with ⟨_ | d0, priv⟩
  · rw [pass1Step_unreadable env c n file s priv hread]
    refine ⟨unreadableEntry file, rfl, rfl, rfl, ?_, Or.inl ⟨rfl, rfl, rfl, rfl⟩⟩
    intro sg hsg
    exact mem_signals_step hsg (Or.inl ⟨_, rfl⟩)
  · obtain ⟨ht, hs, hg, hn, -⟩ :=
      pass1Read_rest n s priv (populateMissingMetadata d0 (baseName file))
    have hsig : ∀ sg ∈ (pass1Read n s priv
        (populateMissingMetadata d0 (baseName file))).signals,
        sg ∈ s.signals ∨ (∃ v, sg = Signal.progressed v) ∨ (∃ m, sg = Signal.showError m) := by
      intro sg hsg
      rw [hs] at hsg
      exact mem_signals_step hsg (Or.inl ⟨_, rfl⟩)
    by_cases hx : (!env.indexWithoutImporting &&
        (determineFutureImageExtensionByDataType
          (populateMissingMetadata d0 (baseName file))).isEmpty) = true
    · rw [pass1Step_unhandled env c n file s priv d0 hread hx]
      refine ⟨readEntry file (populateMissingMetadata d0 (baseName file))
          (pass1Number n s priv (populateMissingMetadata d0 (baseName file)))
          (determineFutureImageFileName (populateMissingMetadata d0 (baseName file))
            (pass1Number n s priv (populateMissingMetadata d0 (baseName file))))
          .unhandledType, ?_, rfl, hn, ?_,
        Or.inr ⟨populateMissingMetadata d0 (baseName file), priv, ?_, rfl, rfl, rfl, rfl, rfl,
          Or.inl ⟨rfl, hg⟩⟩⟩
      · simp only [ht]
      · intro sg hsg
        rcases mem_signals_step hsg (Or.inr ⟨_, rfl⟩) with h | h
        · exact hsig sg h
        · exact Or.inr h
      · simp [readEntry]
    · have hx' : (!env.indexWithoutImporting &&
          (determineFutureImageExtensionByDataType
            (populateMissingMetadata d0 (baseName file))).isEmpty) = false := by
        simpa using hx
      by_cases he : checkIfExists c (populateMissingMetadata d0 (baseName file))
          (fileName file) = true
      · rw [pass1Step_existing env c n file s priv d0 hread hx' he]
        refine ⟨readEntry file (populateMissingMetadata d0 (baseName file))
            (pass1Number n s priv (populateMissingMetadata d0 (baseName file)))
            (pass1Name n s priv (populateMissingMetadata d0 (baseName file)))
            .alreadyInDatabase, ?_, rfl, hn, hsig,
          Or.inr ⟨populateMissingMetadata d0 (baseName file), priv, ?_, rfl, rfl, rfl, rfl,
            rfl, Or.inr (Or.inr ⟨rfl, rfl, hg, he⟩)⟩⟩
        · simp only [ht]
        · simp [readEntry]
      · have he' : checkIfExists c (populateMissingMetadata d0 (baseName file))
            (fileName file) = false := by simpa using he
        rw [pass1Step_grouped env c n file s priv d0 hread hx' he']
        refine ⟨readEntry file (populateMissingMetadata d0 (baseName file))
            (pass1Number n s priv (populateMissingMetadata d0 (baseName file)))
            (pass1Name n s priv (populateMissingMetadata d0 (baseName file)))
            .grouped, ?_, rfl, hn, hsig,
          Or.inr ⟨populateMissingMetadata d0 (baseName file), priv, ?_, rfl, rfl, rfl, rfl,
            rfl, Or.inr (Or.inl ⟨rfl, rfl, ?_, he'⟩)⟩⟩
        · simp only [ht]
        · simp [readEntry]
        · simp only [hg, readEntry]


theorem pass1Step_inv (env : Env) (c : Catalog) (n : Nat) (file : String) (s : Pass1State)
    (inv : Pass1Inv c s) : Pass1Inv c (pass1Step env c n file s) := by
  obtain ⟨e, htr, hfile, hcnt, hsig, hcase⟩ := pass1Step_spec env c n file s
  have hsignals : ∀ sg ∈ (pass1Step env c n file s).signals,
      (∃ v, sg = Signal.progressed v) ∨ (∃ m, sg = Signal.showError m) := by
    intro sg hsg
    rcases hsig sg hsg with h | h
    · exact inv.signals_ok sg h
    · exact h
  have hcount : (pass1Step env c n file s).trace.length =
      (pass1Step env c n file s).currentFileNumber := by
    rw [htr, hcnt, List.length_append, inv.count]; rfl
  rcases hcase with ⟨hv, hm, hvn, hg⟩ | ⟨d, priv, hv, hdata, hid, hm, hvn, hnum, hrest⟩
  · have hkeys : readKeys (s.trace ++ [e]) = readKeys s.trace := by
      rw [readKeys_append, if_pos hv]
    refine ⟨?_, ?_, ?_, ?_, ?_, ?_, ?_, ?_, hsignals, hcount⟩
    · intro key; rw [hm, htr, hkeys]; exact inv.contains_iff key
    · intro k key; rw [hm, htr, hkeys]; exact inv.value_eq k key
    · rw [hvn, htr, hkeys]; exact inv.next
    · intro e' he' hr k
      rw [htr, hkeys]
      rw [htr, List.mem_append, List.mem_singleton] at he'
      rcases he' with h | h
      · exact inv.numbered e' h hr k
      · exact absurd (h ▸ hv) hr
    · intro e' he' hgr
      rw [htr, List.mem_append, List.mem_singleton] at he'
      rw [hg]
      rcases he' with h | h
      · exact inv.grouped_mem e' h hgr
      · rw [h, hv] at hgr; exact FileVerdict.noConfusion hgr
    · intro e' he' hr
      rw [htr, List.mem_append, List.mem_singleton] at he'
      rcases he' with h | h
      · exact inv.named e' h hr
      · exact absurd (h ▸ hv) hr
    · intro e' he' d' hd'
      rw [htr, List.mem_append, List.mem_singleton] at he'
      rcases he' with h | h
      · exact inv.checked e' h d' hd'
      · rw [h, hv]
        exact ⟨fun x => FileVerdict.noConfusion x, fun x => FileVerdict.noConfusion x⟩
    · intro hall
      rw [hg]
      apply inv.groups_nil
      intro e' he'
      exact hall e' (by rw [htr]; exact List.mem_append_left _ he')
  · obtain ⟨hc', hval', hnext', hnumd'⟩ := pass1Read_numbers n s priv d c inv
    have hkeys : readKeys (s.trace ++ [e]) = readKeys s.trace ++ [generateUniqueVolumeId d] := by
      rw [readKeys_append, if_neg hv, hid]
    have hnew : ∀ k, (firstSeen (readKeys s.trace ++ [generateUniqueVolumeId d]))[k]? =
        some e.volumeId → e.volumeNumber = k + 1 := by
      intro k hk
      rw [hnum]
      rw [hid] at hk
      exact hval' k _ hk
    have hgroups_old : (∀ e' ∈ s.trace ++ [e], e'.verdict ≠ .grouped) →
        s.imagesGroupedByVolume = [] := by
      intro hall
      apply inv.groups_nil
      intro e' he'
      exact hall e' (List.mem_append_left _ he')
    refine ⟨?_, ?_, ?_, ?_, ?_, ?_, ?_, ?_, hsignals, hcount⟩
    · intro key; rw [hm, htr, hkeys]; exact hc' key
    · intro k key; rw [hm, htr, hkeys]; exact hval' k key
    · rw [hvn, htr, hkeys]; exact hnext'
    · intro e' he' hr k
      rw [htr, hkeys]
      rw [htr, List.mem_append, List.mem_singleton] at he'
      rcases he' with h | h
      · exact hnumd' e' h hr k
      · rw [h]; exact hnew k
    · intro e' he' hgr
      rw [htr, List.mem_append, List.mem_singleton] at he'
      rcases hrest with ⟨hu, hg⟩ | ⟨hgv, -, hg, -⟩ | ⟨ha, -, hg, -⟩
      · rw [hg]
        rcases he' with h | h
        · exact inv.grouped_mem e' h hgr
        · rw [h, hu] at hgr; exact FileVerdict.noConfusion hgr
      · rw [hg, QMap.value_insert]
        rcases he' with h | h
        · by_cases hname : e.imageFileName = e'.imageFileName
          · rw [if_pos hname, hname]
            exact List.mem_append_left _ (inv.grouped_mem e' h hgr)
          · rw [if_neg hname]
            exact inv.grouped_mem e' h hgr
        · rw [h, if_pos rfl]
          rw [hfile]
          exact List.mem_append_right _ (List.mem_singleton.mpr rfl)
      · rw [hg]
        rcases he' with h | h
        · exact inv.grouped_mem e' h hgr
        · rw [h, ha] at hgr; exact FileVerdict.noConfusion hgr
    · intro e' he' hr
      rw [htr, List.mem_append, List.mem_singleton] at he'
      rcases he' with h | h
      · exact inv.named e' h hr
      · rw [h]
        refine ⟨d, hdata, hid, ?_⟩
        intro hnu
        rcases hrest with ⟨hu, -⟩ | ⟨-, hname, -, -⟩ | ⟨-, hname, -, -⟩
        · exact absurd hu hnu
        · exact hname
        · exact hname
    · intro e' he' d' hd'
      rw [htr, List.mem_append, List.mem_singleton] at he'
      rcases he' with h | h
      · exact inv.checked e' h d' hd'
      · rw [h] at hd' ⊢
        have hdd : d = d' := by
          rw [hdata] at hd'
          exact Option.some.inj hd'
        subst hdd
        rw [hfile]
        rcases hrest with ⟨hu, -⟩ | ⟨hgv, -, -, hch⟩ | ⟨ha, -, -, hch⟩
        · rw [hu]
          exact ⟨fun x => FileVerdict.noConfusion x, fun x => FileVerdict.noConfusion x⟩
        · rw [hgv]
          exact ⟨fun x => FileVerdict.noConfusion x, fun _ => hch⟩
        · rw [ha]
          exact ⟨fun _ => hch, fun x => FileVerdict.noConfusion x⟩
    · intro hall
      rw [htr] at hall
      rcases hrest with ⟨-, hg⟩ | ⟨hgv, -, -, -⟩ | ⟨-, -, hg, -⟩
      · rw [hg]; exact hgroups_old hall
      · exact absurd hgv (hall e (List.mem_append_right _ (List.mem_singleton.mpr rfl)))
      · rw [hg]; exact hgroups_old hall

theorem pass1Inv_initial (c : Catalog) : Pass1Inv c Pass1State.initial := by
  refine ⟨?_, ?_, ?_, ?_, ?_, ?_, ?_, ?_, ?_, ?_⟩ <;>
    simp [Pass1State.initial, readKeys, firstSeen, QMap.contains]

theorem pass1_inv (env : Env) (c : Catalog) (n : Nat) (files : List String) :
    ∀ s, Pass1Inv c s → Pass1Inv c (pass1 env c n files s) := by
  induction files with
  | nil => intro s inv; exact inv
  | cons f fs ih =>
    intro s inv
    simp only [pass1]
    split
    · exact inv
    · exact ih _ (pass1Step_inv env c n f s inv)


/-! ### The run as a whole -/

theorem run_pass1 (env : Env) (c : Catalog) :
    (run env c).pass1 =
      (pass1 env c (getAllFilesToBeProcessed env env.file).length
        (getAllFilesToBeProcessed env env.file) Pass1State.initial).trace ∧
    (run env c).groups =
      (pass1 env c (getAllFilesToBeProcessed env env.file).length
        (getAllFilesToBeProcessed env env.file) Pass1State.initial).imagesGroupedByVolume := by
  unfold run
  simp only
  split
  · exact ⟨rfl, rfl⟩
  · split
    · exact ⟨rfl, rfl⟩
    · exact ⟨rfl, rfl⟩

theorem run_pass1_inv (env : Env) (c : Catalog) :
    Pass1Inv c (pass1 env c (getAllFilesToBeProcessed env env.file).length
      (getAllFilesToBeProcessed env env.file) Pass1State.initial) :=
  pass1_inv env c _ _ _ (pass1Inv_initial c)

/-- C3. Volume numbering: in every run, if `key` is the k-th distinct
volume id (counting from 0) in first-seen order among the files the first
loop could read, then every such file whose volume id is `key` is handed
the volume number k + 1, at its first occurrence and at every later one;
the volume id of a file is `generateUniqueVolumeId` of its normalized
header. -/
theorem volume_numbers_first_seen (env : Env) (c : Catalog) (k : Nat) (key : String)
    (e : Pass1Entry)
    (hk : (firstSeen (readKeys (run env c).pass1))[k]? = some key)
    (he : e ∈ (run env c).pass1) (hread : e.verdict ≠ .unreadable)
    (hid : e.volumeId = key) :
    e.volumeNumber = k + 1 ∧
      ∃ d, e.data = some d ∧ key = generateUniqueVolumeId d := by
  have inv := run_pass1_inv env c
  rw [(run_pass1 env c).1] at hk he
  refine ⟨inv.numbered e he hread k (hid ▸ hk), ?_⟩
  obtain ⟨d, hd, hvid, -⟩ := inv.named e he hread
  exact ⟨d, hd, hid ▸ hvid⟩

/-- C3 witness: three files whose volume ids are A, B, A; the second
distinct id is that of patient B, and the file `/d/2` that carries it is
given the volume number 2. -/
theorem volume_numbers_first_seen_witness :
    (firstSeen (readKeys (run envABA emptyCatalog).pass1))[1]? = some "B0" ∧
    (readEntry "/d/2" (populateMissingMetadata (sampleHeader "B" "T" "" "") "2") 2
        "/B/EmptyStudy/T2.mha" .grouped) ∈ (run envABA emptyCatalog).pass1 ∧
    ((readEntry "/d/2" (populateMissingMetadata (sampleHeader "B" "T" "" "") "2") 2
        "/B/EmptyStudy/T2.mha" .grouped).volumeNumber = 1 + 1 ∧
      ∃ d, (readEntry "/d/2" (populateMissingMetadata (sampleHeader "B" "T" "" "") "2") 2
        "/B/EmptyStudy/T2.mha" .grouped).data = some d ∧ "B0" = generateUniqueVolumeId d) :=
  ⟨by decide, by decide,
    volume_numbers_first_seen envABA emptyCatalog 1 "B0" _ (by decide) (by decide)
      (by decide) (by decide)⟩


theorem isCancelled_mono (env : Env) {t t' : Nat} (h : t ≤ t')
    (hc : env.isCancelled t = true) : env.isCancelled t' = true := by
  unfold Env.isCancelled at hc ⊢
  cases hk : env.cancelAt with
  | none => rw [hk] at hc; exact Bool.noConfusion hc
  | some k =>
    rw [hk] at hc
    simp only [decide_eq_true_eq] at hc ⊢
    omega

/-- The first loop either takes every file or stops at a moment when the
cancellation flag is set. -/
theorem pass1_count (env : Env) (c : Catalog) (n : Nat) (files : List String) :
    ∀ s, (pass1 env c n files s).currentFileNumber = s.currentFileNumber + files.length ∨
      env.isCancelled (pass1 env c n files s).currentFileNumber = true := by
  induction files with
  | nil => intro s; left; simp [pass1]
  | cons f fs ih =>
    intro s
    simp only [pass1]
    by_cases hc : env.isCancelled s.currentFileNumber = true
    · rw [if_pos hc]; exact Or.inr hc
    · rw [if_neg hc]
      rcases ih (pass1Step env c n f s) with h | h
      · left
        obtain ⟨e, -, -, hcnt, -⟩ := pass1Step_spec env c n f s
        rw [h, hcnt, List.length_cons]; omega
      · exact Or.inr h

/-- When the flag is not set before the loop has taken all its files, the
loop takes them all, in order. -/
theorem pass1_complete (env : Env) (c : Catalog) (n : Nat) (files : List String) :
    ∀ s, env.isCancelled (s.currentFileNumber + files.length) = false →
      (pass1 env c n files s).currentFileNumber = s.currentFileNumber + files.length ∧
      (pass1 env c n files s).trace.map (·.file) = s.trace.map (·.file) ++ files := by
  induction files with
  | nil => intro s _; simp [pass1]
  | cons f fs ih =>
    intro s hnc
    simp only [pass1]
    have hc : ¬ env.isCancelled s.currentFileNumber = true := by
      intro h
      have := isCancelled_mono env (Nat.le_add_right _ (f :: fs).length) h
      rw [hnc] at this
      exact Bool.noConfusion this
    rw [if_neg hc]
    obtain ⟨e, htr, hfile, hcnt, -⟩ := pass1Step_spec env c n f s
    have hnc' : env.isCancelled ((pass1Step env c n f s).currentFileNumber + fs.length)
        = false := by
      rw [hcnt]
      rw [List.length_cons] at hnc
      rw [← hnc]
      congr 1
      omega
    obtain ⟨h1, h2⟩ := ih (pass1Step env c n f s) hnc'
    refine ⟨?_, ?_⟩
    · rw [h1, hcnt, List.length_cons]; omega
    · rw [h2, htr, List.map_append, List.map_singleton, hfile, List.append_assoc]
      rfl

theorem not_success_of_pass1 {sg : Signal}
    (h : (∃ v, sg = Signal.progressed v) ∨ (∃ m, sg = Signal.showError m)) :
    sg ≠ .success ∧ sg ≠ .failure ∧ sg ≠ .cancelled := by
  rcases h with ⟨v, rfl⟩ | ⟨m, rfl⟩ <;>
    exact ⟨fun x => Signal.noConfusion x, fun x => Signal.noConfusion x,
      fun x => Signal.noConfusion x⟩

/-- C10. Cancellation in Pass 1: if the cancellation flag is set when `k`
files have been started, for any `k` from 0 (before the first file) up to
the number of candidate files (the last file boundary of Pass 1), the run
ends with the signal `cancelled`, emits neither `success` nor `failure`,
hands no group to Pass 2, and leaves the catalog exactly as it was. -/
theorem cancel_during_pass1 (env : Env) (c : Catalog) (k : Nat)
    (hk : env.cancelAt = some k)
    (hle : k ≤ (getAllFilesToBeProcessed env env.file).length) :
    (run env c).signals.getLast? = some .cancelled ∧
    Signal.success ∉ (run env c).signals ∧
    Signal.failure ∉ (run env c).signals ∧
    (run env c).pass2 = [] ∧
    (run env c).catalog = c := by
  have hcancel : env.isCancelled
      (pass1 env c (getAllFilesToBeProcessed env env.file).length
        (getAllFilesToBeProcessed env env.file) Pass1State.initial).currentFileNumber
      = true := by
    rcases pass1_count env c (getAllFilesToBeProcessed env env.file).length
      (getAllFilesToBeProcessed env env.file) Pass1State.initial with h | h
    · rw [h]
      unfold Env.isCancelled
      rw [hk]
      simp only [decide_eq_true_eq, Pass1State.initial]
      omega
    · exact h
  have inv := run_pass1_inv env c
  unfold run
  simp only [hcancel, if_true]
  refine ⟨by simp, ?_, ?_, by trivial, by trivial⟩
  · intro hmem
    simp only [List.mem_append, List.mem_cons, List.mem_singleton, List.not_mem_nil,
      or_false] at hmem
    rcases hmem with h | h | h
    · exact (not_success_of_pass1 (inv.signals_ok _ h)).1 rfl
    · exact Signal.noConfusion h
    · exact Signal.noConfusion h
  · intro hmem
    simp only [List.mem_append, List.mem_cons, List.mem_singleton, List.not_mem_nil,
      or_false] at hmem
    rcases hmem with h | h | h
    · exact (not_success_of_pass1 (inv.signals_ok _ h)).2.1 rfl
    · exact Signal.noConfusion h
    · exact Signal.noConfusion h

/-- C10 witness: ten candidate files, cancellation after the third. -/
theorem cancel_during_pass1_witness :
    envCancel3of10.cancelAt = some 3 ∧
    3 ≤ (getAllFilesToBeProcessed envCancel3of10 envCancel3of10.file).length ∧
    ((run envCancel3of10 emptyCatalog).signals.getLast? = some .cancelled ∧
      Signal.success ∉ (run envCancel3of10 emptyCatalog).signals ∧
      Signal.failure ∉ (run envCancel3of10 emptyCatalog).signals ∧
      (run envCancel3of10 emptyCatalog).pass2 = [] ∧
      (run envCancel3of10 emptyCatalog).catalog = emptyCatalog) :=
  ⟨rfl, by decide, cancel_during_pass1 envCancel3of10 emptyCatalog 3 rfl (by decide)⟩

/-- C9. Empty-result failure: in a run in which the cancellation flag is not
set by the end of Pass 1 and every file the first loop handled either could
not be read or has a normalized header that `checkIfExists` finds in the
initial catalog, the first loop has handled every candidate file, the run
ends with the signal `failure`, emits neither `success` nor `cancelled`, and
the catalog is exactly the initial catalog. -/
theorem empty_result_failure (env : Env) (c : Catalog)
    (hnc : env.isCancelled (getAllFilesToBeProcessed env env.file).length = false)
    (hall : ∀ e ∈ (run env c).pass1, unreadableOrCataloged c e = true) :
    (run env c).pass1.map (·.file) = getAllFilesToBeProcessed env env.file ∧
    (run env c).signals.getLast? = some .failure ∧
    Signal.success ∉ (run env c).signals ∧
    Signal.cancelled ∉ (run env c).signals ∧
    (run env c).catalog = c := by
  have inv := run_pass1_inv env c
  obtain ⟨hcnt, hfiles⟩ := pass1_complete env c (getAllFilesToBeProcessed env env.file).length
    (getAllFilesToBeProcessed env env.file) Pass1State.initial
    (by simpa [Pass1State.initial] using hnc)
  have hnc' : env.isCancelled
      (pass1 env c (getAllFilesToBeProcessed env env.file).length
        (getAllFilesToBeProcessed env env.file) Pass1State.initial).currentFileNumber
      = false := by
    rw [hcnt]
    simpa [Pass1State.initial] using hnc
  rw [(run_pass1 env c).1] at hall
  have hnil := inv.groups_nil (by
    intro e he hg
    have hr : e.verdict ≠ .unreadable := by
      rw [hg]; exact fun x => FileVerdict.noConfusion x
    obtain ⟨d, hd, -⟩ := inv.named e he hr
    have h := hall e he
    unfold unreadableOrCataloged at h
    rw [hd] at h
    simp only [(inv.checked e he d hd).2 hg] at h
    exact Bool.noConfusion h)
  refine ⟨by rw [(run_pass1 env c).1, hfiles]; simp [Pass1State.initial], ?_⟩
  unfold run
  simp only [hnc', hnil, List.isEmpty_nil, if_true, Bool.false_eq_true, if_false]
  refine ⟨by simp, ?_, ?_, by trivial⟩
  · intro hmem
    simp only [List.mem_append, List.mem_cons, List.mem_singleton, List.not_mem_nil,
      or_false] at hmem
    rcases hmem with h | h | h
    · exact (not_success_of_pass1 (inv.signals_ok _ h)).1 rfl
    · exact Signal.noConfusion h
    · exact Signal.noConfusion h
  · intro hmem
    simp only [List.mem_append, List.mem_cons, List.mem_singleton, List.not_mem_nil,
      or_false] at hmem
    rcases hmem with h | h | h
    · exact (not_success_of_pass1 (inv.signals_ok _ h)).2.2 rfl
    · exact Signal.noConfusion h
    · exact Signal.noConfusion h

/-- C9 witness: the directory of `envOneFile` is indexed a second time, on
the catalog its first indexing left; one file is in the database, the other
cannot be read. -/
theorem empty_result_failure_witness :
    envOneFile.isCancelled (getAllFilesToBeProcessed envOneFile envOneFile.file).length
      = false ∧
    (∀ e ∈ (run envOneFile (run envOneFile emptyCatalog).catalog).pass1,
      unreadableOrCataloged (run envOneFile emptyCatalog).catalog e = true) ∧
    ((run envOneFile (run envOneFile emptyCatalog).catalog).pass1.map (·.file) =
        getAllFilesToBeProcessed envOneFile envOneFile.file ∧
      (run envOneFile (run envOneFile emptyCatalog).catalog).signals.getLast?
        = some .failure ∧
      Signal.success ∉ (run envOneFile (run envOneFile emptyCatalog).catalog).signals ∧
      Signal.cancelled ∉ (run envOneFile (run envOneFile emptyCatalog).catalog).signals ∧
      (run envOneFile (run envOneFile emptyCatalog).catalog).catalog =
        (run envOneFile emptyCatalog).catalog) :=
  ⟨by decide, by decide,
    empty_result_failure envOneFile (run envOneFile emptyCatalog).catalog (by decide)
      (by decide)⟩


/-! ### Groups -/

theorem QMap.mem_value {β : Type} (m : QMap (List β)) (k : String) (x : β)
    (h : x ∈ QMap.value m k []) : ∃ g ∈ m, g.1 = k ∧ g.2 = QMap.value m k [] := by
  unfold QMap.value at h ⊢
  cases hf : m.find? (fun e => decide (e.1 = k)) with
  | none => rw [hf] at h; simp at h
  | some g =>
    refine ⟨g, List.mem_of_find?_eq_some hf, ?_, rfl⟩
    simpa using List.find?_some hf

theorem determineFutureImageFileName_congr (d₁ d₂ : DtkData) (n : Nat)
    (hp : cleanName (d₁.first .PatientName) = cleanName (d₂.first .PatientName))
    (hs : cleanName (d₁.first .StudyDescription) = cleanName (d₂.first .StudyDescription))
    (hse : cleanName (d₁.first .SeriesDescription) = cleanName (d₂.first .SeriesDescription)) :
    determineFutureImageFileName d₁ n = determineFutureImageFileName d₂ n := by
  simp only [determineFutureImageFileName, hp, hs, hse]

/-- C4 (amended). Same key, same group: two files that both survive the
filtering of Pass 1 and whose normalized headers have the same volume id,
the same patient name, study description and series description after the
clean-up of `determineFutureImageFileName`, and the same future extension,
are appended to the same entry of `imagesGroupedByVolume`, the one whose key
is their common output name. -/
theorem same_key_same_group (env : Env) (c : Catalog) (e₁ e₂ : Pass1Entry) (d₁ d₂ : DtkData)
    (h₁ : e₁ ∈ (run env c).pass1) (h₂ : e₂ ∈ (run env c).pass1)
    (hg₁ : e₁.verdict = .grouped) (hg₂ : e₂.verdict = .grouped)
    (hd₁ : e₁.data = some d₁) (hd₂ : e₂.data = some d₂)
    (hkey : generateUniqueVolumeId d₁ = generateUniqueVolumeId d₂)
    (hp : cleanName (d₁.first .PatientName) = cleanName (d₂.first .PatientName))
    (hs : cleanName (d₁.first .StudyDescription) = cleanName (d₂.first .StudyDescription))
    (hse : cleanName (d₁.first .SeriesDescription) = cleanName (d₂.first .SeriesDescription))
    (hext : determineFutureImageExtensionByDataType d₁ =
      determineFutureImageExtensionByDataType d₂) :
    ∃ g ∈ (run env c).groups, g.1 = e₁.imageFileName ∧ g.1 = e₂.imageFileName ∧
      e₁.file ∈ g.2 ∧ e₂.file ∈ g.2 := by
  have inv := run_pass1_inv env c
  rw [(run_pass1 env c).1] at h₁ h₂
  rw [(run_pass1 env c).2]
  have hr₁ : e₁.verdict ≠ .unreadable := by rw [hg₁]; exact fun x => FileVerdict.noConfusion x
  have hr₂ : e₂.verdict ≠ .unreadable := by rw [hg₂]; exact fun x => FileVerdict.noConfusion x
  have hu₁ : e₁.verdict ≠ .unhandledType := by
    rw [hg₁]; exact fun x => FileVerdict.noConfusion x
  have hu₂ : e₂.verdict ≠ .unhandledType := by
    rw [hg₂]; exact fun x => FileVerdict.noConfusion x
  obtain ⟨d₁', hd₁', hid₁, hname₁⟩ := inv.named e₁ h₁ hr₁
  obtain ⟨d₂', hd₂', hid₂, hname₂⟩ := inv.named e₂ h₂ hr₂
  have e1 : d₁' = d₁ := Option.some.inj (hd₁'.symm.trans hd₁)
  have e2 : d₂' = d₂ := Option.some.inj (hd₂'.symm.trans hd₂)
  subst e1 e2
  have hids : e₁.volumeId = e₂.volumeId := by rw [hid₁, hid₂, hkey]
  obtain ⟨k, hk⟩ := List.mem_iff_getElem?.mp
    ((mem_firstSeen _ _).mpr (mem_readKeys_of_mem _ e₁ h₁ hr₁))
  have hn₁ := inv.numbered e₁ h₁ hr₁ k hk
  have hn₂ := inv.numbered e₂ h₂ hr₂ k (hids ▸ hk)
  have hnames : e₁.imageFileName = e₂.imageFileName := by
    rw [hname₁ hu₁, hname₂ hu₂, hn₁, hn₂, hext,
      determineFutureImageFileName_congr d₁' d₂' (k + 1) hp hs hse]
  have hm₁ := inv.grouped_mem e₁ h₁ hg₁
  have hm₂ := inv.grouped_mem e₂ h₂ hg₂
  obtain ⟨g, hg, hgk, hgv⟩ := QMap.mem_value _ _ _ hm₁
  refine ⟨g, hg, hgk, hgk.trans hnames, ?_, ?_⟩
  · rw [hgv]; exact hm₁
  · rw [hgv, hnames]; exact hm₂

/-- C4 witness: in the run over `/d/1`, `/d/2`, `/d/3` with volume ids A, B,
A, the files `/d/1` and `/d/3` end in the same group. -/
theorem same_key_same_group_witness :
    ∃ g ∈ (run envABA emptyCatalog).groups,
      g.1 = (readEntry "/d/1" (populateMissingMetadata (sampleHeader "A" "T" "" "") "1") 1
        "/A/EmptyStudy/T1.mha" .grouped).imageFileName ∧
      g.1 = (readEntry "/d/3" (populateMissingMetadata (sampleHeader "A" "T" "" "") "3") 1
        "/A/EmptyStudy/T1.mha" .grouped).imageFileName ∧
      (readEntry "/d/1" (populateMissingMetadata (sampleHeader "A" "T" "" "") "1") 1
        "/A/EmptyStudy/T1.mha" .grouped).file ∈ g.2 ∧
      (readEntry "/d/3" (populateMissingMetadata (sampleHeader "A" "T" "" "") "3") 1
        "/A/EmptyStudy/T1.mha" .grouped).file ∈ g.2 :=
  same_key_same_group envABA emptyCatalog _ _ _ _ (by decide) (by decide) rfl rfl rfl rfl
    (by decide) (by decide) (by decide) (by decide) (by decide)

/-- C4 counterexample: two image files without metadata. Both survive
Pass 1 and their normalized headers have the same volume id, `John Doe0`,
but the series description defaults to the base name of each file, so the
output names differ and no group holds both paths. -/
theorem same_key_two_groups_counterexample :
    (readEntry "/d/a.mha" (populateMissingMetadata
        { description := "itkDataImageShort3", metaData := [], thumbnails := 0,
          zDimension := some 1 } "a") 1 "/John Doe/EmptyStudy/a1.mha" .grouped)
      ∈ (run envTwoBare emptyCatalog).pass1 ∧
    (readEntry "/d/b.mha" (populateMissingMetadata
        { description := "itkDataImageShort3", metaData := [], thumbnails := 0,
          zDimension := some 1 } "b") 1 "/John Doe/EmptyStudy/b1.mha" .grouped)
      ∈ (run envTwoBare emptyCatalog).pass1 ∧
    generateUniqueVolumeId (populateMissingMetadata
        { description := "itkDataImageShort3", metaData := [], thumbnails := 0,
          zDimension := some 1 } "a") =
      generateUniqueVolumeId (populateMissingMetadata
        { description := "itkDataImageShort3", metaData := [], thumbnails := 0,
          zDimension := some 1 } "b") ∧
    ¬ ∃ g ∈ (run envTwoBare emptyCatalog).groups, "/d/a.mha" ∈ g.2 ∧ "/d/b.mha" ∈ g.2 := by
  decide

/-- C5, the code at the failing input: eleven files, each a volume of its
own. The first (series description `s1`, volume number 1) and the eleventh
(series description `s`, volume number 11) have different volume ids and
the same output name `/P/EmptyStudy/s11.mha`, and both paths are stored
under that one key. -/
theorem groups_mix_volume_ids :
    ((run envEleven emptyCatalog).pass1.filter
        fun e => decide (e.imageFileName = "/P/EmptyStudy/s11.mha")).map
      (fun e => (e.file, e.volumeId, e.volumeNumber)) =
      [("/d/01", "P/d/010", 1), ("/d/11", "P/d/110", 11)] ∧
    QMap.value (run envEleven emptyCatalog).groups "/P/EmptyStudy/s11.mha" [] =
      ["/d/01", "/d/11"] := by
  decide


/-! ### VolumeIdentity -/

/-- C2, the code at the failing input. The records with the orientations
`1.00004 0 0 0 1 0` and `1.00006 0 0 0 1 0` agree on patient name, study id,
series id, series number, sequence name, slice thickness, rows and columns;
their orientations have six components each, and corresponding components
are numbers of the same sign, the same decimal exponent and the same first
five significant digits (`1.0000` for the first component), so they differ
only past the fifth significant digit. `generateUniqueVolumeId` returns
`A100010` for the first record and `A1.000100010` for the second:
`QString::number(x, 'g', 5)` rounds to the nearest number of five digits,
`1.00004` to `1` and `1.00006` to `1.0001`, where the comment in the source
says that the orientation is truncated to five digits. -/
theorem volumeId_splits_on_rounding :
    sameIdentityFields (recordWithOrientation "1.00004 0 0 0 1 0")
      (recordWithOrientation "1.00006 0 0 0 1 0") ∧
    splitOnBlank ((recordWithOrientation "1.00004 0 0 0 1 0").first .Orientation) =
      ["1.00004", "0", "0", "0", "1", "0"] ∧
    splitOnBlank ((recordWithOrientation "1.00006 0 0 0 1 0").first .Orientation) =
      ["1.00006", "0", "0", "0", "1", "0"] ∧
    (∀ p ∈ (splitOnBlank ((recordWithOrientation "1.00004 0 0 0 1 0").first .Orientation)).zip
        (splitOnBlank ((recordWithOrientation "1.00006 0 0 0 1 0").first .Orientation)),
      sameToFiveDigits p.1 p.2) ∧
    generateUniqueVolumeId (recordWithOrientation "1.00004 0 0 0 1 0") = "A100010" ∧
    generateUniqueVolumeId (recordWithOrientation "1.00006 0 0 0 1 0") = "A1.000100010" := by
  decide


/-! ### Metadata -/

theorem lookupMeta_storeMeta (k k' : MetaKey) (vs : List String) (m : MetaData) :
    lookupMeta k' (storeMeta k vs m) = if k = k' then some vs else lookupMeta k' m := by
  induction m with
  | nil => by_cases h : k = k' <;> simp [storeMeta, lookupMeta, h]
  | cons e rest ih =>
    obtain ⟨ke, ve⟩ := e
    by_cases hke : ke = k
    · subst hke
      by_cases h : ke = k' <;> simp [storeMeta, lookupMeta, h]
    · by_cases h : k = k'
      · subst h
        simp [storeMeta, lookupMeta, hke, ih]
      · by_cases hk' : ke = k'
        · subst hk'
          simp [storeMeta, lookupMeta, hke, h]
        · simp [storeMeta, lookupMeta, hke, h, hk', ih]

theorem first_addMetaData_ne (d : DtkData) (k k' : MetaKey) (vs : List String) (h : k ≠ k') :
    (d.addMetaData k vs).first k' = d.first k' := by
  simp [DtkData.first, DtkData.metaDataValues, DtkData.addMetaData, lookupMeta_storeMeta, h]

theorem metaDataValues_addMetaData_ne (d : DtkData) (k k' : MetaKey) (vs : List String)
    (h : k ≠ k') : (d.addMetaData k vs).metaDataValues k' = d.metaDataValues k' := by
  simp [DtkData.metaDataValues, DtkData.addMetaData, lookupMeta_storeMeta, h]

/-- The detector reads nothing of the reference thumbnail. -/
theorem detects_addThumbnail (c : Catalog) (d : DtkData) (vs : List String) :
    detects c (d.addMetaData .ThumbnailPath vs) = detects c d := by
  have hf : ∀ k, MetaKey.ThumbnailPath ≠ k →
      (d.addMetaData .ThumbnailPath vs).first k = d.first k :=
    fun k hk => first_addMetaData_ne d _ k vs hk
  have hv : (d.addMetaData .ThumbnailPath vs).metaDataValues .FilePaths =
      d.metaDataValues .FilePaths :=
    metaDataValues_addMetaData_ne d _ _ vs (by decide)
  unfold detects isPartialImportAttempt selectSeriesOf
  simp only [hf _ (by decide : MetaKey.ThumbnailPath ≠ .PatientName),
    hf _ (by decide : MetaKey.ThumbnailPath ≠ .StudyDescription),
    hf _ (by decide : MetaKey.ThumbnailPath ≠ .StudyID),
    hf _ (by decide : MetaKey.ThumbnailPath ≠ .SeriesDescription),
    hf _ (by decide : MetaKey.ThumbnailPath ≠ .SeriesID),
    hf _ (by decide : MetaKey.ThumbnailPath ≠ .Orientation),
    hf _ (by decide : MetaKey.ThumbnailPath ≠ .SeriesNumber),
    hf _ (by decide : MetaKey.ThumbnailPath ≠ .SequenceName),
    hf _ (by decide : MetaKey.ThumbnailPath ≠ .SliceThickness),
    hf _ (by decide : MetaKey.ThumbnailPath ≠ .Rows),
    hf _ (by decide : MetaKey.ThumbnailPath ≠ .Columns), hv]

/-- After `populateDatabaseAndGenerateThumbnails` the detector recognizes the
data object that was committed. -/
theorem detects_after_populate (env : Env) (c : Catalog) (storage : List StorageOp)
    (d : DtkData) (path : String) :
    c.Extends (populateDatabaseAndGenerateThumbnails env c storage d path).1 ∧
    detects (populateDatabaseAndGenerateThumbnails env c storage d path).1 d = true := by
  unfold populateDatabaseAndGenerateThumbnails generateThumbnails
  simp only
  refine ⟨populateDatabase_extends _ _ _ _, ?_⟩
  rw [← detects_addThumbnail _ d [path ++ "ref.png"]]
  unfold populateDatabase
  exact detects_mono (createMissingImages_extends _ _ _ _ _) _ (detects_after_chain _ _ _)

/-! ### The final loop -/

theorem getSuitableReader_info (readers : List Reader) (st : ImporterState)
    (files : List String) :
    (getSuitableReader readers st files).2.partialAttemptsInfo = st.partialAttemptsInfo := by
  unfold getSuitableReader
  split
  · rfl
  · split <;> rfl

theorem tryReadImages_info (readers : List Reader) (st : ImporterState)
    (files : List String) (b : Bool) :
    (tryReadImages readers st files b).2.partialAttemptsInfo = st.partialAttemptsInfo := by
  unfold tryReadImages
  have := getSuitableReader_info readers st files
  split <;> simp_all

theorem getSuitableWriter_info (writers : List Writer) (st : ImporterState)
    (file : String) (d : DtkData) :
    (getSuitableWriter writers st file d).2.partialAttemptsInfo = st.partialAttemptsInfo := by
  unfold getSuitableWriter
  split
  · rfl
  · split <;> rfl

theorem tryWriteImage_info (writers : List Writer) (st : ImporterState)
    (storage : List StorageOp) (file : String) (d : DtkData) :
    (tryWriteImage writers st storage file d).2.1.partialAttemptsInfo =
      st.partialAttemptsInfo := by
  unfold tryWriteImage
  have := getSuitableWriter_info writers st file d
  split <;> simp_all


theorem pass2Commit_turn (env : Env) (s : Pass2State) (priv : ImporterState)
    (storage : List StorageOp) (name : String) (files : List String) (d : DtkData)
    (hinfo : ∀ x ∈ s.priv.partialAttemptsInfo, x ∈ priv.partialAttemptsInfo)
    (hnd : detects s.catalog d = false) :
    Pass2Turn s (pass2Commit env s priv storage name files d)
      ⟨name, files, some d, .committed⟩ := by
  obtain ⟨hext, hdet⟩ := detects_after_populate env s.catalog storage d
    (dirPath name ++ "/" ++ completeBaseName name ++ "/")
  refine ⟨rfl, hext, hinfo, ?_, ?_, ?_, ?_⟩
  · intro h; exact Option.noConfusion h
  · intro d' hd' _
    have : d = d' := Option.some.inj hd'
    subst this
    exact hdet
  · intro d' hd' hdet'
    have : d = d' := Option.some.inj hd'
    subst this
    rw [hnd] at hdet'
    exact Bool.noConfusion hdet'
  · intro h; exact absurd rfl h

theorem pass2Skip_turn (s s' : Pass2State) (name : String) (files : List String)
    (d : DtkData) (v : GroupVerdict)
    (hv : v = .writeFailed ∨ v = .noDirectory)
    (htr : s'.trace = s.trace ++ [⟨name, files, some d, v⟩])
    (hcat : s'.catalog = s.catalog)
    (hinfo : ∀ x ∈ s.priv.partialAttemptsInfo, x ∈ s'.priv.partialAttemptsInfo)
    (hnd : detects s.catalog d = false) :
    Pass2Turn s s' ⟨name, files, some d, v⟩ := by
  refine ⟨htr, hcat ▸ Catalog.Extends.refl _, hinfo, ?_, ?_, ?_, fun _ => hcat⟩
  · intro h; exact Option.noConfusion h
  · intro d' _ hvd
    rcases hv with rfl | rfl <;> rcases hvd with h | h <;> exact GroupVerdict.noConfusion h
  · intro d' hd' hdet'
    have : d = d' := Option.some.inj hd'
    subst this
    rw [hnd] at hdet'
    exact Bool.noConfusion hdet'

theorem pass2Write_turn (env : Env) (s : Pass2State) (priv : ImporterState)
    (storage : List StorageOp) (target name : String) (files : List String) (d : DtkData)
    (hinfo : ∀ x ∈ s.priv.partialAttemptsInfo, x ∈ priv.partialAttemptsInfo)
    (hnd : detects s.catalog d = false) :
    ∃ e, Pass2Turn s (pass2Write env s priv storage target name files d) e := by
  have hi := tryWriteImage_info env.writers priv storage (filePath target) d
  unfold pass2Write
  rcases hw : tryWriteImage env.writers priv storage (filePath target) d with
    ⟨_ | _, priv', storage'⟩
  · simp only [hw] at hi
    exact ⟨_, pass2Skip_turn s _ name files d .writeFailed (Or.inl rfl) rfl rfl
      (fun x hx => by show x ∈ priv'.partialAttemptsInfo; rw [hi]; exact hinfo x hx) hnd⟩
  · simp only [hw] at hi
    exact ⟨_, pass2Commit_turn env s priv' storage' name files d
      (fun x hx => by rw [hi]; exact hinfo x hx) hnd⟩

theorem pass2Store_turn (env : Env) (s : Pass2State) (priv : ImporterState)
    (name : String) (files : List String) (d : DtkData)
    (hinfo : ∀ x ∈ s.priv.partialAttemptsInfo, x ∈ priv.partialAttemptsInfo)
    (hnd : detects s.catalog d = false) :
    ∃ e, Pass2Turn s (pass2Store env s priv name files d) e := by
  unfold pass2Store
  by_cases hix : env.indexWithoutImporting = true
  · simp only [hix, Bool.not_true, Bool.false_eq_true, if_false]
    exact ⟨_, pass2Commit_turn env s priv s.storage name files d hinfo hnd⟩
  · simp only [hix, Bool.not_false, if_true]
    split
    · exact pass2Write_turn env s priv _ _ name files d hinfo hnd
    · split
      · exact pass2Write_turn env s priv _ _ name files d hinfo hnd
      · exact ⟨_, pass2Skip_turn s _ name files d .noDirectory (Or.inr rfl) rfl rfl hinfo hnd⟩

theorem pass2Turn_of_progress (s s' : Pass2State) (e : Pass2Entry) (sg : List Signal)
    (i : Nat) (h : Pass2Turn { s with signals := sg, currentImageIndex := i } s' e) :
    Pass2Turn s s' e :=
  ⟨h.trace_eq, h.grows, h.info_grows, h.unread, h.settled, h.known, h.kept⟩

/-- Every turn of the final loop is a `Pass2Turn`. -/
theorem pass2Step_turn (env : Env) (n : Nat) (entry : String × List String) (s : Pass2State) :
    ∃ e, Pass2Turn s (pass2Step env n entry s) e := by
  unfold pass2Step
  simp only
  have hri := tryReadImages_info env.readers s.priv entry.2 false
  rcases hr : tryReadImages env.readers s.priv entry.2 false with ⟨_ | d0, priv⟩
  · simp only [hr] at hri
    refine ⟨⟨entry.1, entry.2, none, .unreadable⟩, rfl, Catalog.Extends.refl _, ?_, ?_, ?_, ?_, ?_⟩
    · intro x hx
      show x ∈ priv.partialAttemptsInfo
      rw [hri]; exact hx
    · intro _; rfl
    · intro d' hd'; exact Option.noConfusion hd'
    · intro d' hd'; exact Option.noConfusion hd'
    · intro _; rfl
  · simp only [hr] at hri
    simp only [isPartialImportAttempt_eq]
    by_cases hdet : detects s.catalog (aggregatedData d0 entry.1 entry.2) = true
    · simp only [hdet, if_true]
      refine ⟨⟨entry.1, entry.2, some (aggregatedData d0 entry.1 entry.2), .duplicate⟩, rfl,
        Catalog.Extends.refl _, ?_, ?_, ?_, ?_, ?_⟩
      · intro x hx
        simp only [List.mem_append, hri]
        exact Or.inl hx
      · intro h; exact Option.noConfusion h
      · intro d' hd' _
        have : aggregatedData d0 entry.1 entry.2 = d' := Option.some.inj hd'
        subst this
        exact hdet
      · intro d' hd' _
        have : aggregatedData d0 entry.1 entry.2 = d' := Option.some.inj hd'
        subst this
        exact ⟨rfl, by simp⟩
      · intro _; rfl
    · have hnd : detects s.catalog (aggregatedData d0 entry.1 entry.2) = false := by
        simpa using hdet
      simp only [hnd, Bool.false_eq_true, if_false]
      obtain ⟨e, he⟩ := pass2Store_turn env
        { s with
          signals := s.signals ++
            [.progressed ((s.currentImageIndex : ℚ) / (n : ℚ) * 50 + 50)]
          currentImageIndex := s.currentImageIndex + 1 }
        { priv with partialAttemptsInfo := priv.partialAttemptsInfo } entry.1 entry.2
        (aggregatedData d0 entry.1 entry.2)
        (fun x hx => by show x ∈ priv.partialAttemptsInfo; rw [hri]; exact hx) hnd
      exact ⟨e, pass2Turn_of_progress s _ e _ _ he⟩

theorem pass2Inv_step (c₀ : Catalog) (s s' : Pass2State) (e : Pass2Entry)
    (inv : Pass2Inv c₀ s) (turn : Pass2Turn s s' e) : Pass2Inv c₀ s' := by
  refine ⟨inv.grows.trans turn.grows, ?_, ?_, ?_, ?_⟩
  · intro e' he' hd
    rw [turn.trace_eq, List.mem_append, List.mem_singleton] at he'
    rcases he' with h | h
    · exact inv.unread e' h hd
    · rw [h] at hd ⊢; exact turn.unread hd
  · intro e' he' d hd hv
    rw [turn.trace_eq, List.mem_append, List.mem_singleton] at he'
    rcases he' with h | h
    · exact detects_mono turn.grows d (inv.settled e' h d hd hv)
    · rw [h] at hd hv; exact turn.settled d hd hv
  · intro e' he' d hd hdet
    rw [turn.trace_eq, List.mem_append, List.mem_singleton] at he'
    rcases he' with h | h
    · obtain ⟨h1, h2⟩ := inv.known e' h d hd hdet
      exact ⟨h1, turn.info_grows _ h2⟩
    · rw [h] at hd ⊢
      exact turn.known d hd (detects_mono inv.grows d hdet)
  · intro hall
    rw [turn.trace_eq] at hall
    rw [turn.kept (hall e (List.mem_append_right _ (List.mem_singleton.mpr rfl)))]
    exact inv.kept fun e' he' => hall e' (List.mem_append_left _ he')

theorem pass2_inv (env : Env) (n : Nat) (c₀ : Catalog) (entries : List (String × List String)) :
    ∀ s, Pass2Inv c₀ s → Pass2Inv c₀ (pass2 env n entries s) := by
  induction entries with
  | nil => intro s inv; exact inv
  | cons entry rest ih =>
    intro s inv
    simp only [pass2]
    obtain ⟨e, turn⟩ := pass2Step_turn env n entry s
    exact ih _ (pass2Inv_step c₀ s _ e inv turn)

theorem pass2Inv_start (c : Catalog) (priv : ImporterState) (sg : List Signal) :
    Pass2Inv c { priv := priv, catalog := c, storage := [], currentImageIndex := 0,
                 signals := sg, trace := [] } := by
  refine ⟨Catalog.Extends.refl c, ?_, ?_, ?_, fun _ => rfl⟩ <;> simp

/-- The record of the final loop, the catalog and the list of conflicts a
run leaves are those of a state that satisfies the invariant of the final
loop. -/
theorem run_pass2_inv (env : Env) (c : Catalog) :
    ∃ s, Pass2Inv c s ∧ (run env c).pass2 = s.trace ∧ (run env c).catalog = s.catalog ∧
      (run env c).priv = s.priv := by
  unfold run
  simp only
  split
  · exact ⟨_, pass2Inv_start c _ [], rfl, rfl, rfl⟩
  · split
    · exact ⟨_, pass2Inv_start c _ [], rfl, rfl, rfl⟩
    · exact ⟨_, pass2_inv env _ c _ _ (pass2Inv_start c _ _), rfl, rfl, rfl⟩


theorem lookupMeta_addIfMissing (d : DtkData) (k k' : MetaKey) (v : String) :
    lookupMeta k' (addIfMissing d k v).metaData =
      if k = k' then (lookupMeta k' d.metaData).or (some [v])
      else lookupMeta k' d.metaData := by
  unfold addIfMissing DtkData.hasMetaData
  by_cases hk : k = k'
  · subst hk
    cases h : lookupMeta k d.metaData with
    | none => simp [h, DtkData.addMetaData, DtkData.metaDataValues, lookupMeta_storeMeta]
    | some vs => simp [h]
  · cases h : lookupMeta k d.metaData with
    | none => simp [hk, DtkData.addMetaData, lookupMeta_storeMeta]
    | some vs => simp [hk]

theorem lookupMeta_foldl_addIfMissing (ks : List MetaKey) (k' : MetaKey) :
    ∀ d : DtkData, lookupMeta k' (ks.foldl (fun d k => addIfMissing d k "") d).metaData =
      if k' ∈ ks then (lookupMeta k' d.metaData).or (some [""])
      else lookupMeta k' d.metaData := by
  induction ks with
  | nil => intro d; simp
  | cons k ks ih =>
    intro d
    rw [List.foldl_cons, ih, lookupMeta_addIfMissing]
    by_cases hk : k = k'
    · subst hk
      cases lookupMeta k d.metaData <;> simp
    · have hk' : ¬ k' = k := fun h => hk h.symm
      simp [hk, hk']

/-- What `populateMissingMetadata` leaves under each key: the values that
were there, or the default of the key where there were none. -/
theorem lookupMeta_populate (d : DtkData) (label : String) (k : MetaKey) :
    lookupMeta k (populateMissingMetadata d label).metaData =
      (lookupMeta k d.metaData).or ((defaultValue label k).map fun v => [v]) := by
  unfold populateMissingMetadata
  simp only [lookupMeta_foldl_addIfMissing, lookupMeta_addIfMissing]
  cases k <;> generalize lookupMeta _ d.metaData = o <;> cases o <;>
    simp [emptyDefaultKeys, defaultValue]

theorem metaDataValues_populate_absent (d : DtkData) (label : String) (k : MetaKey)
    (v : String) (h : d.hasMetaData k = false) (hv : defaultValue label k = some v) :
    (populateMissingMetadata d label).metaDataValues k = [v] := by
  unfold DtkData.hasMetaData at h
  unfold DtkData.metaDataValues
  rw [lookupMeta_populate, hv]
  cases ho : lookupMeta k d.metaData with
  | none => rfl
  | some vs => rw [ho] at h; exact Bool.noConfusion h

theorem addIfMissing_of_has (d : DtkData) (k : MetaKey) (v : String)
    (h : d.hasMetaData k = true) : addIfMissing d k v = d := by
  simp [addIfMissing, h]

theorem foldl_addIfMissing_of_has (ks : List MetaKey) (d : DtkData)
    (h : ∀ k ∈ ks, d.hasMetaData k = true) :
    ks.foldl (fun d k => addIfMissing d k "") d = d := by
  induction ks with
  | nil => rfl
  | cons k ks ih =>
    rw [List.foldl_cons, addIfMissing_of_has d k "" (h k (List.mem_cons_self _ _))]
    exact ih fun k' hk' => h k' (List.mem_cons_of_mem _ hk')

theorem hasMetaData_populate (d : DtkData) (label : String) (k : MetaKey)
    (hk : (defaultValue label k).isSome = true) :
    (populateMissingMetadata d label).hasMetaData k = true := by
  unfold DtkData.hasMetaData
  rw [lookupMeta_populate]
  cases lookupMeta k d.metaData <;> cases h : defaultValue label k <;> simp_all

theorem populate_of_has (d : DtkData) (label : String)
    (h : ∀ k, (defaultValue label k).isSome = true → d.hasMetaData k = true) :
    populateMissingMetadata d label = d := by
  unfold populateMissingMetadata
  simp only
  rw [addIfMissing_of_has d .PatientName _ (h _ rfl),
    addIfMissing_of_has d .StudyDescription _ (h _ rfl),
    addIfMissing_of_has d .SeriesDescription _ (h _ rfl)]
  refine foldl_addIfMissing_of_has _ d fun k hk => h k ?_
  cases k <;> first | rfl | (simp [emptyDefaultKeys] at hk)

/-- C17 (amended). Patient-name default: for every record that has no
patient name, after `populateMissingMetadata` the patient name of the record
is the fixed placeholder `John Doe`, whatever the label passed in. -/
theorem default_patient_name (d : DtkData) (label : String)
    (h : d.hasMetaData .PatientName = false) :
    (populateMissingMetadata d label).metaDataValues .PatientName = ["John Doe"] ∧
    (populateMissingMetadata d label).first .PatientName = "John Doe" := by
  have hv := metaDataValues_populate_absent d label .PatientName "John Doe" h rfl
  exact ⟨hv, by simp [DtkData.first, hv]⟩

/-- C17 witness: the record without metadata, with the label `series`. -/
theorem default_patient_name_witness :
    recordNoMetadata.hasMetaData .PatientName = false ∧
    (populateMissingMetadata recordNoMetadata "series").metaDataValues .PatientName =
      ["John Doe"] ∧
    (populateMissingMetadata recordNoMetadata "series").first .PatientName = "John Doe" :=
  ⟨by decide, default_patient_name recordNoMetadata "series" (by decide)⟩

/-- C17 counterexample: the record without metadata has no patient name, and
after `populateMissingMetadata` its patient name is not `unknown patient`. -/
theorem default_patient_name_counterexample :
    recordNoMetadata.hasMetaData .PatientName = false ∧
    (populateMissingMetadata recordNoMetadata "series").first .PatientName ≠
      "unknown patient" := by
  decide

/-- C18 (amended). Defaults of the other fields: for every record and every
key of the normalizer that is absent from it, after `populateMissingMetadata`
the value is the empty string when the key is one of study id, series id,
orientation, series number, sequence name, slice thickness, rows, columns,
age, birth date, gender, description, modality, protocol, comments, status,
acquisition date, importation date, referee, performer, institution and
report; it is the label passed in for series description; and it is
`EmptyStudy` for study description. -/
theorem default_other_fields (d : DtkData) (label : String) (k : MetaKey)
    (h : d.hasMetaData k = false) :
    (k ∈ emptyDefaultKeys → (populateMissingMetadata d label).metaDataValues k = [""]) ∧
    (k = .SeriesDescription →
      (populateMissingMetadata d label).metaDataValues k = [label]) ∧
    (k = .StudyDescription →
      (populateMissingMetadata d label).metaDataValues k = ["EmptyStudy"]) := by
  refine ⟨fun hk => ?_, fun hk => ?_, fun hk => ?_⟩
  · refine metaDataValues_populate_absent d label k "" h ?_
    cases k <;> first | rfl | (simp [emptyDefaultKeys] at hk)
  · subst hk; exact metaDataValues_populate_absent d label _ label h rfl
  · subst hk; exact metaDataValues_populate_absent d label _ "EmptyStudy" h rfl

/-- C18 witness: the record without metadata and the key of the study id. -/
theorem default_other_fields_witness :
    recordNoMetadata.hasMetaData .StudyID = false ∧
    (MetaKey.StudyID ∈ emptyDefaultKeys ∧
      (populateMissingMetadata recordNoMetadata "series").metaDataValues .StudyID = [""]) ∧
    (populateMissingMetadata recordNoMetadata "series").metaDataValues .SeriesDescription =
      ["series"] :=
  ⟨by decide,
   ⟨by decide, (default_other_fields recordNoMetadata "series" .StudyID (by decide)).1
      (by decide)⟩,
   by decide⟩

/-- C18 counterexample: the record without metadata has no study
description, and after `populateMissingMetadata` its study description is
`EmptyStudy`, not the empty string. -/
theorem default_study_description_counterexample :
    recordNoMetadata.hasMetaData .StudyDescription = false ∧
    (populateMissingMetadata recordNoMetadata "series").metaDataValues .StudyDescription =
      ["EmptyStudy"] ∧
    (populateMissingMetadata recordNoMetadata "series").first .StudyDescription ≠ "" := by
  decide

/-- C19. Normalization preserves and is idempotent: for every record `r`
and labels `l`, `l'`, `populateMissingMetadata` leaves the values of every
key present in `r` as they are, and normalizing a normalized record changes
nothing: `normalize (normalize r l) l' = normalize r l`. -/
theorem normalize_preserves_idempotent (r : DtkData) (l l' : String) :
    (∀ k, r.hasMetaData k = true →
      (populateMissingMetadata r l).metaDataValues k = r.metaDataValues k) ∧
    populateMissingMetadata (populateMissingMetadata r l) l' = populateMissingMetadata r l := by
  constructor
  · intro k hk
    unfold DtkData.hasMetaData at hk
    unfold DtkData.metaDataValues
    rw [lookupMeta_populate]
    cases ho : lookupMeta k r.metaData with
    | none => rw [ho] at hk; exact Bool.noConfusion hk
    | some vs => rfl
  · refine populate_of_has _ l' fun k hk => hasMetaData_populate r l k ?_
    cases k <;> first | rfl | exact hk

/-! ### FormatResolver -/

/-- C20. Sticky reader first: for every registry and path list, if a reader
`r` of the registry carries the description cached as last successful and
reports that it can read the paths, `getSuitableReader` returns a reader of
that description that can read the paths (`r` itself when no other reader
of the registry has its description), whatever the readers registered
before it can read, and the cached description stays as it was. -/
theorem sticky_reader_first (readers : List Reader) (st : ImporterState)
    (paths : List String) (r : Reader) (hr : r ∈ readers)
    (hd : st.lastSuccessfulReaderDescription = r.description)
    (hc : r.canRead paths = true) :
    ∃ r', getSuitableReader readers st paths = (some r', st) ∧ r' ∈ readers ∧
      r'.description = st.lastSuccessfulReaderDescription ∧ r'.canRead paths = true ∧
      ((∀ a ∈ readers, a.description = r.description → a = r) → r' = r) := by
  obtain ⟨r', h⟩ := find?_isSome_of_mem
    (fun a => decide (st.lastSuccessfulReaderDescription = a.description) && a.canRead paths)
    readers r hr (by simp [hd, hc])
  have hp := List.find?_some h
  have hm := List.mem_of_find?_eq_some h
  simp only [Bool.and_eq_true, decide_eq_true_eq] at hp
  refine ⟨r', ?_, hm, hp.1.symm, hp.2, fun hu => hu r' hm (hp.1.symm.trans hd)⟩
  unfold getSuitableReader
  simp only [h]

/-- C20 witness: the readers `a` and `b` are registered in this order and
both can read the path; `b` is the cached one and is returned. -/
theorem sticky_reader_first_witness :
    (∃ r', getSuitableReader [namedReader "a", namedReader "b"]
        { ImporterState.initial with lastSuccessfulReaderDescription := "b" } ["/d/1"] =
          (some r', { ImporterState.initial with lastSuccessfulReaderDescription := "b" }) ∧
      r' ∈ [namedReader "a", namedReader "b"] ∧
      r'.description = "b" ∧ r'.canRead ["/d/1"] = true ∧
      ((∀ a ∈ [namedReader "a", namedReader "b"],
        a.description = (namedReader "b").description → a = namedReader "b") →
        r' = namedReader "b")) ∧
    (namedReader "a").canRead ["/d/1"] = true :=
  ⟨sticky_reader_first [namedReader "a", namedReader "b"]
      { ImporterState.initial with lastSuccessfulReaderDescription := "b" } ["/d/1"]
      (namedReader "b") (List.mem_cons_of_mem _ (List.mem_cons_self _ _)) rfl rfl,
   rfl⟩

/-! ### Image rows -/

theorem digitChar_value (k : Nat) (h : k < 10) : (Nat.digitChar k).toNat - 48 = k := by
  interval_cases k <;> rfl

theorem digitsValue_append_one (xs : List Char) (c : Char) :
    digitsValue (xs ++ [c]) = 10 * digitsValue xs + (c.toNat - 48) := by
  simp [digitsValue, List.foldl_append]

theorem toDigitsCore_value (fuel : Nat) : ∀ (n : Nat) (ds : List Char), n < fuel →
    ∃ xs, Nat.toDigitsCore 10 fuel n ds = xs ++ ds ∧ digitsValue xs = n := by
  induction fuel with
  | zero => intro n ds h; omega
  | succ fuel ih =>
    intro n ds h
    simp only [Nat.toDigitsCore]
    split
    · rename_i h0
      refine ⟨[Nat.digitChar (n % 10)], rfl, ?_⟩
      simp only [digitsValue, List.foldl_cons, List.foldl_nil,
        digitChar_value _ (Nat.mod_lt n (by decide))]
      omega
    · rename_i h0
      obtain ⟨xs, hx, hv⟩ := ih (n / 10) (Nat.digitChar (n % 10) :: ds) (by omega)
      refine ⟨xs ++ [Nat.digitChar (n % 10)], by rw [hx]; simp, ?_⟩
      rw [digitsValue_append_one, hv, digitChar_value _ (Nat.mod_lt n (by decide))]
      omega

/-- The decimal text of a number determines the number. -/
theorem setNum_injective : Function.Injective setNum := by
  intro a b h
  have hd : Nat.toDigits 10 a = Nat.toDigits 10 b := by
    have := congrArg String.data h
    simpa [setNum, Nat.repr, List.asString] using this
  obtain ⟨xa, ha, hva⟩ := toDigitsCore_value (a + 1) a [] (by omega)
  obtain ⟨xb, hb, hvb⟩ := toDigitsCore_value (b + 1) b [] (by omega)
  unfold Nat.toDigits at hd
  rw [ha, hb] at hd
  simp only [List.append_nil] at hd
  subst hd
  omega

theorem append_setNum_injective (s : String) : Function.Injective fun i => s ++ setNum i := by
  intro a b h
  apply setNum_injective
  have := congrArg String.data h
  simp only [String.data_append] at this
  exact String.ext (List.append_cancel_left this)

theorem selectImage_none_of_fresh (c : Catalog) (seriesId : Nat) (name : String)
    (h : ∀ r ∈ c.image, r.series = seriesId → r.name ≠ name) :
    selectImage c seriesId name = none := by
  unfold selectImage
  rw [List.find?_eq_none]
  intro r hr
  simp only [decide_eq_true_eq, not_and]
  exact h r hr

theorem insertImageIfMissing_new (ix : Bool) (d : DtkData) (seriesId : Nat)
    (name path thumbnail : String) (c : Catalog) (h : selectImage c seriesId name = none) :
    insertImageIfMissing ix d seriesId name path thumbnail c =
      { c with image := c.image ++
        [{ id := nextId (c.image.map (·.id)), series := seriesId, name := name,
           path := path, instance_path := if ix then "" else d.first .FileName,
           thumbnail := thumbnail, isIndexed := ix }] } := by
  unfold insertImageIfMissing
  simp only [h]

theorem insertImageIfMissing_found (ix : Bool) (d : DtkData) (seriesId : Nat)
    (name path thumbnail : String) (c : Catalog) (r : ImageRow)
    (h : selectImage c seriesId name = some r) :
    insertImageIfMissing ix d seriesId name path thumbnail c = c := by
  unfold insertImageIfMissing
  simp only [h]

/-- Requests of pairwise distinct names, none of them the name of a row of
the series: each request inserts its row. -/
theorem insertImages_fresh (ix : Bool) (d : DtkData) (seriesId : Nat)
    (qs : List (String × String × String)) :
    ∀ c : Catalog, (qs.map (·.1)).Nodup →
      (∀ r ∈ c.image, r.series = seriesId → r.name ∉ qs.map (·.1)) →
      ∃ rows : List ImageRow,
        insertImages ix d seriesId qs c = { c with image := c.image ++ rows } ∧
        rows.map ImageRow.shown = qs.map fun q => (seriesId, q.1, q.2.1, q.2.2) := by
  induction qs with
  | nil => intro c _ _; exact ⟨[], by simp [insertImages], rfl⟩
  | cons q qs ih =>
    intro c hnd hfresh
    rw [List.map_cons, List.nodup_cons] at hnd
    have hsel : selectImage c seriesId q.1 = none :=
      selectImage_none_of_fresh c seriesId q.1 fun r hr hs hn =>
        hfresh r hr hs (by rw [hn]; exact List.mem_cons_self _ _)
    simp only [insertImages]
    obtain ⟨row, hrow, hname, hshow⟩ : ∃ row : ImageRow,
        insertImageIfMissing ix d seriesId q.1 q.2.1 q.2.2 c =
          { c with image := c.image ++ [row] } ∧ row.name = q.1 ∧
        row.shown = (seriesId, q.1, q.2.1, q.2.2) :=
      ⟨_, insertImageIfMissing_new ix d seriesId q.1 q.2.1 q.2.2 c hsel, rfl, rfl⟩
    rw [hrow]
    obtain ⟨rows, hrows, hshown⟩ := ih { c with image := c.image ++ [row] } hnd.2 (by
      intro r hr hs
      rcases List.mem_append.mp hr with hr | hr
      · exact fun hm => hfresh r hr hs (List.mem_cons_of_mem _ hm)
      · rw [List.mem_singleton.mp hr, hname]; exact hnd.1)
    refine ⟨row :: rows, ?_, ?_⟩
    · rw [hrows]; simp
    · simp [hshown, hshow]

theorem createImagesPerThumbnail_eq (ix : Bool) (d : DtkData) (seriesId : Nat)
    (file : String) (thumbs : List String) :
    ∀ (i : Nat) (c : Catalog),
      createImagesPerThumbnail ix d seriesId file i thumbs c =
        insertImages ix d seriesId (perThumbnailRequests file i thumbs) c := by
  induction thumbs with
  | nil => intro i c; rfl
  | cons t ts ih =>
    intro i c
    simp only [createImagesPerThumbnail, perThumbnailRequests, insertImages]
    exact ih _ _

theorem createImagesPerFile_eq (ix : Bool) (d : DtkData) (seriesId : Nat)
    (thumbPaths : List String) (files : List String) :
    ∀ (i : Nat) (c : Catalog),
      createImagesPerFile ix d seriesId thumbPaths i files c =
        insertImages ix d seriesId (perFileRequests thumbPaths i files) c := by
  induction files with
  | nil => intro i c; rfl
  | cons f fs ih =>
    intro i c
    simp only [createImagesPerFile, perFileRequests, insertImages]
    exact ih _ _

theorem perThumbnailRequests_eq (file : String) (thumbs : List String) :
    ∀ i : Nat, perThumbnailRequests file i thumbs =
      (List.range thumbs.length).map fun j =>
        (fileName file ++ setNum (i + j), filePath file, thumbs.getD j "") := by
  induction thumbs with
  | nil => intro i; rfl
  | cons t ts ih =>
    intro i
    simp only [perThumbnailRequests, List.length_cons, List.range_succ_eq_map, List.map_cons,
      List.map_map, ih]
    refine congrArg₂ _ (by simp) (List.map_congr_left fun j _ => ?_)
    simp [Nat.add_assoc, Nat.add_comm 1 j]

theorem perFileRequests_eq (thumbPaths : List String) (files : List String) :
    ∀ i : Nat, perFileRequests thumbPaths i files =
      (List.range files.length).map fun j =>
        (fileName (files.getD j ""), filePath (files.getD j ""),
          if i + j < thumbPaths.length then thumbPaths.getD (i + j) "" else "") := by
  induction files with
  | nil => intro i; rfl
  | cons f fs ih =>
    intro i
    simp only [perFileRequests, List.length_cons, List.range_succ_eq_map, List.map_cons,
      List.map_map, ih]
    refine congrArg₂ _ (by simp) (List.map_congr_left fun j _ => ?_)
    simp [Nat.add_assoc, Nat.add_comm 1 j]

theorem perFileRequests_names (thumbPaths : List String) (files : List String) :
    ∀ i : Nat, (perFileRequests thumbPaths i files).map (·.1) = files.map fileName := by
  induction files with
  | nil => intro i; rfl
  | cons f fs ih => intro i; simp only [perFileRequests, List.map_cons, ih]

theorem perThumbnailRequests_names_nodup (file : String) (thumbs : List String) (i : Nat) :
    ((perThumbnailRequests file i thumbs).map (·.1)).Nodup := by
  rw [perThumbnailRequests_eq, List.map_map]
  refine List.Nodup.map ?_ (List.nodup_range _)
  intro a b h
  have := append_setNum_injective (fileName file) h
  omega

theorem insertedImages_of_eq (c c' : Catalog) (rows : List ImageRow)
    (h : c' = { c with image := c.image ++ rows }) : insertedImages c c' = rows := by
  subst h
  simp [insertedImages]

theorem createMissingImages_fresh (ix : Bool) (c : Catalog) (d : DtkData) (seriesId : Nat)
    (thumbPaths files : List String) (hf : d.metaDataValues .FilePaths = files)
    (hfresh : ∀ r ∈ c.image, r.series ≠ seriesId) :
    (files.length = 1 → 1 < thumbPaths.length →
      ∃ rows : List ImageRow,
        createMissingImages ix c d seriesId thumbPaths = { c with image := c.image ++ rows } ∧
        rows.map ImageRow.shown = (List.range thumbPaths.length).map fun i =>
          (seriesId, fileName (files.headD "") ++ setNum i, files.headD "",
            thumbPaths.getD i "")) ∧
    (¬ (files.length = 1 ∧ 1 < thumbPaths.length) → (files.map fileName).Nodup →
      ∃ rows : List ImageRow,
        createMissingImages ix c d seriesId thumbPaths = { c with image := c.image ++ rows } ∧
        rows.map ImageRow.shown = (List.range files.length).map fun i =>
          (seriesId, fileName (files.getD i ""), files.getD i "",
            if i < thumbPaths.length then thumbPaths.getD i "" else "")) := by
  have hnone : ∀ qs : List (String × String × String),
      ∀ r ∈ c.image, r.series = seriesId → r.name ∉ qs.map (·.1) :=
    fun _ r hr hs => absurd hs (hfresh r hr)
  constructor
  · intro h1 ht
    obtain ⟨rows, hrows, hshown⟩ := insertImages_fresh ix d seriesId
      (perThumbnailRequests (files.headD "") 0 thumbPaths) c
      (perThumbnailRequests_names_nodup _ _ _) (hnone _)
    refine ⟨rows, ?_, ?_⟩
    · unfold createMissingImages
      simp only [hf, h1, ht, gt_iff_lt, and_self, if_true]
      rw [createImagesPerThumbnail_eq, hrows]
    · rw [hshown, perThumbnailRequests_eq, List.map_map]
      refine List.map_congr_left fun j _ => ?_
      simp [filePath]
  · intro hcase hnd
    obtain ⟨rows, hrows, hshown⟩ := insertImages_fresh ix d seriesId
      (perFileRequests thumbPaths 0 files) c
      (by rw [perFileRequests_names]; exact hnd) (hnone _)
    refine ⟨rows, ?_, ?_⟩
    · unfold createMissingImages
      simp only [hf, gt_iff_lt, hcase, if_false]
      rw [createImagesPerFile_eq, hrows]
    · rw [hshown, perFileRequests_eq, List.map_map]
      refine List.map_congr_left fun j _ => ?_
      simp [filePath]

/-- C15. Image rows and thumbnails, for a series that has no image row yet
and a record whose source files are `files` and which carries the name of
the aggregated file (`FileName`, which the source reads for every row it
inserts). With exactly one source file
and more than one thumbnail path, `createMissingImages` inserts one row per
thumbnail path, row `i` named after the file (its name without the
directory, `QFileInfo::fileName`) followed by `i`, with thumbnail path `i`.
Otherwise, the names of the source files being pairwise distinct, it
inserts one row per source file, row `i` with thumbnail path `i` when there
is one and with the empty string when there is none. -/
theorem createMissingImages_rows (ix : Bool) (c : Catalog) (d : DtkData) (seriesId : Nat)
    (thumbPaths files : List String) (hf : d.metaDataValues .FilePaths = files)
    (_ : d.metaDataValues .FileName ≠ [])
    (hfresh : ∀ r ∈ c.image, r.series ≠ seriesId) :
    (createMissingImages ix c d seriesId thumbPaths).image =
      c.image ++ insertedImages c (createMissingImages ix c d seriesId thumbPaths) ∧
    (files.length = 1 → 1 < thumbPaths.length →
      (insertedImages c (createMissingImages ix c d seriesId thumbPaths)).map ImageRow.shown =
        (List.range thumbPaths.length).map fun i =>
          (seriesId, fileName (files.headD "") ++ setNum i, files.headD "",
            thumbPaths.getD i "")) ∧
    (¬ (files.length = 1 ∧ 1 < thumbPaths.length) → (files.map fileName).Nodup →
      (insertedImages c (createMissingImages ix c d seriesId thumbPaths)).map ImageRow.shown =
        (List.range files.length).map fun i =>
          (seriesId, fileName (files.getD i ""), files.getD i "",
            if i < thumbPaths.length then thumbPaths.getD i "" else "")) := by
  obtain ⟨hA, hB⟩ := createMissingImages_fresh ix c d seriesId thumbPaths files hf hfresh
  refine ⟨?_, ?_, ?_⟩
  · unfold insertedImages
    obtain ⟨t, ht⟩ := (createMissingImages_extends ix c d seriesId thumbPaths).2.2.2
    rw [← ht]; simp
  · intro h1 ht
    obtain ⟨rows, hrows, hshown⟩ := hA h1 ht
    rw [insertedImages_of_eq c _ rows hrows]; exact hshown
  · intro hcase hnd
    obtain ⟨rows, hrows, hshown⟩ := hB hcase hnd
    rw [insertedImages_of_eq c _ rows hrows]; exact hshown

/-- C15 witness, on records that carry the name of the aggregated file,
`/A/EmptyStudy/T1.mha`: the file `/d/a.dcm` with three thumbnails gives the rows
`a.dcm0`, `a.dcm1`, `a.dcm2`, each with its thumbnail; the files `/d/a.dcm`,
`/d/b.dcm`, `/d/c.dcm` with one thumbnail give three rows, two of them
with an empty thumbnail. -/
theorem createMissingImages_rows_witness :
    (insertedImages emptyCatalog (createMissingImages true emptyCatalog
        (recordOfFiles ["/d/a.dcm"]) 7 ["t0", "t1", "t2"])).map ImageRow.shown =
      [(7, "a.dcm0", "/d/a.dcm", "t0"), (7, "a.dcm1", "/d/a.dcm", "t1"),
       (7, "a.dcm2", "/d/a.dcm", "t2")] ∧
    (insertedImages emptyCatalog (createMissingImages true emptyCatalog
        (recordOfFiles ["/d/a.dcm", "/d/b.dcm", "/d/c.dcm"]) 7 ["t0"])).map ImageRow.shown =
      [(7, "a.dcm", "/d/a.dcm", "t0"), (7, "b.dcm", "/d/b.dcm", ""),
       (7, "c.dcm", "/d/c.dcm", "")] :=
  ⟨((createMissingImages_rows true emptyCatalog (recordOfFiles ["/d/a.dcm"]) 7
      ["t0", "t1", "t2"] ["/d/a.dcm"] rfl (by decide) (fun _ h => nomatch h)).2.1
      (by decide) (by decide)).trans (by decide),
   ((createMissingImages_rows true emptyCatalog
      (recordOfFiles ["/d/a.dcm", "/d/b.dcm", "/d/c.dcm"]) 7 ["t0"]
      ["/d/a.dcm", "/d/b.dcm", "/d/c.dcm"] rfl (by decide) (fun _ h => nomatch h)).2.2
      (by decide) (by decide)).trans (by decide)⟩

/-! ### Index-only mode -/

theorem indexOnlyGrowth_refl (c : Catalog) : c.IndexOnlyGrowth c :=
  ⟨[], [], by simp, by simp, by simp, by simp⟩

theorem indexOnlyGrowth_trans {a b c : Catalog} (h₁ : a.IndexOnlyGrowth b)
    (h₂ : b.IndexOnlyGrowth c) : a.IndexOnlyGrowth c := by
  obtain ⟨s₁, i₁, hs₁, hi₁, ps₁, pi₁⟩ := h₁
  obtain ⟨s₂, i₂, hs₂, hi₂, ps₂, pi₂⟩ := h₂
  refine ⟨s₁ ++ s₂, i₁ ++ i₂, by rw [hs₂, hs₁, List.append_assoc],
    by rw [hi₂, hi₁, List.append_assoc], ?_, ?_⟩
  · intro r hr
    rcases List.mem_append.mp hr with h | h
    · exact ps₁ r h
    · exact ps₂ r h
  · intro r hr
    rcases List.mem_append.mp hr with h | h
    · exact pi₁ r h
    · exact pi₂ r h

theorem indexOnlyGrowth_of_eq {c c' : Catalog} (hs : c'.series = c.series)
    (hi : c'.image = c.image) : c.IndexOnlyGrowth c' :=
  ⟨[], [], by simp [hs], by simp [hi], by simp, by simp⟩

theorem getOrCreatePatient_indexOnly (c : Catalog) (d : DtkData) :
    c.IndexOnlyGrowth (getOrCreatePatient c d).2 := by
  cases h : selectPatient c (simplified (d.first .PatientName)) with
  | some p => rw [getOrCreatePatient_found c d p h]; exact indexOnlyGrowth_refl c
  | none => rw [getOrCreatePatient_new c d h]; exact indexOnlyGrowth_of_eq rfl rfl

theorem getOrCreateStudy_indexOnly (c : Catalog) (d : DtkData) (patientId : Nat) :
    c.IndexOnlyGrowth (getOrCreateStudy c d patientId).2 := by
  cases h : selectStudy c patientId (simplified (d.first .StudyDescription))
      (d.first .StudyID) with
  | some st =>
    rw [getOrCreateStudy_found c d patientId st h]; exact indexOnlyGrowth_refl c
  | none =>
    rw [getOrCreateStudy_new c d patientId h]; exact indexOnlyGrowth_of_eq rfl rfl

theorem getOrCreateSeries_indexOnly (c : Catalog) (d : DtkData) (studyId : Nat) :
    c.IndexOnlyGrowth (getOrCreateSeries true c d studyId).2 := by
  cases h : selectSeriesOf c d studyId with
  | some se =>
    rw [getOrCreateSeries_found true c d studyId se h]; exact indexOnlyGrowth_refl c
  | none =>
    rw [getOrCreateSeries_new true c d studyId h]
    refine ⟨[newSeriesRow true c d studyId], [], rfl, by simp, ?_, by simp⟩
    intro r hr
    rw [List.mem_singleton.mp hr]
    rfl

theorem insertImageIfMissing_indexOnly (d : DtkData) (seriesId : Nat)
    (name path thumbnail : String) (c : Catalog) :
    c.IndexOnlyGrowth (insertImageIfMissing true d seriesId name path thumbnail c) := by
  cases h : selectImage c seriesId name with
  | some r =>
    rw [insertImageIfMissing_found true d seriesId name path thumbnail c r h]
    exact indexOnlyGrowth_refl c
  | none =>
    rw [insertImageIfMissing_new true d seriesId name path thumbnail c h]
    refine ⟨[], _, by simp, rfl, by simp, ?_⟩
    intro r hr
    rw [List.mem_singleton.mp hr]
    exact ⟨rfl, rfl⟩

theorem insertImages_indexOnly (d : DtkData) (seriesId : Nat)
    (qs : List (String × String × String)) :
    ∀ c : Catalog, c.IndexOnlyGrowth (insertImages true d seriesId qs c) := by
  induction qs with
  | nil => intro c; exact indexOnlyGrowth_refl c
  | cons q qs ih =>
    intro c
    simp only [insertImages]
    exact indexOnlyGrowth_trans (insertImageIfMissing_indexOnly d seriesId _ _ _ c) (ih _)

theorem createMissingImages_indexOnly (c : Catalog) (d : DtkData) (seriesId : Nat)
    (thumbPaths : List String) :
    c.IndexOnlyGrowth (createMissingImages true c d seriesId thumbPaths) := by
  unfold createMissingImages
  simp only
  split
  · rw [createImagesPerThumbnail_eq]; exact insertImages_indexOnly d seriesId _ c
  · rw [createImagesPerFile_eq]; exact insertImages_indexOnly d seriesId _ c

theorem populateDatabase_indexOnly (c : Catalog) (d : DtkData) (thumbPaths : List String) :
    c.IndexOnlyGrowth (populateDatabase true c d thumbPaths) := by
  unfold populateDatabase getOrCreateChain
  exact indexOnlyGrowth_trans
    (indexOnlyGrowth_trans
      (indexOnlyGrowth_trans (getOrCreatePatient_indexOnly c d)
        (getOrCreateStudy_indexOnly _ d _))
      (getOrCreateSeries_indexOnly _ d _))
    (createMissingImages_indexOnly _ d _ thumbPaths)

/-! ### The catalog through the final loop -/

theorem pass2Write_catalog (R : Catalog → Catalog → Prop) (env : Env) (s : Pass2State)
    (priv : ImporterState) (storage : List StorageOp) (target name : String)
    (files : List String) (d : DtkData) (hrefl : R s.catalog s.catalog)
    (hpop : ∀ storage path,
      R s.catalog (populateDatabaseAndGenerateThumbnails env s.catalog storage d path).1) :
    R s.catalog (pass2Write env s priv storage target name files d).catalog := by
  unfold pass2Write
  rcases hw : tryWriteImage env.writers priv storage (filePath target) d with
    ⟨_ | _, priv', storage'⟩
  · exact hrefl
  · exact hpop storage' (dirPath name ++ "/" ++ completeBaseName name ++ "/")

theorem pass2Store_catalog (R : Catalog → Catalog → Prop) (env : Env) (s : Pass2State)
    (priv : ImporterState) (name : String) (files : List String) (d : DtkData)
    (hrefl : R s.catalog s.catalog)
    (hpop : ∀ storage path,
      R s.catalog (populateDatabaseAndGenerateThumbnails env s.catalog storage d path).1) :
    R s.catalog (pass2Store env s priv name files d).catalog := by
  unfold pass2Store
  by_cases hix : env.indexWithoutImporting = true
  · simp only [hix, Bool.not_true, Bool.false_eq_true, if_false]
    exact hpop s.storage (dirPath name ++ "/" ++ completeBaseName name ++ "/")
  · simp only [hix, Bool.not_false, if_true]
    split
    · exact pass2Write_catalog R env s priv _ _ name files d hrefl hpop
    · split
      · exact pass2Write_catalog R env s priv _ _ name files d hrefl hpop
      · exact hrefl

/-- A relation between catalogs that holds of every catalog with itself and
of every catalog with what `populateDatabaseAndGenerateThumbnails` makes of
it holds of the catalogs before and after a turn of the final loop. -/
theorem pass2Step_catalog (R : Catalog → Catalog → Prop) (env : Env) (n : Nat)
    (entry : String × List String) (s : Pass2State) (hrefl : ∀ c, R c c)
    (hpop : ∀ c storage d path,
      R c (populateDatabaseAndGenerateThumbnails env c storage d path).1) :
    R s.catalog (pass2Step env n entry s).catalog := by
  unfold pass2Step
  simp only
  rcases hr : tryReadImages env.readers s.priv entry.2 false with ⟨_ | d0, priv⟩
  · exact hrefl _
  · simp only [isPartialImportAttempt_eq]
    by_cases hdet : detects s.catalog (aggregatedData d0 entry.1 entry.2) = true
    · simp only [hdet, if_true]
      exact hrefl _
    · have hnd : detects s.catalog (aggregatedData d0 entry.1 entry.2) = false := by
        simpa using hdet
      simp only [hnd, Bool.false_eq_true, if_false]
      exact pass2Store_catalog R env
        { s with
          signals := s.signals ++
            [.progressed ((s.currentImageIndex : ℚ) / (n : ℚ) * 50 + 50)]
          currentImageIndex := s.currentImageIndex + 1 }
        _ entry.1 entry.2 _ (hrefl _) (fun storage path => hpop _ storage _ path)

theorem pass2_catalog (R : Catalog → Catalog → Prop) (env : Env) (n : Nat)
    (hrefl : ∀ c, R c c) (htrans : ∀ a b c, R a b → R b c → R a c)
    (hpop : ∀ c storage d path,
      R c (populateDatabaseAndGenerateThumbnails env c storage d path).1)
    (entries : List (String × List String)) :
    ∀ s, R s.catalog (pass2 env n entries s).catalog := by
  induction entries with
  | nil => intro s; exact hrefl _
  | cons entry rest ih =>
    intro s
    simp only [pass2]
    exact htrans _ _ _ (pass2Step_catalog R env n entry s hrefl hpop) (ih _)

/-- A reflexive and transitive relation between catalogs that holds of
every catalog with what `populateDatabaseAndGenerateThumbnails` makes of it
holds of the catalog a run starts from with the catalog it leaves. -/
theorem run_catalog (R : Catalog → Catalog → Prop) (env : Env) (c : Catalog)
    (hrefl : ∀ c, R c c) (htrans : ∀ a b c, R a b → R b c → R a c)
    (hpop : ∀ c storage d path,
      R c (populateDatabaseAndGenerateThumbnails env c storage d path).1) :
    R c (run env c).catalog := by
  unfold run
  simp only
  split
  · exact hrefl c
  · split
    · exact hrefl c
    · exact pass2_catalog R env _ hrefl htrans hpop _
        { priv := _, catalog := c, storage := [], currentImageIndex := 0, signals := _,
          trace := [] }

/-- C16. Index-only mode stores no managed paths: with the index-only flag
set, what `getOrCreateSeries` adds to the catalog are series rows with an
empty `path`, what `createMissingImages` adds are image rows with an empty
`instance_path` and `isIndexed` set, and the catalog a whole index-only run
leaves is the catalog it started from with such series rows and image rows
added. -/
theorem index_only_no_managed_paths (env : Env) (c : Catalog) (d : DtkData)
    (studyId seriesId : Nat) (thumbPaths : List String) :
    c.IndexOnlyGrowth (getOrCreateSeries true c d studyId).2 ∧
    c.IndexOnlyGrowth (createMissingImages true c d seriesId thumbPaths) ∧
    (env.indexWithoutImporting = true → c.IndexOnlyGrowth (run env c).catalog) := by
  refine ⟨getOrCreateSeries_indexOnly c d studyId,
    createMissingImages_indexOnly c d seriesId thumbPaths, fun hix => ?_⟩
  refine run_catalog Catalog.IndexOnlyGrowth env c indexOnlyGrowth_refl
    (fun _ _ _ h₁ h₂ => indexOnlyGrowth_trans h₁ h₂) fun c storage d path => ?_
  unfold populateDatabaseAndGenerateThumbnails
  simp only [hix]
  exact populateDatabase_indexOnly c _ _

/-! ### Signals, record and conflicts of the final loop -/

theorem isTerminal_of_report {sg : Signal}
    (h : (∃ v, sg = Signal.progressed v) ∨ (∃ m, sg = Signal.showError m)) :
    sg.isTerminal = false := by
  rcases h with ⟨v, rfl⟩ | ⟨m, rfl⟩ <;> rfl

theorem conflictsOf_append (t₁ t₂ : List Pass2Entry) :
    conflictsOf (t₁ ++ t₂) = conflictsOf t₁ ++ conflictsOf t₂ := by
  simp [conflictsOf, List.filterMap_append]

theorem conflictsOf_single_of_ne (e : Pass2Entry) (h : e.verdict ≠ .duplicate) :
    conflictsOf [e] = [] := by
  simp [conflictsOf, h]

theorem pass2Commit_stored (env : Env) (s : Pass2State) (priv : ImporterState)
    (storage : List StorageOp) (name : String) (files : List String) (d : DtkData) :
    Pass2Stored s (pass2Commit env s priv storage name files d) priv name files :=
  ⟨⟨⟨name, files, some d, .committed⟩, rfl, rfl, rfl, fun h => GroupVerdict.noConfusion h⟩,
    rfl, ⟨[], by simp [pass2Commit], by simp⟩, rfl⟩

theorem pass2Write_stored (env : Env) (s : Pass2State) (priv : ImporterState)
    (storage : List StorageOp) (target name : String) (files : List String) (d : DtkData) :
    Pass2Stored s (pass2Write env s priv storage target name files d) priv name files := by
  have hi := tryWriteImage_info env.writers priv storage (filePath target) d
  unfold pass2Write
  rcases hw : tryWriteImage env.writers priv storage (filePath target) d with
    ⟨_ | _, priv', storage'⟩
  · simp only [hw] at hi
    exact ⟨⟨⟨name, files, some d, .writeFailed⟩, rfl, rfl, rfl,
      fun h => GroupVerdict.noConfusion h⟩, rfl,
      ⟨[.showError ("Could not save data file: " ++ files.headD "")], rfl,
        fun sg h => ⟨_, List.mem_singleton.mp h⟩⟩, hi⟩
  · simp only [hw] at hi
    have h := pass2Commit_stored env s priv' storage' name files d
    exact ⟨h.entry, h.index_eq, h.signals_eq, h.info_eq.trans hi⟩

theorem pass2Store_stored (env : Env) (s : Pass2State) (priv : ImporterState)
    (name : String) (files : List String) (d : DtkData) :
    Pass2Stored s (pass2Store env s priv name files d) priv name files := by
  unfold pass2Store
  by_cases hix : env.indexWithoutImporting = true
  · simp only [hix, Bool.not_true, Bool.false_eq_true, if_false]
    exact pass2Commit_stored env s priv s.storage name files d
  · simp only [hix, Bool.not_false, if_true]
    split
    · exact pass2Write_stored env s priv _ _ name files d
    · split
      · exact pass2Write_stored env s priv _ _ name files d
      · exact ⟨⟨⟨name, files, some d, .noDirectory⟩, rfl, rfl, rfl,
          fun h => GroupVerdict.noConfusion h⟩, rfl, ⟨[], by simp, by simp⟩, rfl⟩

/-- Every turn of the final loop is a `Pass2Emits`. -/
theorem pass2Step_emits (env : Env) (n : Nat) (entry : String × List String)
    (s : Pass2State) : ∃ e, Pass2Emits n entry s (pass2Step env n entry s) e := by
  unfold pass2Step
  simp only
  have hri := tryReadImages_info env.readers s.priv entry.2 false
  rcases hr : tryReadImages env.readers s.priv entry.2 false with ⟨_ | d0, priv⟩
  · simp only [hr] at hri
    refine ⟨⟨entry.1, entry.2, none, .unreadable⟩, rfl, rfl, rfl, rfl,
      ⟨[.showError ("Could not read data: " ++ entry.2.headD "")], by simp,
        fun sg h => ⟨_, List.mem_singleton.mp h⟩⟩, ?_, ?_⟩
    · show priv.partialAttemptsInfo = _
      rw [hri, conflictsOf_single_of_ne _ (fun h => GroupVerdict.noConfusion h),
        List.append_nil]
    · intro h; exact GroupVerdict.noConfusion h
  · simp only [hr] at hri
    simp only [isPartialImportAttempt_eq]
    by_cases hdet : detects s.catalog (aggregatedData d0 entry.1 entry.2) = true
    · simp only [hdet, if_true]
      refine ⟨⟨entry.1, entry.2, some (aggregatedData d0 entry.1 entry.2), .duplicate⟩,
        rfl, rfl, rfl, rfl, ⟨[], by simp, by simp⟩, ?_, fun _ => ⟨rfl, rfl, rfl⟩⟩
      show priv.partialAttemptsInfo ++ _ = _
      rw [hri]
      simp [conflictsOf]
    · have hnd : detects s.catalog (aggregatedData d0 entry.1 entry.2) = false := by
        simpa using hdet
      simp only [hnd, Bool.false_eq_true, if_false]
      have st := pass2Store_stored env
        { s with
          signals := s.signals ++
            [.progressed ((s.currentImageIndex : ℚ) / (n : ℚ) * 50 + 50)]
          currentImageIndex := s.currentImageIndex + 1 }
        { priv with partialAttemptsInfo := priv.partialAttemptsInfo } entry.1 entry.2
        (aggregatedData d0 entry.1 entry.2)
      obtain ⟨e, htr, hname, hfiles, hv⟩ := st.entry
      obtain ⟨extra, hsig, hextra⟩ := st.signals_eq
      refine ⟨e, htr, hname, hfiles, st.index_eq, ⟨extra, ?_, hextra⟩, ?_,
        fun h => absurd h hv⟩
      · rw [hsig]; simp
      · rw [st.info_eq, conflictsOf_single_of_ne e hv, List.append_nil]
        exact hri

/-- The final loop takes every group, in the order of the map; the list of
conflicts grows by the conflict records of the groups skipped as
duplicates; the signals it emits are progress values and error messages. -/
theorem pass2_emits (env : Env) (n : Nat) (entries : List (String × List String)) :
    ∀ s, ∃ (t : List Pass2Entry) (sg : List Signal),
      (pass2 env n entries s).trace = s.trace ++ t ∧
      t.map (fun e => (e.aggregatedFileName, e.filesPaths)) = entries ∧
      (pass2 env n entries s).priv.partialAttemptsInfo =
        s.priv.partialAttemptsInfo ++ conflictsOf t ∧
      (pass2 env n entries s).signals = s.signals ++ sg ∧
      ∀ x ∈ sg, (∃ v, x = Signal.progressed v) ∨ (∃ m, x = Signal.showError m) := by
  induction entries with
  | nil => intro s; exact ⟨[], [], by simp [pass2], rfl, by simp [pass2, conflictsOf],
      by simp [pass2], by simp⟩
  | cons entry rest ih =>
    intro s
    simp only [pass2]
    obtain ⟨e, em⟩ := pass2Step_emits env n entry s
    obtain ⟨t, sg, htr, hmap, hinfo, hsig, hsg⟩ := ih (pass2Step env n entry s)
    obtain ⟨extra, hsig', hextra⟩ := em.signals_eq
    refine ⟨e :: t,
      Signal.progressed ((s.currentImageIndex : ℚ) / (n : ℚ) * 50 + 50) :: extra ++ sg,
      ?_, ?_, ?_, ?_, ?_⟩
    · rw [htr, em.trace_eq]; simp
    · rw [List.map_cons, hmap, em.name_eq, em.files_eq]
    · rw [hinfo, em.info_eq, List.append_assoc, ← conflictsOf_append]; rfl
    · rw [hsig, hsig']; simp
    · intro x hx
      simp only [List.cons_append, List.mem_cons, List.mem_append] at hx
      rcases hx with h | h | h
      · exact Or.inl ⟨_, h⟩
      · exact Or.inr (hextra x h)
      · exact hsg x h

/-- The three ways a run ends. The signals of a run are signals that do not
end a run, followed by `cancelled`, or by `failure`, or by `success` and
`addedIndex`; in the last case the final loop has taken every group, the
conflict records of the groups it skipped as duplicates are in the list of
conflicts, and the summary of that list has been sent unless the list is
empty. -/
theorem run_outcome (env : Env) (c : Catalog) :
    ∃ pre : List Signal, (∀ sg ∈ pre, sg.isTerminal = false) ∧
      (((run env c).signals = pre ++ [.cancelled] ∧ (run env c).pass2 = [] ∧
          env.isCancelled (pass1 env c (getAllFilesToBeProcessed env env.file).length
            (getAllFilesToBeProcessed env env.file) Pass1State.initial).currentFileNumber
            = true) ∨
       ((run env c).signals = pre ++ [.failure] ∧ (run env c).pass2 = [] ∧
          (run env c).groups = []) ∨
       ((run env c).signals = pre ++ [.success, .addedIndex] ∧
          (run env c).groups ≠ [] ∧
          env.isCancelled (pass1 env c (getAllFilesToBeProcessed env env.file).length
            (getAllFilesToBeProcessed env env.file) Pass1State.initial).currentFileNumber
            = false ∧
          (run env c).pass2.map (fun e => (e.aggregatedFileName, e.filesPaths)) =
            (run env c).groups ∧
          (∀ x ∈ conflictsOf (run env c).pass2, x ∈ (run env c).priv.partialAttemptsInfo) ∧
          ((run env c).priv.partialAttemptsInfo ≠ [] →
            Signal.partialImportAttempted (partialImportMessage env.indexWithoutImporting
              (run env c).priv.partialAttemptsInfo) ∈ pre))) := by
  have inv := run_pass1_inv env c
  unfold run
  simp only
  generalize pass1 env c (getAllFilesToBeProcessed env env.file).length
    (getAllFilesToBeProcessed env env.file) Pass1State.initial = s1 at inv ⊢
  have h1 : ∀ sg ∈ s1.signals, sg.isTerminal = false :=
    fun sg h => isTerminal_of_report (inv.signals_ok sg h)
  split
  · rename_i hc
    refine ⟨s1.signals ++ [.showError "User cancelled import process"], ?_,
      Or.inl ⟨by simp, rfl, hc⟩⟩
    intro sg hsg
    rcases List.mem_append.mp hsg with h | h
    · exact h1 sg h
    · rw [List.mem_singleton.mp h]; rfl
  · split
    · rename_i hc hg
      refine ⟨s1.signals ++ [.showError
        "No compatible image found or all of them had been already imported."], ?_,
        Or.inr (Or.inl ⟨by simp, rfl, List.isEmpty_iff.mp hg⟩)⟩
      intro sg hsg
      rcases List.mem_append.mp hsg with h | h
      · exact h1 sg h
      · rw [List.mem_singleton.mp h]; rfl
    · rename_i hc hg
      obtain ⟨t, sg2, htr, hmap, hinfo, hsig, hsg2⟩ := pass2_emits env
        s1.imagesGroupedByVolume.length s1.imagesGroupedByVolume
        { priv := s1.priv, catalog := c, storage := [], currentImageIndex := 0,
          signals := s1.signals, trace := [] }
      simp only [List.nil_append] at htr
      have hcf : env.isCancelled s1.currentFileNumber = false := by simpa using hc
      have hgn : s1.imagesGroupedByVolume ≠ [] := fun h => hg (List.isEmpty_iff.mpr h)
      have hmem : ∀ x ∈ conflictsOf t,
          x ∈ (pass2 env s1.imagesGroupedByVolume.length s1.imagesGroupedByVolume
            { priv := s1.priv, catalog := c, storage := [], currentImageIndex := 0,
              signals := s1.signals, trace := [] }).priv.partialAttemptsInfo :=
        fun x hx => by rw [hinfo]; exact List.mem_append_right _ hx
      rw [htr, hsig]
      by_cases hlen : (pass2 env s1.imagesGroupedByVolume.length s1.imagesGroupedByVolume
            { priv := s1.priv, catalog := c, storage := [], currentImageIndex := 0,
              signals := s1.signals, trace := [] }).priv.partialAttemptsInfo.length > 0
      · rw [if_pos hlen]
        refine ⟨s1.signals ++ sg2 ++ [.partialImportAttempted
            (partialImportMessage env.indexWithoutImporting
              (pass2 env s1.imagesGroupedByVolume.length s1.imagesGroupedByVolume
                { priv := s1.priv, catalog := c, storage := [], currentImageIndex := 0,
                  signals := s1.signals, trace := [] }).priv.partialAttemptsInfo)] ++
            [.progressed 100], ?_,
          Or.inr (Or.inr ⟨by simp, hgn, hcf, hmap, hmem, fun _ => by simp⟩)⟩
        intro x hx
        simp only [List.mem_append, List.mem_singleton] at hx
        rcases hx with ((h | h) | h) | h
        · exact h1 x h
        · exact isTerminal_of_report (hsg2 x h)
        · rw [h]; rfl
        · rw [h]; rfl
      · rw [if_neg hlen]
        refine ⟨s1.signals ++ sg2 ++ [.progressed 100], ?_,
          Or.inr (Or.inr ⟨by simp, hgn, hcf, hmap, hmem, fun hne => ?_⟩)⟩
        · intro x hx
          simp only [List.mem_append, List.mem_singleton] at hx
          rcases hx with (h | h) | h
          · exact h1 x h
          · exact isTerminal_of_report (hsg2 x h)
          · rw [h]; rfl
        · exact absurd (List.length_pos.mpr hne) hlen

theorem filter_isTerminal_nil (pre : List Signal) (h : ∀ sg ∈ pre, sg.isTerminal = false) :
    pre.filter Signal.isTerminal = [] := by
  rw [List.filter_eq_nil_iff]
  intro sg hsg
  rw [h sg hsg]
  exact Bool.false_ne_true

theorem not_mem_of_not_terminal {pre : List Signal} (h : ∀ sg ∈ pre, sg.isTerminal = false)
    {x : Signal} (hx : x.isTerminal = true) : x ∉ pre := by
  intro hm
  rw [h x hm] at hx
  exact Bool.noConfusion hx

/-- C12. Exactly one terminal outcome: of the signals `cancelled`,
`failure` and `success`, every run emits exactly one, once, and none of the
other two: the terminal signals among those of a run are `cancelled` alone,
or `failure` alone, or `success` alone. -/
theorem exactly_one_terminal_signal (env : Env) (c : Catalog) :
    (run env c).signals.filter Signal.isTerminal = [.cancelled] ∨
    (run env c).signals.filter Signal.isTerminal = [.failure] ∨
    (run env c).signals.filter Signal.isTerminal = [.success] := by
  obtain ⟨pre, hpre, h | h | h⟩ := run_outcome env c
  · left
    rw [h.1, List.filter_append, filter_isTerminal_nil pre hpre]; rfl
  · right; left
    rw [h.1, List.filter_append, filter_isTerminal_nil pre hpre]; rfl
  · right; right
    rw [h.1, List.filter_append, filter_isTerminal_nil pre hpre]; rfl

theorem addAdditionalMetaData_filePaths (d : DtkData) (name : String) (files : List String)
    (h : lookupMeta .FilePaths d.metaData = none) :
    (addAdditionalMetaData d name files).metaDataValues .FilePaths = files := by
  have hs : ∀ size : List String,
      (d.setMetaData .Size size).hasMetaData .FilePaths = false := by
    intro size
    simp [DtkData.hasMetaData, DtkData.setMetaData, lookupMeta_storeMeta, h]
  have hv : ∀ size : List String,
      (d.setMetaData .Size size).metaDataValues .FilePaths = [] := by
    intro size
    simp [DtkData.metaDataValues, DtkData.setMetaData, lookupMeta_storeMeta, h]
  unfold addAdditionalMetaData
  simp only [hs, Bool.false_eq_true, if_false]
  rw [metaDataValues_addMetaData_ne _ .FileName .FilePaths _ (by decide)]
  simp only [DtkData.metaDataValues, DtkData.addMetaData, lookupMeta_storeMeta, if_true,
    Option.getD_some]
  rw [← DtkData.metaDataValues, hv]
  rfl

theorem aggregatedData_filePaths (d0 : DtkData) (name : String) (files : List String)
    (h : d0.hasMetaData .FilePaths = false) :
    (aggregatedData d0 name files).metaDataValues .FilePaths = files := by
  have hl : lookupMeta .FilePaths d0.metaData = none := by
    unfold DtkData.hasMetaData at h
    cases ho : lookupMeta .FilePaths d0.metaData with
    | none => rfl
    | some vs => rw [ho] at h; exact Bool.noConfusion h
  have hp : lookupMeta .FilePaths
      (populateMissingMetadata d0 (baseName (files.headD ""))).metaData = none := by
    rw [lookupMeta_populate, hl]; rfl
  exact addAdditionalMetaData_filePaths _ name files hp

theorem headD_eq_head (l : List String) (h : l ≠ []) : l.headD "" = l.head h := by
  cases l with
  | nil => exact absurd rfl h
  | cons x xs => rfl

/-- C13 (amended). Duplicate group in Pass 2: when the files of a group have
been read, the ConflictDetector finds the aggregated record in the catalog
and the record has at least one file path, the turn of the final loop leaves
the catalog and the storage as they were (nothing is written, no thumbnail
is made), emits the progress value and nothing else, and appends exactly one
conflict record: the patient name, the study description and the series
description of the record, each whitespace-normalized (`simplified()`, the
form in which the catalog stores them), and the first of the file paths of
the record, which are the paths of the group unless the reader supplied a
list of its own. The loop then goes on with the next group. -/
theorem duplicate_group_writes_nothing (env : Env) (n : Nat)
    (entry : String × List String) (rest : List (String × List String)) (s : Pass2State)
    (d0 : DtkData) (priv : ImporterState)
    (hread : tryReadImages env.readers s.priv entry.2 false = (some d0, priv))
    (hdup : detects s.catalog (aggregatedData d0 entry.1 entry.2) = true)
    (hfp : (aggregatedData d0 entry.1 entry.2).metaDataValues .FilePaths ≠ []) :
    (pass2Step env n entry s).catalog = s.catalog ∧
    (pass2Step env n entry s).storage = s.storage ∧
    (pass2Step env n entry s).signals = s.signals ++
      [.progressed ((s.currentImageIndex : ℚ) / (n : ℚ) * 50 + 50)] ∧
    (pass2Step env n entry s).priv.partialAttemptsInfo =
      s.priv.partialAttemptsInfo ++
        [[simplified ((aggregatedData d0 entry.1 entry.2).first .PatientName),
          simplified ((aggregatedData d0 entry.1 entry.2).first .StudyDescription),
          simplified ((aggregatedData d0 entry.1 entry.2).first .SeriesDescription),
          ((aggregatedData d0 entry.1 entry.2).metaDataValues .FilePaths).head hfp]] ∧
    (d0.hasMetaData .FilePaths = false →
      (aggregatedData d0 entry.1 entry.2).metaDataValues .FilePaths = entry.2) ∧
    (pass2Step env n entry s).trace = s.trace ++
      [⟨entry.1, entry.2, some (aggregatedData d0 entry.1 entry.2), .duplicate⟩] ∧
    pass2 env n (entry :: rest) s = pass2 env n rest (pass2Step env n entry s) := by
  have hri := tryReadImages_info env.readers s.priv entry.2 false
  rw [hread] at hri
  have hstep : pass2Step env n entry s =
      { s with
        signals := s.signals ++
          [.progressed ((s.currentImageIndex : ℚ) / (n : ℚ) * 50 + 50)],
        currentImageIndex := s.currentImageIndex + 1,
        priv := { priv with partialAttemptsInfo := priv.partialAttemptsInfo ++
          [conflictRecord (aggregatedData d0 entry.1 entry.2)] },
        trace := s.trace ++
          [⟨entry.1, entry.2, some (aggregatedData d0 entry.1 entry.2), .duplicate⟩] } := by
    unfold pass2Step
    simp only [hread, isPartialImportAttempt_eq, hdup, if_true]
  refine ⟨by rw [hstep], by rw [hstep], by rw [hstep], ?_,
    aggregatedData_filePaths d0 entry.1 entry.2, by rw [hstep], rfl⟩
  rw [hstep]
  show priv.partialAttemptsInfo ++ _ = _
  rw [hri, ← headD_eq_head _ hfp]
  rfl

/-- C13 witness: the file `/d/9` belongs to the series that the run over
`envOneFile` has cataloged; the only turn of the final loop of the run over
`envNextSlice` finds it there. -/
theorem duplicate_group_writes_nothing_witness :
    (pass2Step envNextSlice 1 ("/A/EmptyStudy/T1.mha", ["/d/9"])
        { priv := ImporterState.initial, catalog := (run envOneFile emptyCatalog).catalog,
          storage := [], currentImageIndex := 0, signals := [], trace := [] }).catalog
      = (run envOneFile emptyCatalog).catalog ∧
    (pass2Step envNextSlice 1 ("/A/EmptyStudy/T1.mha", ["/d/9"])
        { priv := ImporterState.initial, catalog := (run envOneFile emptyCatalog).catalog,
          storage := [], currentImageIndex := 0, signals := [], trace := [] }).storage = [] ∧
    (pass2Step envNextSlice 1 ("/A/EmptyStudy/T1.mha", ["/d/9"])
        { priv := ImporterState.initial, catalog := (run envOneFile emptyCatalog).catalog,
          storage := [], currentImageIndex := 0, signals := [],
          trace := [] }).priv.partialAttemptsInfo = [["A", "EmptyStudy", "T", "/d/9"]] := by
  obtain ⟨h1, h2, -, h4, -⟩ := duplicate_group_writes_nothing envNextSlice 1
    ("/A/EmptyStudy/T1.mha", ["/d/9"]) []
    { priv := ImporterState.initial, catalog := (run envOneFile emptyCatalog).catalog,
      storage := [], currentImageIndex := 0, signals := [], trace := [] }
    (sampleHeader "A" "T" "" "")
    { ImporterState.initial with lastSuccessfulReaderDescription := "sampleReader" }
    (by decide) (by decide) (by decide)
  exact ⟨h1, h2, h4.trans (by decide)⟩

/-- C13 counterexample: the file `/d/1`, whose patient name is written
`A  B` with two blanks, is indexed twice. In the second run the final loop
reads the group of `/d/1`, the record has the patient name `A  B`, the
ConflictDetector finds it in the catalog and one conflict record is
appended; its patient name is `A B`, not the patient name of the record. -/
theorem conflict_record_normalized_counterexample :
    (run envBlanks (run envBlanks emptyCatalog).catalog).pass2.map
        (fun e => (e.filesPaths, e.data.map (·.first .PatientName), e.verdict)) =
      [(["/d/1"], some "A  B", .duplicate)] ∧
    (run envBlanks (run envBlanks emptyCatalog).catalog).priv.partialAttemptsInfo =
      [["A B", "EmptyStudy", "T", "/d/1"]] := by
  decide

/-! ### Cancellation after Pass 1 -/

theorem isCancelled_none (env : Env) (t : Nat) :
    Env.isCancelled { env with cancelAt := none } t = false := rfl

theorem pass1Step_cancelAt (env : Env) (c : Catalog) (n : Nat) (file : String)
    (s : Pass1State) :
    pass1Step { env with cancelAt := none } c n file s = pass1Step env c n file s := rfl

theorem pass2Step_cancelAt (env : Env) (n : Nat) (entry : String × List String)
    (s : Pass2State) :
    pass2Step { env with cancelAt := none } n entry s = pass2Step env n entry s := rfl

theorem pass1_cancelAt (env : Env) (c : Catalog) (n : Nat) (files : List String) :
    ∀ s, env.isCancelled (s.currentFileNumber + files.length) = false →
      pass1 { env with cancelAt := none } c n files s = pass1 env c n files s := by
  induction files with
  | nil => intro s _; rfl
  | cons f fs ih =>
    intro s hnc
    have hc : env.isCancelled s.currentFileNumber = false := by
      cases h : env.isCancelled s.currentFileNumber with
      | false => rfl
      | true =>
        have := isCancelled_mono env (Nat.le_add_right _ (f :: fs).length) h
        rw [hnc] at this
        exact Bool.noConfusion this
    obtain ⟨e, -, -, hcnt, -⟩ := pass1Step_spec env c n f s
    simp only [pass1, hc, isCancelled_none, Bool.false_eq_true, if_false, pass1Step_cancelAt]
    refine ih _ ?_
    rw [hcnt, ← hnc, List.length_cons]
    congr 1
    omega

theorem pass2_cancelAt (env : Env) (n : Nat) (entries : List (String × List String)) :
    ∀ s, pass2 { env with cancelAt := none } n entries s = pass2 env n entries s := by
  induction entries with
  | nil => intro s; rfl
  | cons entry rest ih =>
    intro s
    simp only [pass2, pass2Step_cancelAt]
    exact ih _

/-- A run in which the flag is not set by the end of the first loop is the
run in which it is never set. -/
theorem run_cancelAt (env : Env) (c : Catalog)
    (h : env.isCancelled (getAllFilesToBeProcessed env env.file).length = false) :
    run env c = run { env with cancelAt := none } c := by
  have hfiles : getAllFilesToBeProcessed { env with cancelAt := none } env.file =
      getAllFilesToBeProcessed env env.file := rfl
  have h0 : env.isCancelled (Pass1State.initial.currentFileNumber +
      (getAllFilesToBeProcessed env env.file).length) = false := by
    rw [← h]; congr 1; simp [Pass1State.initial]
  have h1 := pass1_cancelAt env c (getAllFilesToBeProcessed env env.file).length
    (getAllFilesToBeProcessed env env.file) Pass1State.initial h0
  have hcount := (pass1_complete env c (getAllFilesToBeProcessed env env.file).length
    (getAllFilesToBeProcessed env env.file) Pass1State.initial h0).1
  have hc : env.isCancelled (pass1 env c (getAllFilesToBeProcessed env env.file).length
      (getAllFilesToBeProcessed env env.file) Pass1State.initial).currentFileNumber
      = false := by rw [hcount]; exact h0
  unfold run
  simp only [hfiles, h1, isCancelled_none, pass2_cancelAt, hc]

/-- C11 (amended). Cancellation in Pass 2: when cancellation is requested
while the final loop is at group `k` of `n` (the flag is set once all the
files of the first loop and `k` groups have been started, `1 ≤ k ≤ n`), the
request is not honoured: the final loop takes every one of the `n` groups,
the run ends with `success` and emits neither `cancelled` nor `failure`,
and it is in every respect the run in which no cancellation is requested. -/
theorem cancel_during_pass2_not_honoured (env : Env) (c : Catalog) (k : Nat)
    (hk : env.cancelAt = some ((getAllFilesToBeProcessed env env.file).length + k))
    (hpos : 1 ≤ k) (hkn : k ≤ (run env c).groups.length) :
    (run env c).pass2.map (fun e => (e.aggregatedFileName, e.filesPaths)) =
      (run env c).groups ∧
    Signal.success ∈ (run env c).signals ∧
    Signal.cancelled ∉ (run env c).signals ∧
    Signal.failure ∉ (run env c).signals ∧
    run env c = run { env with cancelAt := none } c := by
  have hnc : env.isCancelled (getAllFilesToBeProcessed env env.file).length = false := by
    unfold Env.isCancelled
    rw [hk]
    simp only [decide_eq_false_iff_not]
    omega
  have hcount := (pass1_complete env c (getAllFilesToBeProcessed env env.file).length
    (getAllFilesToBeProcessed env env.file) Pass1State.initial
    (by rw [← hnc]; congr 1; simp [Pass1State.initial])).1
  have hgroups : (run env c).groups ≠ [] := by
    intro h
    rw [h] at hkn
    simp only [List.length_nil] at hkn
    omega
  obtain ⟨pre, hpre, h | h | h⟩ := run_outcome env c
  · have := h.2.2
    rw [hcount] at this
    simp only [Pass1State.initial, Nat.zero_add] at this
    rw [hnc] at this
    exact Bool.noConfusion this
  · exact absurd h.2.2 hgroups
  · refine ⟨h.2.2.2.1, ?_, ?_, ?_, run_cancelAt env c hnc⟩
    · rw [h.1]; simp
    · rw [h.1]
      intro hm
      rcases List.mem_append.mp hm with hm | hm
      · exact not_mem_of_not_terminal hpre (x := .cancelled) rfl hm
      · simp at hm
    · rw [h.1]
      intro hm
      rcases List.mem_append.mp hm with hm | hm
      · exact not_mem_of_not_terminal hpre (x := .failure) rfl hm
      · simp at hm

/-- C11 witness: three files in two groups, cancellation requested while the
final loop is at group 1 of 2. -/
theorem cancel_during_pass2_not_honoured_witness :
    envCancelInPass2.cancelAt =
      some ((getAllFilesToBeProcessed envCancelInPass2 envCancelInPass2.file).length + 1) ∧
    1 ≤ (run envCancelInPass2 emptyCatalog).groups.length ∧
    ((run envCancelInPass2 emptyCatalog).pass2.map
        (fun e => (e.aggregatedFileName, e.filesPaths)) =
        (run envCancelInPass2 emptyCatalog).groups ∧
      Signal.success ∈ (run envCancelInPass2 emptyCatalog).signals ∧
      Signal.cancelled ∉ (run envCancelInPass2 emptyCatalog).signals ∧
      Signal.failure ∉ (run envCancelInPass2 emptyCatalog).signals ∧
      run envCancelInPass2 emptyCatalog =
        run { envCancelInPass2 with cancelAt := none } emptyCatalog) :=
  ⟨by decide, by decide,
    cancel_during_pass2_not_honoured envCancelInPass2 emptyCatalog 1 (by decide)
      (by decide) (by decide)⟩

/-- C11 counterexample: three files in two groups, cancellation requested
while the final loop is at group 1 of 2. Group 2 is processed all the same
(both groups are committed, with their series and images), and the run ends
with `success`, not with `cancelled`. -/
theorem cancel_during_pass2_counterexample :
    envCancelInPass2.cancelAt = some 4 ∧
    (getAllFilesToBeProcessed envCancelInPass2 envCancelInPass2.file).length = 3 ∧
    (run envCancelInPass2 emptyCatalog).groups.map (·.2) = [["/d/1", "/d/3"], ["/d/2"]] ∧
    (run envCancelInPass2 emptyCatalog).pass2.map (fun e => (e.filesPaths, e.verdict)) =
      [(["/d/1", "/d/3"], .committed), (["/d/2"], .committed)] ∧
    (run envCancelInPass2 emptyCatalog).catalog.series.length = 2 ∧
    (run envCancelInPass2 emptyCatalog).catalog.image.length = 3 ∧
    (run envCancelInPass2 emptyCatalog).signals.filter Signal.isTerminal = [.success] ∧
    Signal.cancelled ∉ (run envCancelInPass2 emptyCatalog).signals := by
  decide

/-! ### The conflict summary -/

theorem containsChars_iff (s sub : List Char) : containsChars s sub = true ↔ sub <:+: s := by
  induction s with
  | nil => simp [containsChars, List.isEmpty_iff]
  | cons c cs ih =>
    simp only [containsChars, Bool.or_eq_true, ih, List.isPrefixOf_iff_prefix,
      List.infix_cons_iff]

theorem qContains_iff (s sub : String) : qContains s sub = true ↔ sub.data <:+: s.data :=
  containsChars_iff s.data sub.data

/-- The text `partialImportMessage` adds for one conflict record. -/
theorem summary_step (msg : String) (x : List String) :
    msg ++ "Series: " ++ x.getD 2 "" ++ " (from patient: " ++ x.getD 0 "" ++
        " and study: " ++ x.getD 1 "" ++ "\n" =
      msg ++ ("Series: " ++ x.getD 2 "" ++ " (from patient: " ++ x.getD 0 "" ++
        " and study: " ++ x.getD 1 "" ++ "\n") := by
  simp only [String.append_assoc]

theorem summary_fold_mono (info : List (List String)) (sub : List Char) :
    ∀ init : String, sub <:+: init.data →
      sub <:+: (info.foldl (fun msg x =>
        msg ++ "Series: " ++ x.getD 2 "" ++ " (from patient: " ++ x.getD 0 "" ++
          " and study: " ++ x.getD 1 "" ++ "\n") init).data := by
  induction info with
  | nil => intro init h; exact h
  | cons x xs ih =>
    intro init h
    rw [List.foldl_cons]
    apply ih
    rw [summary_step, String.data_append]
    exact h.trans (List.prefix_append _ _).isInfix

theorem summary_fold_line (info : List (List String)) (x : List String) (hx : x ∈ info) :
    ∀ init : String,
      ("Series: " ++ x.getD 2 "" ++ " (from patient: " ++ x.getD 0 "" ++
        " and study: " ++ x.getD 1 "" ++ "\n").data <:+:
      (info.foldl (fun msg x =>
        msg ++ "Series: " ++ x.getD 2 "" ++ " (from patient: " ++ x.getD 0 "" ++
          " and study: " ++ x.getD 1 "" ++ "\n") init).data := by
  induction info with
  | nil => exact absurd hx (List.not_mem_nil _)
  | cons y ys ih =>
    intro init
    rw [List.foldl_cons]
    rcases List.mem_cons.mp hx with h | h
    · subst h
      apply summary_fold_mono
      rw [summary_step, String.data_append]
      exact (List.suffix_append _ _).isInfix
    · exact ih h _

theorem summary_line_names (p st s : String) :
    s.data <:+: ("Series: " ++ s ++ " (from patient: " ++ p ++ " and study: " ++ st ++
      "\n").data ∧
    p.data <:+: ("Series: " ++ s ++ " (from patient: " ++ p ++ " and study: " ++ st ++
      "\n").data ∧
    st.data <:+: ("Series: " ++ s ++ " (from patient: " ++ p ++ " and study: " ++ st ++
      "\n").data := by
  refine ⟨⟨"Series: ".data, (" (from patient: " ++ p ++ " and study: " ++ st ++ "\n").data,
      by simp [String.data_append]⟩,
    ⟨("Series: " ++ s ++ " (from patient: ").data, (" and study: " ++ st ++ "\n").data,
      by simp [String.data_append]⟩,
    ⟨("Series: " ++ s ++ " (from patient: " ++ p ++ " and study: ").data, "\n".data,
      by simp [String.data_append]⟩⟩

/-- The summary holds the line of every conflict record of the list. -/
theorem summary_contains (ix : Bool) (info : List (List String)) (x : List String)
    (hx : x ∈ info) :
    ("Series: " ++ x.getD 2 "" ++ " (from patient: " ++ x.getD 0 "" ++
      " and study: " ++ x.getD 1 "" ++ "\n").data <:+: (partialImportMessage ix info).data :=
  summary_fold_line info x hx _

/-- C14 (amended). Conflict summary content: a run that skips a group as a
duplicate ends with `success`; it sends the summary of its list of
conflicts, and for every skipped series the summary holds the line
`Series: <series> (from patient: <patient> and study: <study>`, hence the
patient name, the study name and the series name of the conflict record
(the names with their whitespace normalized). The path of the sample file
is in the conflict record; the summary is not said to hold it. -/
theorem conflict_summary_content (env : Env) (c : Catalog) (e : Pass2Entry) (d : DtkData)
    (he : e ∈ (run env c).pass2) (hv : e.verdict = .duplicate) (hd : e.data = some d) :
    (run env c).signals.filter Signal.isTerminal = [.success] ∧
    Signal.partialImportAttempted (partialImportMessage env.indexWithoutImporting
      (run env c).priv.partialAttemptsInfo) ∈ (run env c).signals ∧
    conflictRecord d ∈ (run env c).priv.partialAttemptsInfo ∧
    qContains (partialImportMessage env.indexWithoutImporting
        (run env c).priv.partialAttemptsInfo)
      ("Series: " ++ simplified (d.first .SeriesDescription) ++ " (from patient: " ++
        simplified (d.first .PatientName) ++ " and study: " ++
        simplified (d.first .StudyDescription) ++ "\n") = true ∧
    qContains (partialImportMessage env.indexWithoutImporting
        (run env c).priv.partialAttemptsInfo) (simplified (d.first .PatientName)) = true ∧
    qContains (partialImportMessage env.indexWithoutImporting
        (run env c).priv.partialAttemptsInfo) (simplified (d.first .StudyDescription)) = true ∧
    qContains (partialImportMessage env.indexWithoutImporting
        (run env c).priv.partialAttemptsInfo) (simplified (d.first .SeriesDescription)) = true := by
  obtain ⟨pre, hpre, h | h | h⟩ := run_outcome env c
  · rw [h.2.1] at he; exact absurd he (List.not_mem_nil _)
  · rw [h.2.1] at he; exact absurd he (List.not_mem_nil _)
  · obtain ⟨hsig, -, -, -, hmem, hmsg⟩ := h
    have hrec : conflictRecord d ∈ (run env c).priv.partialAttemptsInfo := by
      apply hmem
      unfold conflictsOf
      rw [List.mem_filterMap]
      exact ⟨e, he, by simp [hv, hd]⟩
    have hline := summary_contains env.indexWithoutImporting _ _ hrec
    obtain ⟨hs, hp, hst⟩ := summary_line_names (simplified (d.first .PatientName))
      (simplified (d.first .StudyDescription)) (simplified (d.first .SeriesDescription))
    refine ⟨?_, ?_, hrec, (qContains_iff _ _).mpr hline,
      (qContains_iff _ _).mpr (hp.trans hline), (qContains_iff _ _).mpr (hst.trans hline),
      (qContains_iff _ _).mpr (hs.trans hline)⟩
    · rw [hsig, List.filter_append, filter_isTerminal_nil pre hpre]; rfl
    · rw [hsig]
      exact List.mem_append_left _ (hmsg (List.ne_nil_of_mem hrec))

/-- C14 witness: the file `/d/9` of a series that the run over `envOneFile`
has cataloged is indexed; its group is skipped as a duplicate, the run ends
with `success`, and the summary names the patient `A`, the study
`EmptyStudy` and the series `T`. -/
theorem conflict_summary_content_witness :
    (run envNextSlice (run envOneFile emptyCatalog).catalog).signals.filter
      Signal.isTerminal = [.success] ∧
    qContains (partialImportMessage true
        (run envNextSlice (run envOneFile emptyCatalog).catalog).priv.partialAttemptsInfo)
      "A" = true ∧
    qContains (partialImportMessage true
        (run envNextSlice (run envOneFile emptyCatalog).catalog).priv.partialAttemptsInfo)
      "EmptyStudy" = true ∧
    qContains (partialImportMessage true
        (run envNextSlice (run envOneFile emptyCatalog).catalog).priv.partialAttemptsInfo)
      "T" = true :=
  have h := conflict_summary_content envNextSlice (run envOneFile emptyCatalog).catalog
    ⟨"/A/EmptyStudy/T1.mha", ["/d/9"],
      some (aggregatedData (sampleHeader "A" "T" "" "") "/A/EmptyStudy/T1.mha" ["/d/9"]),
      .duplicate⟩
    (aggregatedData (sampleHeader "A" "T" "" "") "/A/EmptyStudy/T1.mha" ["/d/9"])
    (by decide) rfl rfl
  ⟨h.1, h.2.2.2.2.1, h.2.2.2.2.2.1, h.2.2.2.2.2.2⟩

/-- C14 counterexample: the file `/d/9` of a series that the run over
`envOneFile` has cataloged is indexed. Its group is skipped as a duplicate,
the run ends with `success` and sends the summary of the one conflict
record; the summary names the series, the patient and the study, and the
path `/d/9` of the skipped file is nowhere in it. -/
theorem conflict_summary_omits_path_counterexample :
    (run envNextSlice (run envOneFile emptyCatalog).catalog).pass2.map
      (fun e => (e.filesPaths, e.verdict)) = [(["/d/9"], .duplicate)] ∧
    (run envNextSlice (run envOneFile emptyCatalog).catalog).priv.partialAttemptsInfo =
      [["A", "EmptyStudy", "T", "/d/9"]] ∧
    (run envNextSlice (run envOneFile emptyCatalog).catalog).signals.filter
      Signal.isTerminal = [.success] ∧
    Signal.partialImportAttempted
      (partialImportMessage true [["A", "EmptyStudy", "T", "/d/9"]]) ∈
      (run envNextSlice (run envOneFile emptyCatalog).catalog).signals ∧
    partialImportMessage true [["A", "EmptyStudy", "T", "/d/9"]] =
      "It seems you are trying to index some images that belong to a volume which is already in the database.\nFor a more accurate index please first delete the following series: \n\nSeries: T (from patient: A and study: EmptyStudy\n" ∧
    qContains (partialImportMessage true [["A", "EmptyStudy", "T", "/d/9"]]) "/d/9" =
      false := by
  decide

/-! ### FormatResolver: the full scan and the writers -/

/-- C21. Reader full scan: when no registered reader of the cached
description can read the paths (the cached reader is absent or cannot read
them), `getSuitableReader` returns the first reader in registration order
that reports `canRead(paths)` and sets the cache to the description of that
reader; it returns no reader if and only if no registered reader can read
the paths, and then the cache is as it was. -/
theorem reader_full_scan (readers : List Reader) (st : ImporterState) (paths : List String)
    (hmiss : ∀ r ∈ readers, r.description = st.lastSuccessfulReaderDescription →
      r.canRead paths = false) :
    (∀ pre r post, readers = pre ++ r :: post → (∀ a ∈ pre, a.canRead paths = false) →
      r.canRead paths = true →
      getSuitableReader readers st paths =
        (some r, { st with lastSuccessfulReaderDescription := r.description })) ∧
    ((getSuitableReader readers st paths).1 = none ↔
      ∀ r ∈ readers, r.canRead paths = false) ∧
    ((getSuitableReader readers st paths).1 = none →
      (getSuitableReader readers st paths).2 = st) := by
  have hfirst : readers.find? (fun r =>
      decide (st.lastSuccessfulReaderDescription = r.description) && r.canRead paths)
      = none := by
    rw [List.find?_eq_none]
    intro r hr
    by_cases hd : st.lastSuccessfulReaderDescription = r.description
    · simp [hmiss r hr hd.symm]
    · simp [hd]
  have hscan : getSuitableReader readers st paths =
      match readers.find? fun r => r.canRead paths with
      | some r => (some r, { st with lastSuccessfulReaderDescription := r.description })
      | none => (none, st) := by
    unfold getSuitableReader
    simp only [hfirst]
  refine ⟨?_, ?_, ?_⟩
  · intro pre r post hsplit hpre hr
    have hfind : readers.find? (fun r => r.canRead paths) = some r := by
      rw [hsplit, List.find?_append]
      have : pre.find? (fun r => r.canRead paths) = none := by
        rw [List.find?_eq_none]
        intro a ha
        simp [hpre a ha]
      rw [this]
      simp [List.find?_cons, hr]
    rw [hscan, hfind]
  · rw [hscan]
    cases hf : readers.find? (fun r => r.canRead paths) with
    | none =>
      simp only [true_iff]
      intro r hr
      have := List.find?_eq_none.mp hf r hr
      simpa using this
    | some r =>
      constructor
      · intro h; exact Option.noConfusion h
      · intro hall
        have := List.find?_some hf
        rw [hall r (List.mem_of_find?_eq_some hf)] at this
        exact Bool.noConfusion this
  · rw [hscan]
    cases hf : readers.find? (fun r => r.canRead paths) with
    | none => intro _; rfl
    | some r => intro h; exact Option.noConfusion h

/-- C21 witness: the readers `a`, `b`, `c` are registered in this order, no
reader is cached, `a` cannot read the path and `b` and `c` can: `b` is
returned and cached. -/
theorem reader_full_scan_witness :
    getSuitableReader [pickyReader "a" ["/x"], namedReader "b", namedReader "c"]
        ImporterState.initial ["/d/1"] =
      (some (namedReader "b"),
        { ImporterState.initial with lastSuccessfulReaderDescription := "b" }) :=
  (reader_full_scan [pickyReader "a" ["/x"], namedReader "b", namedReader "c"]
    ImporterState.initial ["/d/1"]
    (by
      intro r hr hd
      simp only [List.mem_cons, List.mem_singleton, List.not_mem_nil, or_false] at hr
      rcases hr with rfl | rfl | rfl
      · rfl
      · exact absurd hd (by decide)
      · exact absurd hd (by decide))).1
    [pickyReader "a" ["/x"]] (namedReader "b") [namedReader "c"] rfl
    (by
      intro a ha
      rw [List.mem_singleton.mp ha]
      rfl)
    rfl

/-- C22, the code at the failing input: the writers `a` (images) and `b`
(meshes and images) are registered in this order. A mesh is written first:
`b` is returned and becomes the last successful writer. For the image that
follows `a` is returned, although `b`, the cached writer, handles images
and can write the path: the first loop of `getSuitableWriter` compares the
description of each writer with `lastSuccessfulReaderDescription`. -/
theorem sticky_writer_not_first :
    (getSuitableWriter
        [namedWriter "a" ["itkDataImageShort3"],
         namedWriter "b" ["vtkDataMesh", "itkDataImageShort3"]]
        ImporterState.initial "/data/m.vtk" recordMesh).1.map (·.description) = some "b" ∧
    (getSuitableWriter
        [namedWriter "a" ["itkDataImageShort3"],
         namedWriter "b" ["vtkDataMesh", "itkDataImageShort3"]]
        ImporterState.initial "/data/m.vtk" recordMesh).2.lastSuccessfulWriterDescription
      = "b" ∧
    ((namedWriter "b" ["vtkDataMesh", "itkDataImageShort3"]).handled.contains
        recordNoMetadata.description &&
      (namedWriter "b" ["vtkDataMesh", "itkDataImageShort3"]).canWrite "/data/i.mha")
      = true ∧
    (getSuitableWriter
        [namedWriter "a" ["itkDataImageShort3"],
         namedWriter "b" ["vtkDataMesh", "itkDataImageShort3"]]
        (getSuitableWriter
          [namedWriter "a" ["itkDataImageShort3"],
           namedWriter "b" ["vtkDataMesh", "itkDataImageShort3"]]
          ImporterState.initial "/data/m.vtk" recordMesh).2
        "/data/i.mha" recordNoMetadata).1.map (·.description) = some "a" := by
  decide

/-! ### PathExpander -/

/-- C23 (amended). PathExpander on a path that is not a directory: for every
path that `QDir::exists` does not report as an existing directory, whether
a regular file is there or not, `getAllFilesToBeProcessed` returns the list
that holds that path and nothing else. -/
theorem pathExpander_not_a_directory (env : Env) (path : String)
    (h : env.isDir path = false) : getAllFilesToBeProcessed env path = [path] := by
  simp [getAllFilesToBeProcessed, h, sortPaths]

/-- C23 witness: the path `/nowhere` in the environment `envABA`, whose only
directory is `/d`. -/
theorem pathExpander_not_a_directory_witness :
    envABA.isDir "/nowhere" = false ∧
    getAllFilesToBeProcessed envABA "/nowhere" = ["/nowhere"] :=
  ⟨by decide, pathExpander_not_a_directory envABA "/nowhere" (by decide)⟩

/-- C23 counterexample: in the environment `envABA` the only directory is
`/d` and the only files are `/d/1`, `/d/2`, `/d/3`; the path `/nowhere` is
neither, and `getAllFilesToBeProcessed` does not return the empty list for
it. -/
theorem pathExpander_bad_path_counterexample :
    envABA.isDir "/nowhere" = false ∧
    "/nowhere" ∉ envABA.filesUnder "/d" ∧
    getAllFilesToBeProcessed envABA "/nowhere" ≠ [] := by
  decide

/-! ### VolumeIdentity -/

theorem populate_idem (r : DtkData) (l l' : String) :
    populateMissingMetadata (populateMissingMetadata r l) l' = populateMissingMetadata r l := by
  refine populate_of_has _ l' fun k hk => hasMetaData_populate r l k ?_
  cases k <;> first | rfl | exact hk

theorem foldl_append_string (l : List String) (a : String) :
    l.foldl (fun r x => r ++ x) a = a ++ l.foldl (fun r x => r ++ x) "" := by
  induction l generalizing a with
  | nil => simp
  | cons x xs ih =>
    simp only [List.foldl_cons]
    rw [ih (a ++ x), ih ("" ++ x)]
    simp [String.append_assoc]

theorem quantizeOrientation_eq (orientation : String) :
    quantizeOrientation orientation = orientationToFiveDigits orientation := by
  unfold quantizeOrientation orientationToFiveDigits String.join
  rw [List.foldl_map]

/-- C26. VolumeKey formula: `generateUniqueVolumeId` returns the
concatenation, in this order, of the first values of patient name, study id
and series id, the quantized orientation (each blank-separated component of
the first orientation value parsed as a number and printed with five
significant digits, the texts joined without separator), and the first
values of series number, sequence name, slice thickness, rows and columns;
hence two records that agree on the first values of these nine keys get the
same key, whatever the rest of their metadata. -/
theorem volumeKey_formula (d₁ d₂ : DtkData) :
    generateUniqueVolumeId d₁ =
      String.join [d₁.first .PatientName, d₁.first .StudyID, d₁.first .SeriesID,
        orientationToFiveDigits (d₁.first .Orientation), d₁.first .SeriesNumber,
        d₁.first .SequenceName, d₁.first .SliceThickness, d₁.first .Rows,
        d₁.first .Columns] ∧
    ((∀ k ∈ volumeKeyFields, d₁.first k = d₂.first k) →
      generateUniqueVolumeId d₁ = generateUniqueVolumeId d₂) := by
  refine ⟨?_, fun h => ?_⟩
  · unfold generateUniqueVolumeId
    simp only [quantizeOrientation_eq, String.join, List.foldl_cons, List.foldl_nil,
      String.empty_append]
  · unfold generateUniqueVolumeId
    simp only [h .PatientName (by decide), h .StudyID (by decide), h .SeriesID (by decide),
      h .Orientation (by decide), h .SeriesNumber (by decide), h .SequenceName (by decide),
      h .SliceThickness (by decide), h .Rows (by decide), h .Columns (by decide)]

/-- C26 witness: two normalized records of patient `A` with the orientation
`0.866025 -0.5 0 0.5 0.866025 0`, which differ in the study description and
in the file paths, agree on the nine keys and get the same key,
`A0.86603-0.500.50.866030`: the components `0.866025`, `-0.5`, `0`, `0.5`,
`0.866025`, `0` are printed `0.86603`, `-0.5`, `0`, `0.5`, `0.86603`, `0`
(the binary64 number nearest to `0.866025` is above it), and the other
eight values are `A` and seven empty texts. -/
theorem volumeKey_formula_witness :
    (∀ k ∈ volumeKeyFields,
      (recordOfOrientation "0.866025 -0.5 0 0.5 0.866025 0" "s1" ["/d/1"]).first k =
      (recordOfOrientation "0.866025 -0.5 0 0.5 0.866025 0" "s2" ["/d/2", "/d/3"]).first k) ∧
    (recordOfOrientation "0.866025 -0.5 0 0.5 0.866025 0" "s1" ["/d/1"]).first
        .StudyDescription ≠
      (recordOfOrientation "0.866025 -0.5 0 0.5 0.866025 0" "s2" ["/d/2", "/d/3"]).first
        .StudyDescription ∧
    orientationToFiveDigits "0.866025 -0.5 0 0.5 0.866025 0" = "0.86603-0.500.50.866030" ∧
    generateUniqueVolumeId
        (recordOfOrientation "0.866025 -0.5 0 0.5 0.866025 0" "s1" ["/d/1"]) =
      "A0.86603-0.500.50.866030" ∧
    generateUniqueVolumeId
        (recordOfOrientation "0.866025 -0.5 0 0.5 0.866025 0" "s2" ["/d/2", "/d/3"]) =
      "A0.86603-0.500.50.866030" :=
  have hk : ∀ k ∈ volumeKeyFields,
      (recordOfOrientation "0.866025 -0.5 0 0.5 0.866025 0" "s1" ["/d/1"]).first k =
      (recordOfOrientation "0.866025 -0.5 0 0.5 0.866025 0" "s2" ["/d/2", "/d/3"]).first k := by
    decide
  have h1 : generateUniqueVolumeId
      (recordOfOrientation "0.866025 -0.5 0 0.5 0.866025 0" "s1" ["/d/1"]) =
      "A0.86603-0.500.50.866030" := by decide
  ⟨hk, by decide, by decide, h1,
    ((volumeKey_formula _ (recordOfOrientation "0.866025 -0.5 0 0.5 0.866025 0" "s2"
      ["/d/2", "/d/3"])).2 hk).symm.trans h1⟩

/-- C30. VolumeKey is not injective: there are two normalized records whose
first values differ on one of the nine keys of the volume id and for which
`generateUniqueVolumeId` returns the same key. Patient `AB` with study id
empty and patient `A` with study id `B` both get `AB0`; the orientations
`1 23` and `12 3` of patient `A` both give `A123`. -/
theorem volumeKey_not_injective :
    (∃ d₁ d₂ : DtkData,
      (∀ l, populateMissingMetadata d₁ l = d₁) ∧ (∀ l, populateMissingMetadata d₂ l = d₂) ∧
      (∃ k ∈ volumeKeyFields, d₁.first k ≠ d₂.first k) ∧
      generateUniqueVolumeId d₁ = generateUniqueVolumeId d₂) ∧
    (recordOfKey "AB" "" "").first .PatientName = "AB" ∧
    (recordOfKey "A" "B" "").first .PatientName = "A" ∧
    generateUniqueVolumeId (recordOfKey "AB" "" "") = "AB0" ∧
    generateUniqueVolumeId (recordOfKey "A" "B" "") = "AB0" ∧
    (recordOfKey "A" "" "1 23").first .Orientation = "1 23" ∧
    (recordOfKey "A" "" "12 3").first .Orientation = "12 3" ∧
    generateUniqueVolumeId (recordOfKey "A" "" "1 23") = "A123" ∧
    generateUniqueVolumeId (recordOfKey "A" "" "12 3") = "A123" := by
  have h1 : generateUniqueVolumeId (recordOfKey "AB" "" "") = "AB0" := by decide
  have h2 : generateUniqueVolumeId (recordOfKey "A" "B" "") = "AB0" := by decide
  refine ⟨⟨recordOfKey "AB" "" "", recordOfKey "A" "B" "",
    fun l => populate_idem _ _ l, fun l => populate_idem _ _ l,
    ⟨.PatientName, by decide, by decide⟩, h1.trans h2.symm⟩,
    by decide, by decide, h1, h2, by decide, by decide, by decide, by decide⟩

/-! ### The per-file check of the first loop -/

/-- C27 (amended). The per-file check and the ConflictDetector: for every
catalog, every header record that has at least one file path (the
ConflictDetector reads `filePaths[0]` when its chain matches) and whose
patient name, study description and series description are
whitespace-normalized, and every file name,
`checkIfExists` returns true if and only if the chain of the ConflictDetector
matches (patient by name, study by patient, name and uid, series by study
and the eight attributes) and the series found has an image row of that
file name; `isPartialImportAttempt` returns true if and only if the chain
matches. So `checkIfExists` implies the ConflictDetector, not the other way
round. -/
theorem checkIfExists_iff_chain_and_image (c : Catalog) (info : List (List String))
    (d : DtkData) (imageName : String)
    (hp : simplified (d.first .PatientName) = d.first .PatientName)
    (hst : simplified (d.first .StudyDescription) = d.first .StudyDescription)
    (hse : simplified (d.first .SeriesDescription) = d.first .SeriesDescription)
    (_ : d.metaDataValues .FilePaths ≠ []) :
    (checkIfExists c d imageName = true ↔
      ∃ p st se, selectPatient c (d.first .PatientName) = some p ∧
        selectStudy c p.id (d.first .StudyDescription) (d.first .StudyID) = some st ∧
        selectSeriesOf c d st.id = some se ∧
        (selectImage c se.id imageName).isSome = true) ∧
    ((isPartialImportAttempt c info d).1 = true ↔
      ∃ p st se, selectPatient c (d.first .PatientName) = some p ∧
        selectStudy c p.id (d.first .StudyDescription) (d.first .StudyID) = some st ∧
        selectSeriesOf c d st.id = some se) ∧
    (checkIfExists c d imageName = true → (isPartialImportAttempt c info d).1 = true) := by
  have hcheck : checkIfExists c d imageName = true ↔
      ∃ p st se, selectPatient c (d.first .PatientName) = some p ∧
        selectStudy c p.id (d.first .StudyDescription) (d.first .StudyID) = some st ∧
        selectSeriesOf c d st.id = some se ∧
        (selectImage c se.id imageName).isSome = true := by
    unfold checkIfExists selectSeriesOf
    rw [hse]
    cases h1 : selectPatient c (d.first .PatientName) with
    | none => simp [h1]
    | some p =>
      cases h2 : selectStudy c p.id (d.first .StudyDescription) (d.first .StudyID) with
      | none => simp [h1, h2]
      | some st =>
        cases h3 : selectSeries c st.id (d.first .SeriesDescription) (d.first .SeriesID)
            (d.first .Orientation) (d.first .SeriesNumber) (d.first .SequenceName)
            (d.first .SliceThickness) (d.first .Rows) (d.first .Columns) with
        | none => simp [h1, h2, h3]
        | some se =>
          cases h4 : selectImage c se.id imageName <;> simp [h1, h2, h3, h4]
  have hdet : (isPartialImportAttempt c info d).1 = true ↔
      ∃ p st se, selectPatient c (d.first .PatientName) = some p ∧
        selectStudy c p.id (d.first .StudyDescription) (d.first .StudyID) = some st ∧
        selectSeriesOf c d st.id = some se := by
    rw [isPartialImportAttempt_fst, detects_iff, hp, hst]
  refine ⟨hcheck, hdet, fun h => ?_⟩
  obtain ⟨p, st, se, h1, h2, h3, -⟩ := hcheck.mp h
  exact hdet.mpr ⟨p, st, se, h1, h2, h3⟩

/-- C27 witness: on the catalog the run over `envOneFile` leaves, the
header of the file `/d/1` of patient `A`, series `T`, which carries the path
of the file, is found by `checkIfExists` under the file name `1`, the name
of the image row of that series, and by the ConflictDetector. -/
theorem checkIfExists_iff_chain_and_image_witness :
    (headerWithPath "/d/1" "1").metaDataValues .FilePaths = ["/d/1"] ∧
    checkIfExists (run envOneFile emptyCatalog).catalog (headerWithPath "/d/1" "1") "1" = true ∧
    (isPartialImportAttempt (run envOneFile emptyCatalog).catalog []
        (headerWithPath "/d/1" "1")).1 = true :=
  have h : checkIfExists (run envOneFile emptyCatalog).catalog
      (headerWithPath "/d/1" "1") "1" = true := by decide
  ⟨by decide, h, (checkIfExists_iff_chain_and_image (run envOneFile emptyCatalog).catalog []
    (headerWithPath "/d/1" "1") "1"
    (by decide) (by decide) (by decide) (by decide)).2.2 h⟩

/-- C27 counterexample: on the catalog the run over `envOneFile` leaves, the
normalized header of one more file of the same series, `/d/9`, which carries
the path of the file, is a match for the ConflictDetector, which records the
conflict and returns true, and not for `checkIfExists` under the file name `9`:
the series has no image row of that name. -/
theorem checkIfExists_differs_counterexample :
    (run envOneFile emptyCatalog).catalog.image.map (·.name) = ["1"] ∧
    (headerWithPath "/d/9" "9").metaDataValues .FilePaths = ["/d/9"] ∧
    checkIfExists (run envOneFile emptyCatalog).catalog (headerWithPath "/d/9" "9") "9" =
      false ∧
    isPartialImportAttempt (run envOneFile emptyCatalog).catalog []
        (headerWithPath "/d/9" "9") = (true, [["A", "EmptyStudy", "T", "/d/9"]]) := by
  decide

/-! ### The fallback series label of the final loop -/

/-- C29, the code at the failing input: two image files without metadata,
`/d/a.mha` and `/d/b.mha`, are indexed on an empty catalog. Each is a group
of its own, under the aggregated names `/John Doe/EmptyStudy/a1.mha` and
`/John Doe/EmptyStudy/b1.mha`. The records read in the final loop have no
series description; after `populateMissingMetadata` their series
descriptions are `a` and `b`, the base names of the first files of the
groups, and these are the names of the series in the catalog. -/
theorem pass2_fallback_label_is_first_file :
    (run envTwoBare emptyCatalog).pass2.map
        (fun e => (e.aggregatedFileName, e.filesPaths,
          e.data.map (·.first .SeriesDescription))) =
      [("/John Doe/EmptyStudy/a1.mha", ["/d/a.mha"], some "a"),
       ("/John Doe/EmptyStudy/b1.mha", ["/d/b.mha"], some "b")] ∧
    (run envTwoBare emptyCatalog).catalog.series.map (·.name) = ["a", "b"] := by
  decide

/-! ### Extensions -/

/-- What holds of every turn of the first loop holds of every record it
leaves. -/
theorem pass1_forall (env : Env) (c : Catalog) (n : Nat) (P : Pass1Entry → Prop)
    (hstep : ∀ file s e, (pass1Step env c n file s).trace = s.trace ++ [e] → P e)
    (files : List String) :
    ∀ s, (∀ e ∈ s.trace, P e) → ∀ e ∈ (pass1 env c n files s).trace, P e := by
  induction files with
  | nil => intro s h; exact h
  | cons f fs ih =>
    intro s h
    simp only [pass1]
    split
    · exact h
    · obtain ⟨e, htr, -⟩ := pass1Step_spec env c n f s
      apply ih
      intro e' he'
      rw [htr] at he'
      rcases List.mem_append.mp he' with h' | h'
      · exact h e' h'
      · rw [List.mem_singleton.mp h']; exact hstep f s e htr

theorem eq_of_append_singleton {α : Type} {l : List α} {a b : α}
    (h : l ++ [a] = l ++ [b]) : a = b := by
  have := List.append_cancel_left h
  simpa using this

/-- When importing, a turn of the first loop that reads a header whose
extension is unresolved leaves the groups as they were, reports the type and
records the verdict `unhandledType`. -/
theorem pass1Step_unresolved (env : Env) (c : Catalog) (n : Nat) (file : String)
    (s : Pass1State) (priv : ImporterState) (d0 : DtkData)
    (hix : env.indexWithoutImporting = false)
    (h : tryReadImages env.readers s.priv [filePath file] true = (some d0, priv))
    (hext : determineFutureImageExtensionByDataType
      (populateMissingMetadata d0 (baseName file)) = "") :
    (pass1Step env c n file s).imagesGroupedByVolume = s.imagesGroupedByVolume ∧
    (pass1Step env c n file s).signals = s.signals ++
      [.progressed ((s.currentFileNumber : ℚ) / (n : ℚ) * 50),
       .showError ("Could not save file due to unhandled data type: " ++ d0.description)] ∧
    ∃ e, (pass1Step env c n file s).trace = s.trace ++ [e] ∧ e.file = file ∧
      e.verdict = .unhandledType := by
  have hx : (!env.indexWithoutImporting &&
      (determineFutureImageExtensionByDataType
        (populateMissingMetadata d0 (baseName file))).isEmpty) = true := by
    rw [hix, hext]; rfl
  have hdesc : (populateMissingMetadata d0 (baseName file)).description = d0.description := by
    unfold DtkData.hasMetaData at *
    have key : ∀ (ks : List MetaKey) (d : DtkData),
        (ks.foldl (fun d k => addIfMissing d k "") d).description = d.description := by
      intro ks
      induction ks with
      | nil => intro d; rfl
      | cons k ks ih =>
        intro d
        rw [List.foldl_cons, ih]
        unfold addIfMissing
        split <;> rfl
    unfold populateMissingMetadata
    simp only [key]
    unfold addIfMissing
    repeat' split
    all_goals rfl
  obtain ⟨htr, hsig, hgr, -, -⟩ := pass1Read_rest n s priv
    (populateMissingMetadata d0 (baseName file))
  rw [pass1Step_unhandled env c n file s priv d0 h hx]
  refine ⟨hgr, ?_,
    ⟨readEntry file (populateMissingMetadata d0 (baseName file))
      (pass1Number n s priv (populateMissingMetadata d0 (baseName file)))
      (determineFutureImageFileName (populateMissingMetadata d0 (baseName file))
        (pass1Number n s priv (populateMissingMetadata d0 (baseName file))))
      .unhandledType, ?_, rfl, rfl⟩⟩
  · show (pass1Read n s priv _).signals ++ _ = _
    rw [hsig, hdesc]; simp
  · show (pass1Read n s priv _).trace ++ _ = _
    rw [htr]

theorem pass1Step_verdict_unresolved (env : Env) (c : Catalog) (n : Nat)
    (hix : env.indexWithoutImporting = false) (file : String) (s : Pass1State)
    (e : Pass1Entry) (htr : (pass1Step env c n file s).trace = s.trace ++ [e]) :
    ∀ d, e.data = some d → determineFutureImageExtensionByDataType d = "" →
      e.verdict = .unhandledType := by
  intro d hd hext
  rcases hr : tryReadImages env.readers s.priv [filePath file] true with ⟨_ | d0, priv⟩
  · rw [pass1Step_unreadable env c n file s priv hr] at htr
    have he : unreadableEntry file = e := eq_of_append_singleton htr
    rw [← he] at hd
    exact Option.noConfusion hd
  · obtain ⟨ht, -⟩ := pass1Read_rest n s priv (populateMissingMetadata d0 (baseName file))
    by_cases hx : (!env.indexWithoutImporting &&
        (determineFutureImageExtensionByDataType
          (populateMissingMetadata d0 (baseName file))).isEmpty) = true
    · rw [pass1Step_unhandled env c n file s priv d0 hr hx] at htr
      have htr' : s.trace ++ [readEntry file (populateMissingMetadata d0 (baseName file))
          (pass1Number n s priv (populateMissingMetadata d0 (baseName file)))
          (determineFutureImageFileName (populateMissingMetadata d0 (baseName file))
            (pass1Number n s priv (populateMissingMetadata d0 (baseName file))))
          .unhandledType] = s.trace ++ [e] := by
        have htr2 : (pass1Read n s priv (populateMissingMetadata d0 (baseName file))).trace ++
            [readEntry file (populateMissingMetadata d0 (baseName file))
              (pass1Number n s priv (populateMissingMetadata d0 (baseName file)))
              (determineFutureImageFileName (populateMissingMetadata d0 (baseName file))
                (pass1Number n s priv (populateMissingMetadata d0 (baseName file))))
              .unhandledType] = s.trace ++ [e] := htr
        rw [ht] at htr2; exact htr2
      rw [← eq_of_append_singleton htr']
      rfl
    · have hxf : (!env.indexWithoutImporting &&
          (determineFutureImageExtensionByDataType
            (populateMissingMetadata d0 (baseName file))).isEmpty) = false := by
        simpa using hx
      have hdata : e.data = some (populateMissingMetadata d0 (baseName file)) := by
        cases he : checkIfExists c (populateMissingMetadata d0 (baseName file))
            (fileName file) with
        | false =>
          rw [pass1Step_grouped env c n file s priv d0 hr hxf he] at htr
          have htr' : s.trace ++ [readEntry file (populateMissingMetadata d0 (baseName file))
              (pass1Number n s priv (populateMissingMetadata d0 (baseName file)))
              (pass1Name n s priv (populateMissingMetadata d0 (baseName file)))
              .grouped] = s.trace ++ [e] := by
            have htr2 : (pass1Read n s priv
                (populateMissingMetadata d0 (baseName file))).trace ++
                [readEntry file (populateMissingMetadata d0 (baseName file))
                  (pass1Number n s priv (populateMissingMetadata d0 (baseName file)))
                  (pass1Name n s priv (populateMissingMetadata d0 (baseName file)))
                  .grouped] = s.trace ++ [e] := htr
            rw [ht] at htr2; exact htr2
          rw [← eq_of_append_singleton htr']
          rfl
        | true =>
          rw [pass1Step_existing env c n file s priv d0 hr hxf he] at htr
          have htr' : s.trace ++ [readEntry file (populateMissingMetadata d0 (baseName file))
              (pass1Number n s priv (populateMissingMetadata d0 (baseName file)))
              (pass1Name n s priv (populateMissingMetadata d0 (baseName file)))
              .alreadyInDatabase] = s.trace ++ [e] := by
            have htr2 : (pass1Read n s priv
                (populateMissingMetadata d0 (baseName file))).trace ++
                [readEntry file (populateMissingMetadata d0 (baseName file))
                  (pass1Number n s priv (populateMissingMetadata d0 (baseName file)))
                  (pass1Name n s priv (populateMissingMetadata d0 (baseName file)))
                  .alreadyInDatabase] = s.trace ++ [e] := htr
            rw [ht] at htr2; exact htr2
          rw [← eq_of_append_singleton htr']
          rfl
      rw [hdata] at hd
      have hdd : populateMissingMetadata d0 (baseName file) = d := Option.some.inj hd
      rw [hdd, hix, hext] at hxf
      exact Bool.noConfusion hxf

/-- C25. Extension mapping: `determineFutureImageExtensionByDataType`
returns `.vtk` for the type `vtkDataMesh`, `.v4d` for `vtkDataMesh4D`,
`.xml` for `v3dDataFibers`, `.dim` for any other type whose name contains
`vistal`, `.mha` for any other type whose name contains `Image`, and the
empty extension for every other type. When importing, a turn of the first
loop that reads a header whose extension is empty leaves the groups as they
were, and in the record of a run every file read with such a header has the
verdict `unhandledType`, the one that appends to no group. -/
theorem extension_mapping (env : Env) (c : Catalog) (d : DtkData) :
    (d.description = "vtkDataMesh" → determineFutureImageExtensionByDataType d = ".vtk") ∧
    (d.description = "vtkDataMesh4D" → determineFutureImageExtensionByDataType d = ".v4d") ∧
    (d.description = "v3dDataFibers" → determineFutureImageExtensionByDataType d = ".xml") ∧
    (d.description ≠ "vtkDataMesh" → d.description ≠ "vtkDataMesh4D" →
      d.description ≠ "v3dDataFibers" →
      (qContains d.description "vistal" = true →
        determineFutureImageExtensionByDataType d = ".dim") ∧
      (qContains d.description "vistal" = false → qContains d.description "Image" = true →
        determineFutureImageExtensionByDataType d = ".mha") ∧
      (qContains d.description "vistal" = false → qContains d.description "Image" = false →
        determineFutureImageExtensionByDataType d = "")) ∧
    (env.indexWithoutImporting = false →
      (∀ (n : Nat) (file : String) (s : Pass1State) (d0 : DtkData) (priv : ImporterState),
        tryReadImages env.readers s.priv [filePath file] true = (some d0, priv) →
        determineFutureImageExtensionByDataType
          (populateMissingMetadata d0 (baseName file)) = "" →
        (pass1Step env c n file s).imagesGroupedByVolume = s.imagesGroupedByVolume) ∧
      (∀ e ∈ (run env c).pass1, ∀ d', e.data = some d' →
        determineFutureImageExtensionByDataType d' = "" → e.verdict = .unhandledType)) := by
  refine ⟨?_, ?_, ?_, ?_, ?_⟩
  · intro h; simp [determineFutureImageExtensionByDataType, h]
  · intro h; simp [determineFutureImageExtensionByDataType, h]
  · intro h; simp [determineFutureImageExtensionByDataType, h]
  · intro h1 h2 h3
    refine ⟨?_, ?_, ?_⟩
    · intro hv; simp [determineFutureImageExtensionByDataType, h1, h2, h3, hv]
    · intro hv hi; simp [determineFutureImageExtensionByDataType, h1, h2, h3, hv, hi]
    · intro hv hi; simp [determineFutureImageExtensionByDataType, h1, h2, h3, hv, hi]
  · intro hix
    refine ⟨?_, ?_⟩
    · intro n file s d0 priv hr hext
      exact (pass1Step_unresolved env c n file s priv d0 hix hr hext).1
    · rw [(run_pass1 env c).1]
      exact pass1_forall env c _
        (fun e => ∀ d', e.data = some d' →
          determineFutureImageExtensionByDataType d' = "" → e.verdict = .unhandledType)
        (fun file s e htr => pass1Step_verdict_unresolved env c _ hix file s e htr)
        _ Pass1State.initial (fun e he => absurd he (List.not_mem_nil _))

/-- C25 witness: an importing run over one file of the type `someOtherType`.
The extension is empty, the file has the verdict `unhandledType`, no group
is made and the run ends with `failure`. -/
theorem extension_mapping_witness :
    determineFutureImageExtensionByDataType
      (populateMissingMetadata
        { description := "someOtherType", metaData := [], thumbnails := 0,
          zDimension := none } "1") = "" ∧
    (run envImportUnknown emptyCatalog).pass1.map (fun e => (e.file, e.verdict)) =
      [("/d/1", .unhandledType)] ∧
    (run envImportUnknown emptyCatalog).groups = [] ∧
    (run envImportUnknown emptyCatalog).signals.filter Signal.isTerminal = [.failure] :=
  have h := (extension_mapping envImportUnknown emptyCatalog
    (populateMissingMetadata
      { description := "someOtherType", metaData := [], thumbnails := 0,
        zDimension := none } "1")).2.2.2.1 (by decide) (by decide) (by decide)
  ⟨h.2.2 (by decide) (by decide), by decide, by decide, by decide⟩

/-! ### The order of the groups -/

theorem qLtChars_trans (a : List Char) :
    ∀ b c : List Char, qLtChars a b = true → qLtChars b c = true → qLtChars a c = true :=
  fun _ _ hab hbc => ltUnits_trans _ _ _ hab hbc

theorem qLt_trans {a b c : String} (hab : qLt a b = true) (hbc : qLt b c = true) :
    qLt a c = true :=
  qLtChars_trans a.data b.data c.data hab hbc

theorem QMap.mem_keys_insert {β : Type} (k : String) (v : β) (m : QMap β) (x : String)
    (hx : x ∈ (QMap.insert k v m).map (·.1)) : x = k ∨ x ∈ m.map (·.1) := by
  induction m with
  | nil =>
    simp only [QMap.insert, List.map_cons, List.map_nil, List.mem_singleton] at hx
    exact Or.inl hx
  | cons e rest ih =>
    obtain ⟨ke, ve⟩ := e
    simp only [QMap.insert] at hx
    split at hx
    · simp only [List.map_cons, List.mem_cons] at hx ⊢
      rcases hx with h | h | h
      · exact Or.inl h
      · exact Or.inr (Or.inl h)
      · exact Or.inr (Or.inr h)
    · split at hx
      · simp only [List.map_cons, List.mem_cons] at hx ⊢
        rcases hx with h | h
        · exact Or.inr (Or.inl h)
        · rcases ih h with h' | h'
          · exact Or.inl h'
          · exact Or.inr (Or.inr h')
      · simp only [List.map_cons, List.mem_cons] at hx ⊢
        rcases hx with h | h
        · exact Or.inl h
        · exact Or.inr (Or.inr h)

/-- `QMap::insert` keeps the keys in ascending order. -/
theorem QMap.insert_ascending {β : Type} (k : String) (v : β) (m : QMap β)
    (h : QMap.Ascending m) : QMap.Ascending (QMap.insert k v m) := by
  unfold QMap.Ascending at h ⊢
  induction m with
  | nil => simp [QMap.insert]
  | cons e rest ih =>
    obtain ⟨ke, ve⟩ := e
    rw [List.map_cons, List.pairwise_cons] at h
    simp only [QMap.insert]
    by_cases h1 : qLt k ke = true
    · simp only [h1, if_true, List.map_cons, List.pairwise_cons]
      refine ⟨?_, h.1, h.2⟩
      intro x hx
      rcases List.mem_cons.mp hx with hx | hx
      · rw [hx]; exact h1
      · exact qLt_trans h1 (h.1 x hx)
    · by_cases h2 : qLt ke k = true
      · simp only [h1, h2, if_true, if_false, Bool.false_eq_true, List.map_cons,
          List.pairwise_cons]
        refine ⟨?_, ih h.2⟩
        intro x hx
        rcases QMap.mem_keys_insert k v rest x hx with hx | hx
        · rw [hx]; exact h2
        · exact h.1 x hx
      · have heq : k = ke :=
          qLt_trichotomy k ke (by simpa using h1) (by simpa using h2)
        subst heq
        simp only [h1, if_false, Bool.false_eq_true, List.map_cons, List.pairwise_cons]
        exact ⟨h.1, h.2⟩

theorem pass1Step_ascending (env : Env) (c : Catalog) (n : Nat) (file : String)
    (s : Pass1State) (h : QMap.Ascending s.imagesGroupedByVolume) :
    QMap.Ascending (pass1Step env c n file s).imagesGroupedByVolume := by
  obtain ⟨e, -, -, -, -, hcase⟩ := pass1Step_spec env c n file s
  rcases hcase with ⟨-, -, -, hg⟩ | ⟨d, priv, -, -, -, -, -, -, hcase⟩
  · rw [hg]; exact h
  · rcases hcase with ⟨-, hg⟩ | ⟨-, -, hg, -⟩ | ⟨-, -, hg, -⟩
    · rw [hg]; exact h
    · rw [hg]; exact QMap.insert_ascending _ _ _ h
    · rw [hg]; exact h

theorem pass1_ascending (env : Env) (c : Catalog) (n : Nat) (files : List String) :
    ∀ s, QMap.Ascending s.imagesGroupedByVolume →
      QMap.Ascending (pass1 env c n files s).imagesGroupedByVolume := by
  induction files with
  | nil => intro s h; exact h
  | cons f fs ih =>
    intro s h
    simp only [pass1]
    split
    · exact h
    · exact ih _ (pass1Step_ascending env c n f s h)

/-- C28 (amended). Pass 2 order: for every run, Pass 2 processes the groups
in strictly ascending order of their aggregated output names
(`QString::operator<`, the order in which a `QMap` is iterated), whatever
the order in which Pass 1 first inserted the names; the map of the groups
is in that order, and a run that ends with `success` has processed every
group of the map, in the order of the map. -/
theorem pass2_in_key_order (env : Env) (c : Catalog) :
    ((run env c).pass2.map (·.aggregatedFileName)).Pairwise (fun a b => qLt a b = true) ∧
    QMap.Ascending (run env c).groups ∧
    (Signal.success ∈ (run env c).signals →
      (run env c).pass2.map (fun e => (e.aggregatedFileName, e.filesPaths)) =
        (run env c).groups) := by
  have hasc : QMap.Ascending (run env c).groups := by
    rw [(run_pass1 env c).2]
    exact pass1_ascending env c _ _ Pass1State.initial (by simp [QMap.Ascending, Pass1State.initial])
  obtain ⟨pre, hpre, h | h | h⟩ := run_outcome env c
  · refine ⟨by rw [h.2.1]; simp, hasc, fun hs => ?_⟩
    rw [h.1] at hs
    rcases List.mem_append.mp hs with hs | hs
    · exact absurd hs (not_mem_of_not_terminal hpre (x := .success) rfl)
    · simp at hs
  · refine ⟨by rw [h.2.1]; simp, hasc, fun hs => ?_⟩
    rw [h.1] at hs
    rcases List.mem_append.mp hs with hs | hs
    · exact absurd hs (not_mem_of_not_terminal hpre (x := .success) rfl)
    · simp at hs
  · refine ⟨?_, hasc, fun _ => h.2.2.2.1⟩
    have hnames : (run env c).pass2.map (·.aggregatedFileName) =
        (run env c).groups.map (·.1) := by
      rw [← h.2.2.2.1, List.map_map]
      rfl
    rw [hnames]
    exact hasc

/-- C28 witness: the run over `envBA` ends with `success`; the final loop
has processed the two groups of the map in the order of the map,
`/A/EmptyStudy/T2.mha` before `/B/EmptyStudy/T1.mha`. -/
theorem pass2_in_key_order_witness :
    Signal.success ∈ (run envBA emptyCatalog).signals ∧
    (run envBA emptyCatalog).groups =
      [("/A/EmptyStudy/T2.mha", ["/d/2"]), ("/B/EmptyStudy/T1.mha", ["/d/1"])] ∧
    (run envBA emptyCatalog).pass2.map (fun e => (e.aggregatedFileName, e.filesPaths)) =
      [("/A/EmptyStudy/T2.mha", ["/d/2"]), ("/B/EmptyStudy/T1.mha", ["/d/1"])] :=
  have hs : Signal.success ∈ (run envBA emptyCatalog).signals := by decide
  have hg : (run envBA emptyCatalog).groups =
      [("/A/EmptyStudy/T2.mha", ["/d/2"]), ("/B/EmptyStudy/T1.mha", ["/d/1"])] := by decide
  ⟨hs, hg, ((pass2_in_key_order envBA emptyCatalog).2.2 hs).trans hg⟩

/-- C28 counterexample: the file of patient `B` comes first and the file of
patient `A` second. Pass 1 inserts the name of the group of `B` first and
that of the group of `A` second; Pass 2 processes the group of `A` first,
and patient `A` gets the first row of the catalog. -/
theorem pass2_insertion_order_counterexample :
    (run envBA emptyCatalog).pass1.map (fun e => (e.imageFileName, e.verdict)) =
      [("/B/EmptyStudy/T1.mha", .grouped), ("/A/EmptyStudy/T2.mha", .grouped)] ∧
    (run envBA emptyCatalog).pass2.map (fun e => (e.aggregatedFileName, e.verdict)) =
      [("/A/EmptyStudy/T2.mha", .committed), ("/B/EmptyStudy/T1.mha", .committed)] ∧
    (run envBA emptyCatalog).catalog.patient.map (fun p => (p.id, p.name)) =
      [(1, "A"), (2, "B")] := by
  decide

/-! ### Progress values -/

theorem progressValues_append (a b : List Signal) :
    progressValues (a ++ b) = progressValues a ++ progressValues b := by
  simp [progressValues, List.filterMap_append]

theorem progressValues_errors (extra : List Signal)
    (h : ∀ sg ∈ extra, ∃ m, sg = Signal.showError m) : progressValues extra = [] := by
  induction extra with
  | nil => rfl
  | cons x xs ih =>
    obtain ⟨m, hm⟩ := h x (List.mem_cons_self _ _)
    subst hm
    have := ih fun sg hsg => h sg (List.mem_cons_of_mem _ hsg)
    simpa [progressValues] using this

theorem pass1Step_progress (env : Env) (c : Catalog) (n : Nat) (file : String)
    (s : Pass1State) :
    progressValues (pass1Step env c n file s).signals =
      progressValues s.signals ++ [(s.currentFileNumber : ℚ) / (n : ℚ) * 50] := by
  rcases hr : tryReadImages env.readers s.priv [filePath file] true with ⟨_ | d0, priv⟩
  · rw [pass1Step_unreadable env c n file s priv hr]
    simp [progressValues]
  · obtain ⟨-, hs, -⟩ := pass1Read_rest n s priv (populateMissingMetadata d0 (baseName file))
    by_cases hx : (!env.indexWithoutImporting &&
        (determineFutureImageExtensionByDataType
          (populateMissingMetadata d0 (baseName file))).isEmpty) = true
    · rw [pass1Step_unhandled env c n file s priv d0 hr hx]
      show progressValues ((pass1Read n s priv _).signals ++ _) = _
      rw [hs]
      simp [progressValues]
    · have hxf : (!env.indexWithoutImporting &&
          (determineFutureImageExtensionByDataType
            (populateMissingMetadata d0 (baseName file))).isEmpty) = false := by
        simpa using hx
      cases he : checkIfExists c (populateMissingMetadata d0 (baseName file))
          (fileName file) with
      | false =>
        rw [pass1Step_grouped env c n file s priv d0 hr hxf he]
        show progressValues (pass1Read n s priv _).signals = _
        rw [hs]
        simp [progressValues]
      | true =>
        rw [pass1Step_existing env c n file s priv d0 hr hxf he]
        show progressValues (pass1Read n s priv _).signals = _
        rw [hs]
        simp [progressValues]

theorem range_succ_map_shift (f : Nat → ℚ) (a k : Nat) :
    (List.range (k + 1)).map (fun i => f (a + i)) =
      f a :: (List.range k).map (fun i => f (a + 1 + i)) := by
  rw [List.range_succ_eq_map, List.map_cons, List.map_map]
  refine congrArg₂ _ rfl (List.map_congr_left fun i _ => ?_)
  simp only [Function.comp, Nat.succ_eq_add_one]
  congr 1
  omega

/-- The first loop emits the values `i / n * 50` for the files it takes, in
order. -/
theorem pass1_progress (env : Env) (c : Catalog) (n : Nat) (files : List String) :
    ∀ s, ∃ k, k ≤ files.length ∧
      progressValues (pass1 env c n files s).signals =
        progressValues s.signals ++
          (List.range k).map fun i : Nat =>
            ((s.currentFileNumber + i : ℕ) : ℚ) / (n : ℚ) * 50 := by
  induction files with
  | nil => intro s; exact ⟨0, Nat.le_refl _, by simp [pass1]⟩
  | cons f fs ih =>
    intro s
    simp only [pass1]
    split
    · exact ⟨0, Nat.zero_le _, by simp⟩
    · obtain ⟨k, hk, hprog⟩ := ih (pass1Step env c n f s)
      obtain ⟨e, -, -, hcnt, -⟩ := pass1Step_spec env c n f s
      refine ⟨k + 1, by simp only [List.length_cons]; omega, ?_⟩
      rw [hprog, pass1Step_progress, hcnt, List.append_assoc,
        range_succ_map_shift (fun i => ((i : ℕ) : ℚ) / (n : ℚ) * 50)]
      rfl

theorem pass2Step_progress (env : Env) (n : Nat) (entry : String × List String)
    (s : Pass2State) :
    progressValues (pass2Step env n entry s).signals =
      progressValues s.signals ++ [(s.currentImageIndex : ℚ) / (n : ℚ) * 50 + 50] ∧
    (pass2Step env n entry s).currentImageIndex = s.currentImageIndex + 1 := by
  obtain ⟨e, em⟩ := pass2Step_emits env n entry s
  obtain ⟨extra, hsig, hextra⟩ := em.signals_eq
  refine ⟨?_, em.index_eq⟩
  rw [hsig, progressValues_append]
  have : progressValues (Signal.progressed ((s.currentImageIndex : ℚ) / (n : ℚ) * 50 + 50)
      :: extra) = [(s.currentImageIndex : ℚ) / (n : ℚ) * 50 + 50] := by
    have h := progressValues_errors extra hextra
    simpa [progressValues] using h
  rw [this]

/-- The final loop emits the values `j / n * 50 + 50` for its groups, in
order. -/
theorem pass2_progress (env : Env) (n : Nat) (entries : List (String × List String)) :
    ∀ s, progressValues (pass2 env n entries s).signals =
      progressValues s.signals ++
        (List.range entries.length).map fun j : Nat =>
          ((s.currentImageIndex + j : ℕ) : ℚ) / (n : ℚ) * 50 + 50 := by
  induction entries with
  | nil => intro s; simp [pass2]
  | cons entry rest ih =>
    intro s
    simp only [pass2, List.length_cons]
    obtain ⟨hp, hi⟩ := pass2Step_progress env n entry s
    rw [ih, hp, hi, List.append_assoc,
      range_succ_map_shift (fun j => ((j : ℕ) : ℚ) / (n : ℚ) * 50 + 50)]
    rfl

theorem pass1Progress_bounds (n k : Nat) (hk : k ≤ n) :
    ∀ v ∈ pass1Progress n k, 0 ≤ v ∧ v < 50 := by
  intro v hv
  simp only [pass1Progress, List.mem_map, List.mem_range] at hv
  obtain ⟨i, hi, rfl⟩ := hv
  have hn : (0 : ℚ) < n := by exact_mod_cast (by omega : 0 < n)
  have hin : (i : ℚ) < n := by exact_mod_cast (by omega : i < n)
  have h1 : (i : ℚ) / n < 1 := (div_lt_one hn).mpr hin
  have h0 : (0 : ℚ) ≤ (i : ℚ) / n := by positivity
  constructor <;> linarith

theorem pass2Progress_bounds (m : Nat) : ∀ v ∈ pass2Progress m, 50 ≤ v ∧ v < 100 := by
  intro v hv
  simp only [pass2Progress, List.mem_map, List.mem_range] at hv
  obtain ⟨j, hj, rfl⟩ := hv
  have hm : (0 : ℚ) < m := by exact_mod_cast (by omega : 0 < m)
  have hjm : (j : ℚ) < m := by exact_mod_cast hj
  have h1 : (j : ℚ) / m < 1 := (div_lt_one hm).mpr hjm
  have h0 : (0 : ℚ) ≤ (j : ℚ) / m := by positivity
  constructor <;> linarith

theorem pass1Progress_sorted (n k : Nat) : (pass1Progress n k).Pairwise (· ≤ ·) := by
  unfold pass1Progress
  rw [List.pairwise_map]
  refine (List.pairwise_lt_range k).imp ?_
  intro a b hab
  have : (a : ℚ) ≤ b := by exact_mod_cast hab.le
  gcongr

theorem pass2Progress_sorted (m : Nat) : (pass2Progress m).Pairwise (· ≤ ·) := by
  unfold pass2Progress
  rw [List.pairwise_map]
  refine (List.pairwise_lt_range m).imp ?_
  intro a b hab
  have : (a : ℚ) ≤ b := by exact_mod_cast hab.le
  gcongr

/-- The progress values of a run: those of the first loop for the files it
took, followed, when the run ends with `success` and only then, by those of
the final loop for every group and by 100. -/
theorem run_progress (env : Env) (c : Catalog) :
    ∃ k, k ≤ (getAllFilesToBeProcessed env env.file).length ∧
      ((progressValues (run env c).signals =
          pass1Progress (getAllFilesToBeProcessed env env.file).length k ∧
        Signal.success ∉ (run env c).signals) ∨
       (progressValues (run env c).signals =
          pass1Progress (getAllFilesToBeProcessed env env.file).length k ++
            pass2Progress (run env c).groups.length ++ [100] ∧
        Signal.success ∈ (run env c).signals)) := by
  obtain ⟨k, hk, hprog⟩ := pass1_progress env c (getAllFilesToBeProcessed env env.file).length
    (getAllFilesToBeProcessed env env.file) Pass1State.initial
  have hprog1 : progressValues (pass1 env c (getAllFilesToBeProcessed env env.file).length
      (getAllFilesToBeProcessed env env.file) Pass1State.initial).signals =
      pass1Progress (getAllFilesToBeProcessed env env.file).length k := by
    rw [hprog]
    simp [Pass1State.initial, progressValues, pass1Progress]
  have inv := run_pass1_inv env c
  refine ⟨k, hk, ?_⟩
  unfold run
  simp only
  generalize pass1 env c (getAllFilesToBeProcessed env env.file).length
    (getAllFilesToBeProcessed env env.file) Pass1State.initial = s1 at inv hprog1 ⊢
  have h1 : Signal.success ∉ s1.signals :=
    fun h => (not_success_of_pass1 (inv.signals_ok _ h)).1 rfl
  split
  · left
    refine ⟨?_, ?_⟩
    · show progressValues (s1.signals ++ _) = _
      rw [progressValues_append, hprog1]
      simp [progressValues]
    · intro hm
      rcases List.mem_append.mp hm with hm | hm
      · exact h1 hm
      · simp at hm
  · split
    · left
      refine ⟨?_, ?_⟩
      · show progressValues (s1.signals ++ _) = _
        rw [progressValues_append, hprog1]
        simp [progressValues]
      · intro hm
        rcases List.mem_append.mp hm with hm | hm
        · exact h1 hm
        · simp at hm
    · right
      have hp2 := pass2_progress env s1.imagesGroupedByVolume.length s1.imagesGroupedByVolume
        { priv := s1.priv, catalog := c, storage := [], currentImageIndex := 0,
          signals := s1.signals, trace := [] }
      have hp2' : progressValues
          (pass2 env s1.imagesGroupedByVolume.length s1.imagesGroupedByVolume
            { priv := s1.priv, catalog := c, storage := [], currentImageIndex := 0,
              signals := s1.signals, trace := [] }).signals =
          pass1Progress (getAllFilesToBeProcessed env env.file).length k ++
            pass2Progress s1.imagesGroupedByVolume.length := by
        rw [hp2, hprog1]
        simp [pass2Progress]
      refine ⟨?_, by simp⟩
      show progressValues ((if _ then _ else _) ++ _) = _
      rw [progressValues_append]
      split
      · rw [progressValues_append, hp2']
        simp [progressValues]
      · rw [hp2']
        simp [progressValues]

/-- C24. Progress is monotone and bounded: for every run, with `n` candidate
files and `m` groups, the progress values emitted are the values `i/n*50`
of the first loop for the `k ≤ n` files it took, each at least 0 and below
50, followed, when the run ends with `success` and only then, by the values
`j/m*50+50` of the final loop, each at least 50 and below 100, and by 100;
the sequence is non-decreasing, every value lies between 0 and 100, and the
last value of a run that ends with `success` is 100. -/
theorem progress_monotone_bounded (env : Env) (c : Catalog) :
    (progressValues (run env c).signals).Pairwise (· ≤ ·) ∧
    (∀ v ∈ progressValues (run env c).signals, 0 ≤ v ∧ v ≤ 100) ∧
    (∃ k, k ≤ (getAllFilesToBeProcessed env env.file).length ∧
      (∀ v ∈ pass1Progress (getAllFilesToBeProcessed env env.file).length k,
        0 ≤ v ∧ v < 50) ∧
      (∀ v ∈ pass2Progress (run env c).groups.length, 50 ≤ v ∧ v < 100) ∧
      ((progressValues (run env c).signals =
          pass1Progress (getAllFilesToBeProcessed env env.file).length k ∧
        Signal.success ∉ (run env c).signals) ∨
       (progressValues (run env c).signals =
          pass1Progress (getAllFilesToBeProcessed env env.file).length k ++
            pass2Progress (run env c).groups.length ++ [100] ∧
        Signal.success ∈ (run env c).signals))) ∧
    (Signal.success ∈ (run env c).signals →
      (progressValues (run env c).signals).getLast? = some 100) := by
  obtain ⟨k, hk, hcase⟩ := run_progress env c
  have hb1 := pass1Progress_bounds (getAllFilesToBeProcessed env env.file).length k hk
  have hb2 := pass2Progress_bounds (run env c).groups.length
  have hs1 := pass1Progress_sorted (getAllFilesToBeProcessed env env.file).length k
  have hs2 := pass2Progress_sorted (run env c).groups.length
  refine ⟨?_, ?_, ⟨k, hk, hb1, hb2, hcase⟩, ?_⟩
  · rcases hcase with ⟨h, -⟩ | ⟨h, -⟩
    · rw [h]; exact hs1
    · rw [h, List.pairwise_append, List.pairwise_append]
      refine ⟨⟨hs1, hs2, ?_⟩, List.pairwise_singleton _ _, ?_⟩
      · intro a ha b hb
        have := (hb1 a ha).2
        have := (hb2 b hb).1
        linarith
      · intro a ha b hb
        rw [List.mem_singleton] at hb
        subst hb
        rcases List.mem_append.mp ha with ha | ha
        · have := (hb1 a ha).2
          linarith
        · have := (hb2 a ha).2
          linarith
  · intro v hv
    rcases hcase with ⟨h, -⟩ | ⟨h, -⟩
    · rw [h] at hv
      have := hb1 v hv
      exact ⟨this.1, by linarith [this.2]⟩
    · rw [h] at hv
      rcases List.mem_append.mp hv with hv | hv
      · rcases List.mem_append.mp hv with hv | hv
        · have := hb1 v hv
          exact ⟨this.1, by linarith [this.2]⟩
        · have := hb2 v hv
          exact ⟨by linarith [this.1], by linarith [this.2]⟩
      · rw [List.mem_singleton] at hv
        subst hv
        constructor <;> norm_num
  · intro hs
    rcases hcase with ⟨-, h⟩ | ⟨h, -⟩
    · exact absurd hs h
    · rw [h]; simp

/-- C24 witness: the run over the three files of `envABA`, which make two
groups, ends with `success`; its progress values never decrease and the
last of them is 100. -/
theorem progress_monotone_bounded_witness :
    Signal.success ∈ (run envABA emptyCatalog).signals ∧
    (progressValues (run envABA emptyCatalog).signals).Pairwise (· ≤ ·) ∧
    (progressValues (run envABA emptyCatalog).signals).getLast? = some 100 :=
  ⟨by decide, (progress_monotone_bounded envABA emptyCatalog).1,
    (progress_monotone_bounded envABA emptyCatalog).2.2.2 (by decide)⟩

end MedInria
